import Mathlib

/-!
ImGui-Toast: a shallow embedding of `src/Toast.h`.

The C++ `float` is idealised as an arbitrary linear ordered field `F` (exact arithmetic, no
rounding); every definition is computable and can be run at `F = ℚ`, and the theorems about the
spring integrator are instantiated at `F = ℝ`.  The C++ `int` is `Int`: the counters of the
layout loop are list lengths and never overflow; for arbitrary `int` arguments
`CalculateStackParams32` reduces every `int` operation to 32 bits.  The process-wide registry
`toasts` is passed explicitly as a `List (ToastData F)` (front of the vector = head of the list).

What the header takes from its host and from libraries is taken as a parameter:
* `sqrtf` (from `<cmath>`, used by `ImLength`),
* `CalcTextSize` (ImGui text measurement, used by the `ToastData` constructor),
* `screen_size` (`ImGui::GetIO().DisplaySize`) and `delta_time` (`ImGui::GetIO().DeltaTime`),
* `font_size` (`ImGui::GetFontSize()`, used by the renderer).

The background draw list is modelled by the list of calls made on it (`DrawCall`).
-/

namespace Custom.Toast

/-- The two-component vector `ImVec2` of imgui.h. -/
@[ext]
structure ImVec2 (F : Type) where
  x : F
  y : F

/-- Result of `CalculateStackParams` (Toast.h:20-25). -/
structure StackParams (F : Type) where
  offset_y : F
  scale : F
  alpha : F
  shadow : F

/-- Spring state of a toast (Toast.h:27-30). -/
structure ToastPhysics (F : Type) where
  velocity : ImVec2 F
  acceleration : ImVec2 F

/-- One notification (Toast.h:32-49), fields in the order of the source. -/
structure ToastData (F : Type) where
  title : String
  content : String
  duration : F
  timer : F
  target_pos : ImVec2 F
  current_pos : ImVec2 F
  start_pos : ImVec2 F
  animation_progress : F
  active : Bool
  height : F
  is_error : Bool
  is_exiting : Bool
  physics : ToastPhysics F
  scale : F
  alpha : F
  shadow : F
  exit_progress : F

/-- The four-component colour `ImVec4` of imgui.h. -/
structure ImVec4 (F : Type) where
  x : F
  y : F
  z : F
  w : F

/-- The `ImDrawFlags` values the renderer passes (`None` is the default argument). -/
inductive ImDrawFlags where
  | None
  | RoundCornersTop
  | RoundCornersBottom
  deriving DecidableEq

/-- A call on the background draw list.  The colour is the `ImVec4` handed to
`ImGui::GetColorU32`; the font of `AddText` is always `ImGui::GetFont()` and is left out. -/
inductive DrawCall (F : Type) where
  | AddRectFilled (p_min p_max : ImVec2 F) (col : ImVec4 F) (rounding : F) (flags : ImDrawFlags)
  | AddText (font_size : F) (pos : ImVec2 F) (col : ImVec4 F) (text : String)

section Embedding

variable {F : Type} [LinearOrderedField F]

/-- Componentwise `operator+` of imgui.h. -/
def ImVec2.add (a b : ImVec2 F) : ImVec2 F := ⟨a.x + b.x, a.y + b.y⟩

/-- Componentwise `operator-` of imgui.h. -/
def ImVec2.sub (a b : ImVec2 F) : ImVec2 F := ⟨a.x - b.x, a.y - b.y⟩

/-- Scaling `operator*(ImVec2, float)` of imgui.h. -/
def ImVec2.smul (a : ImVec2 F) (s : F) : ImVec2 F := ⟨a.x * s, a.y * s⟩

/-- Toast.h:14. -/
def toast_width : F := 280

/-- Toast.h:15. -/
def toast_margin : F := 20

/-- Toast.h:16. -/
def toast_spacing : F := 12

/-- Toast.h:17. -/
def animation_duration : F := 3 / 2

/-- Toast.h:18. -/
def max_visible_toasts : Int := 5

/-- `ImClamp` of imgui_internal.h: `(v < mn) ? mn : (v > mx) ? mx : v`. -/
def ImClamp (v mn mx : F) : F := if v < mn then mn else if v > mx then mx else v

/-- `ImMin` of imgui_internal.h on `int`: `lhs < rhs ? lhs : rhs`. -/
def ImMin (lhs rhs : Int) : Int := if lhs < rhs then lhs else rhs

/-- The constructor `ToastData::ToastData` (Toast.h:51-60); `target_pos` and `physics` get the
zero vectors of their default constructors. -/
def ToastData.new (CalcTextSize : String → ImVec2 F) (t c : String) (d : F) (err : Bool) :
    ToastData F :=
  let content_size := CalcTextSize c
  { title := t
    content := c
    duration := d
    timer := 0
    target_pos := ⟨0, 0⟩
    current_pos := ⟨0, 0⟩
    start_pos := ⟨0, 0⟩
    animation_progress := 0
    active := true
    height := 50 + content_size.y
    is_error := err
    is_exiting := false
    physics := ⟨⟨0, 0⟩, ⟨0, 0⟩⟩
    scale := 1
    alpha := 1
    shadow := 0
    exit_progress := 0 }

/-- `Easing::EaseOutQuad` (Toast.h:65). -/
def EaseOutQuad (t : F) : F := 1 - (1 - t) * (1 - t)

/-- `Easing::EaseOutBack` (Toast.h:66-70). -/
def EaseOutBack (t : F) : F :=
  let c1 : F := 170158 / 100000
  let c3 : F := c1 + 1
  1 + c3 * (t - 1) ^ 3 + c1 * (t - 1) ^ 2

/-- `ImLength` (Toast.h:74-76), over the host's `sqrtf`. -/
def ImLength (sqrtf : F → F) (vec : ImVec2 F) : F := sqrtf (vec.x * vec.x + vec.y * vec.y)

/-- `CustomLerp` at `T = float` (Toast.h:78-81). -/
def CustomLerp (a b t : F) (easing : F → F) : F := a + (b - a) * easing t

/-- `CalculateStackParams` (Toast.h:83-94) with the `int` arithmetic carried out in `Int`.  This
is the value the source computes whenever none of its `int` operations overflows, as in every call
the layout loop makes; `CalculateStackParams32` carries out the same arithmetic in 32 bits. -/
def CalculateStackParams (index total_count : Int) : StackParams F :=
  let depth : Int := total_count - index + 1
  { offset_y := ((depth - 1 : Int) : F) * 6
    scale := ImClamp (1 - ((depth - 1 : Int) : F) * (4 / 100)) (85 / 100) 1
    alpha := ImClamp (1 - ((depth - 1 : Int) : F) * (15 / 100)) (6 / 10) 1
    shadow := ImClamp (3 / 10 - ((depth - 1 : Int) : F) * (8 / 100)) (1 / 10) (3 / 10) }

/-- The value a 32-bit two's-complement `int` holds after an operation whose exact result is
`z`: the representative of `z` modulo `2^32` in `[-2^31, 2^31 - 1]`. -/
def wrapInt32 (z : Int) : Int := (z + 2147483648) % 4294967296 - 2147483648

/-- `CalculateStackParams` (Toast.h:83-94) on 32-bit `int` arguments: each of the three `int`
operations `total_count - index`, `... + 1` and `depth - 1` is reduced by `wrapInt32`.  (Signed
overflow is undefined in C++; the wrap is what the compiled two's-complement code computes.) -/
def CalculateStackParams32 (index total_count : Int) : StackParams F :=
  let depth : Int := wrapInt32 (wrapInt32 (total_count - index) + 1)
  { offset_y := ((wrapInt32 (depth - 1) : Int) : F) * 6
    scale := ImClamp (1 - ((wrapInt32 (depth - 1) : Int) : F) * (4 / 100)) (85 / 100) 1
    alpha := ImClamp (1 - ((wrapInt32 (depth - 1) : Int) : F) * (15 / 100)) (6 / 10) 1
    shadow :=
      ImClamp (3 / 10 - ((wrapInt32 (depth - 1) : Int) : F) * (8 / 100)) (1 / 10) (3 / 10) }

/-- `UpdateToastPhysics` (Toast.h:96-117). -/
def UpdateToastPhysics (sqrtf : F → F) (toast : ToastData F) (params : StackParams F)
    (delta_time : F) : ToastData F :=
  let target_pos := toast.target_pos
  let displacement := target_pos.sub toast.current_pos
  let distance := ImLength sqrtf displacement
  let moved : ToastData F :=
    if distance > 1 / 10 then
      let acceleration := (displacement.smul 25).sub (toast.physics.velocity.smul (35 / 10))
      let velocity := toast.physics.velocity.add (acceleration.smul delta_time)
      let max_speed : F := 800
      let current_speed := ImLength sqrtf velocity
      let velocity := if current_speed > max_speed then velocity.smul (max_speed / current_speed)
        else velocity
      { toast with
        physics := ⟨velocity, acceleration⟩
        current_pos := toast.current_pos.add (velocity.smul delta_time) }
    else
      { toast with
        physics := ⟨toast.physics.velocity.smul (1 - delta_time * 8), toast.physics.acceleration⟩
        current_pos := target_pos }
  { moved with
    scale := CustomLerp moved.scale params.scale (delta_time * 8) EaseOutQuad
    alpha := CustomLerp moved.alpha params.alpha (delta_time * 6) EaseOutQuad
    shadow := CustomLerp moved.shadow params.shadow (delta_time * 5) EaseOutQuad }

/-- The toast `Show` builds before inserting it (Toast.h:120-124). -/
def shownToast (CalcTextSize : String → ImVec2 F) (screen_size : ImVec2 F)
    (title content : String) (duration : F) (is_error : Bool) : ToastData F :=
  let toast := ToastData.new CalcTextSize title content duration is_error
  let start_pos : ImVec2 F := ⟨screen_size.x + toast_width, toast_margin⟩
  let toast := { toast with start_pos := start_pos }
  let toast := { toast with current_pos := toast.start_pos }
  { toast with target_pos := ⟨screen_size.x - toast_width - toast_margin - 35, toast_margin⟩ }

/-- `Show` (Toast.h:119-126): the new toast is inserted at the front. -/
def Show (CalcTextSize : String → ImVec2 F) (screen_size : ImVec2 F) (title content : String)
    (duration : F) (is_error : Bool) (toasts : List (ToastData F)) : List (ToastData F) :=
  shownToast CalcTextSize screen_size title content duration is_error :: toasts

/-- The visibility rule, written out twice in the source (Toast.h:155-156 and 249-250). -/
def countsVisible (toast : ToastData F) : Bool :=
  (!toast.is_exiting && decide (toast.animation_progress > 1 / 10)) ||
    (toast.is_exiting && decide (toast.exit_progress < 9 / 10))

/-- The skip test of the layout loop (Toast.h:165-166). -/
def layoutSkips (toast : ToastData F) : Bool :=
  (toast.is_exiting && decide (toast.exit_progress ≥ 9 / 10)) ||
    (!toast.is_exiting && decide (toast.animation_progress < 1 / 10))

/-- Body of the first loop of `UpdateAndRender` for one toast (Toast.h:136-153): `none` when the
toast is erased, otherwise the toast with its timers advanced. -/
def timerStep (delta_time : F) (screen_size : ImVec2 F) (toast : ToastData F) :
    Option (ToastData F) :=
  if toast.is_exiting then
    let toast := { toast with
      exit_progress := toast.exit_progress + delta_time / animation_duration }
    if toast.exit_progress ≥ 1 then none else some toast
  else
    let toast := { toast with
      animation_progress := toast.animation_progress + delta_time / animation_duration }
    if toast.animation_progress ≥ 1 then
      let toast := { toast with animation_progress := 1 }
      let toast := { toast with timer := toast.timer + delta_time }
      if toast.timer ≥ toast.duration then
        some { toast with
          is_exiting := true
          exit_progress := 0
          target_pos := ⟨screen_size.x + toast_width, toast.current_pos.y⟩ }
      else some toast
    else some toast

/-- First loop of `UpdateAndRender` (Toast.h:134-160): the registry after the erasures, and
`visible_count`. -/
def timerLoop (delta_time : F) (screen_size : ImVec2 F) :
    Int → List (ToastData F) → List (ToastData F) × Int
  | visible_count, [] => ([], visible_count)
  | visible_count, toast :: rest =>
    match timerStep delta_time screen_size toast with
    | none => timerLoop delta_time screen_size visible_count rest
    | some toast =>
      let visible_count := if countsVisible toast then visible_count + 1 else visible_count
      let r := timerLoop delta_time screen_size visible_count rest
      (toast :: r.1, r.2)

/-- The two running variables of the layout loop (Toast.h:162-163). -/
structure LayoutState (F : Type) where
  current_y : F
  current_index : Int

/-- The arguments `(index, total_count)` with which the layout loop calls `CalculateStackParams`
for a toast it does not skip (Toast.h:169-170). -/
def stackArgs (visible_count : Int) (st : LayoutState F) : Int × Int :=
  (st.current_index + 1, ImMin visible_count max_visible_toasts)

/-- The layout parameters handed to `UpdateToastPhysics` for a toast the layout loop does not
skip (Toast.h:170-177). -/
def layoutParams (visible_count : Int) (st : LayoutState F) (toast : ToastData F) :
    StackParams F :=
  let params : StackParams F :=
    CalculateStackParams (stackArgs visible_count st).1 (stackArgs visible_count st).2
  if !toast.is_exiting then params
  else
    { params with
      scale := params.scale * (1 - toast.exit_progress)
      alpha := params.alpha * (1 - toast.exit_progress)
      shadow := params.shadow * (1 - toast.exit_progress) }

/-- Body of the layout loop for one toast (Toast.h:165-180). -/
def layoutStep (sqrtf : F → F) (delta_time : F) (screen_size : ImVec2 F) (visible_count : Int)
    (st : LayoutState F) (toast : ToastData F) : LayoutState F × ToastData F :=
  if layoutSkips toast then (st, toast)
  else
    let current_index := st.current_index + 1
    let params0 : StackParams F :=
      CalculateStackParams (stackArgs visible_count st).1 (stackArgs visible_count st).2
    let params := layoutParams visible_count st toast
    let toast :=
      if !toast.is_exiting then
        { toast with
          target_pos :=
            ⟨screen_size.x - toast_width - toast_margin - 35, st.current_y + params0.offset_y⟩ }
      else toast
    let toast_height_with_scale := toast.height * params.scale
    let toast := UpdateToastPhysics sqrtf toast params delta_time
    (⟨st.current_y + (toast_height_with_scale + toast_spacing), current_index⟩, toast)

/-- Second loop of `UpdateAndRender` (Toast.h:162-181). -/
def layoutLoop (sqrtf : F → F) (delta_time : F) (screen_size : ImVec2 F) (visible_count : Int) :
    LayoutState F → List (ToastData F) → List (ToastData F)
  | _, [] => []
  | st, toast :: rest =>
    let r := layoutStep sqrtf delta_time screen_size visible_count st toast
    r.2 :: layoutLoop sqrtf delta_time screen_size visible_count r.1 rest

/-- The layout states in which the layout loop reaches the toasts it does not skip, in order:
entry `k` is the pair `(current_y, current_index)` just before the toast of rank `k + 1`. -/
def layoutStates (sqrtf : F → F) (delta_time : F) (screen_size : ImVec2 F) (visible_count : Int) :
    LayoutState F → List (ToastData F) → List (LayoutState F)
  | _, [] => []
  | st, toast :: rest =>
    let r := layoutStep sqrtf delta_time screen_size visible_count st toast
    if layoutSkips toast then layoutStates sqrtf delta_time screen_size visible_count r.1 rest
    else st :: layoutStates sqrtf delta_time screen_size visible_count r.1 rest

/-- The registry after one `UpdateAndRender` (Toast.h:128-181).  The third loop (Toast.h:183-235)
only reads the registry and writes to the draw list, so it does not change this state; its draw
calls are `UpdateAndRenderDraws`. -/
def UpdateAndRender (sqrtf : F → F) (delta_time : F) (screen_size : ImVec2 F)
    (toasts : List (ToastData F)) : List (ToastData F) :=
  let r := timerLoop delta_time screen_size 0 toasts
  layoutLoop sqrtf delta_time screen_size r.2 ⟨toast_margin, 0⟩ r.1

/-- `ClearAll` (Toast.h:238-244). -/
def ClearAll (screen_size : ImVec2 F) (toasts : List (ToastData F)) : List (ToastData F) :=
  toasts.map fun toast =>
    { toast with
      is_exiting := true
      exit_progress := 0
      target_pos := ⟨screen_size.x + toast_width, toast.current_pos.y⟩ }

/-- `GetVisibleCount` (Toast.h:246-255). -/
def GetVisibleCount : List (ToastData F) → Int
  | [] => 0
  | toast :: rest => (if countsVisible toast then 1 else 0) + GetVisibleCount rest

/-- Registries reachable from the empty one by `Show`, `ClearAll` and `UpdateAndRender`, the
frame time of every `UpdateAndRender` satisfying `okDt`. -/
inductive ReachableWith (sqrtf : F → F) (okDt : F → Prop) : List (ToastData F) → Prop
  | empty : ReachableWith sqrtf okDt []
  | afterShow (CalcTextSize : String → ImVec2 F) (screen_size : ImVec2 F) (title content : String)
      (duration : F) (is_error : Bool) {toasts : List (ToastData F)} :
      ReachableWith sqrtf okDt toasts →
      ReachableWith sqrtf okDt (Show CalcTextSize screen_size title content duration is_error toasts)
  | afterClearAll (screen_size : ImVec2 F) {toasts : List (ToastData F)} :
      ReachableWith sqrtf okDt toasts → ReachableWith sqrtf okDt (ClearAll screen_size toasts)
  | afterUpdate (delta_time : F) (screen_size : ImVec2 F) {toasts : List (ToastData F)} :
      okDt delta_time → ReachableWith sqrtf okDt toasts →
      ReachableWith sqrtf okDt (UpdateAndRender sqrtf delta_time screen_size toasts)

/-- Reachable with arbitrary frame times `dt ≥ 0`. -/
def Reachable (sqrtf : F → F) (toasts : List (ToastData F)) : Prop :=
  ReachableWith sqrtf (fun dt => 0 ≤ dt) toasts

/-- The test under which the first loop of `UpdateAndRender` erases a toast (Toast.h:136-140). -/
def erasedThisFrame (delta_time : F) (toast : ToastData F) : Bool :=
  toast.is_exiting && decide (toast.exit_progress + delta_time / animation_duration ≥ 1)

/-- The acceleration `UpdateToastPhysics` computes in its far branch (Toast.h:102). -/
def springAcceleration (toast : ToastData F) : ImVec2 F :=
  ((toast.target_pos.sub toast.current_pos).smul 25).sub (toast.physics.velocity.smul (35 / 10))

/-- The velocity of the far branch before the speed clamp (Toast.h:103). -/
def unclampedVelocity (toast : ToastData F) (delta_time : F) : ImVec2 F :=
  toast.physics.velocity.add ((springAcceleration toast).smul delta_time)

/-- `GetVisibleCount` in state-passing form: the registry as the loop leaves it (the loop variable
is a reference, Toast.h:248) together with the returned count. -/
def GetVisibleCountRun : Int → List (ToastData F) → List (ToastData F) × Int
  | count, [] => ([], count)
  | count, toast :: rest =>
    let count := if countsVisible toast then count + 1 else count
    let r := GetVisibleCountRun count rest
    (toast :: r.1, r.2)

/-- The fill fraction of the progress bar (Toast.h:227). -/
def timeProgress (toast : ToastData F) : F := 1 - toast.timer / toast.duration

/-- Body of the third loop of `UpdateAndRender` for one toast (Toast.h:184-234): the draw calls it
issues, in order.  `font_size` is `ImGui::GetFontSize()`. -/
def renderToast (font_size : F) (toast : ToastData F) : List (DrawCall F) :=
  let overall_progress :=
    if toast.is_exiting then 1 - toast.exit_progress else toast.animation_progress
  if overall_progress < 1 / 100 then []
  else
    let eased_progress :=
      if toast.is_exiting then CustomLerp 1 0 toast.exit_progress EaseOutBack
      else CustomLerp 0 1 toast.animation_progress EaseOutBack
    let final_scale := toast.scale * eased_progress
    let final_alpha := eased_progress * toast.alpha
    let scaled_width := toast_width * final_scale
    let scaled_height := toast.height * final_scale
    let draw_pos := toast.current_pos
    let shadow_calls : List (DrawCall F) :=
      if toast.shadow > 1 / 100 ∧ final_alpha > 1 / 10 then
        let shadow_color : ImVec4 F := ⟨0, 0, 0, toast.shadow * final_alpha * (8 / 10)⟩
        let shadow_offset : ImVec2 F := ⟨2, 4⟩
        [DrawCall.AddRectFilled (draw_pos.add shadow_offset)
          ((draw_pos.add ⟨scaled_width, scaled_height⟩).add shadow_offset) shadow_color
          (16 * final_scale) ImDrawFlags.None]
      else []
    let body_calls : List (DrawCall F) :=
      if final_alpha > 1 / 100 then
        let bg_color : ImVec4 F := ⟨1 / 10, 1 / 10, 1 / 10, 95 / 100 * final_alpha⟩
        let accent_color : ImVec4 F :=
          if toast.is_error then ⟨1, 3 / 10, 3 / 10, 1⟩ else ⟨112 / 255, 109 / 255, 214 / 255, 1⟩
        let title_color : ImVec4 F := if toast.is_error then accent_color else ⟨1, 1, 1, final_alpha⟩
        let title_pos := draw_pos.add ⟨12 * final_scale, 12 * final_scale⟩
        let content_color : ImVec4 F := ⟨8 / 10, 8 / 10, 8 / 10, final_alpha⟩
        let content_pos := draw_pos.add ⟨12 * final_scale, 36 * final_scale⟩
        let progress_calls : List (DrawCall F) :=
          if !toast.is_exiting ∧ toast.animation_progress ≥ 1 then
            let time_progress := timeProgress toast
            let progress_min : ImVec2 F :=
              ⟨draw_pos.x, draw_pos.y + scaled_height - 3 * final_scale⟩
            let progress_max : ImVec2 F :=
              ⟨draw_pos.x + scaled_width * time_progress, draw_pos.y + scaled_height⟩
            [DrawCall.AddRectFilled progress_min progress_max
              ⟨accent_color.x, accent_color.y, accent_color.z, final_alpha⟩ (8 * final_scale)
              ImDrawFlags.RoundCornersBottom]
          else []
        [DrawCall.AddRectFilled draw_pos (draw_pos.add ⟨scaled_width, scaled_height⟩) bg_color
            (16 * final_scale) ImDrawFlags.RoundCornersTop,
          DrawCall.AddText (font_size * final_scale) title_pos title_color toast.title,
          DrawCall.AddText (font_size * (9 / 10) * final_scale) content_pos content_color
            toast.content] ++ progress_calls
      else []
    shadow_calls ++ body_calls

/-- Third loop of `UpdateAndRender` (Toast.h:183-235): the registry is drawn back to front. -/
def renderLoop (font_size : F) (toasts : List (ToastData F)) : List (DrawCall F) :=
  toasts.reverse.flatMap (renderToast font_size)

/-- The draw calls of one `UpdateAndRender` (Toast.h:128-236): the registry is updated and laid
out, then drawn. -/
def UpdateAndRenderDraws (sqrtf : F → F) (font_size delta_time : F) (screen_size : ImVec2 F)
    (toasts : List (ToastData F)) : List (DrawCall F) :=
  renderLoop font_size (UpdateAndRender sqrtf delta_time screen_size toasts)

/-- The draw call is the progress bar: the only rectangle with rounded bottom corners. -/
def DrawCall.isProgressBar : DrawCall F → Bool
  | DrawCall.AddRectFilled _ _ _ _ flags => decide (flags = ImDrawFlags.RoundCornersBottom)
  | DrawCall.AddText _ _ _ _ => false

/-- The timer of a toast that is not exiting matches its entry animation: either the animation
is not complete and the timer has not started, or it is complete and the timer is running,
strictly between 0 and the duration. -/
def TimerConsistent (toast : ToastData F) : Prop :=
  toast.is_exiting = false →
    (toast.animation_progress < 1 ∧ toast.timer = 0) ∨
      (toast.animation_progress = 1 ∧ 0 < toast.timer ∧ toast.timer < toast.duration)

/-- Both progress values of a toast lie in the unit interval. -/
def ProgressInUnit (toast : ToastData F) : Prop :=
  0 ≤ toast.animation_progress ∧ toast.animation_progress ≤ 1 ∧
    0 ≤ toast.exit_progress ∧ toast.exit_progress ≤ 1

/-- The `depth` that `CalculateStackParams` computes from its arguments (Toast.h:85). -/
def stackDepth (index total_count : Int) : Int := total_count - index + 1

/-- The toasts the layout loop of one `UpdateAndRender` ranks (does not skip), in rank order, as
they are after the timer loop of that call. -/
def rankedToasts (delta_time : F) (screen_size : ImVec2 F) (toasts : List (ToastData F)) :
    List (ToastData F) :=
  (timerLoop delta_time screen_size 0 toasts).1.filter fun toast => !layoutSkips toast

/-- The argument pairs `(index, total_count)` of the calls of `CalculateStackParams` in the layout
loop of one `UpdateAndRender`, in rank order. -/
def layoutCalls (sqrtf : F → F) (delta_time : F) (screen_size : ImVec2 F)
    (toasts : List (ToastData F)) : List (Int × Int) :=
  let r := timerLoop delta_time screen_size 0 toasts
  (layoutStates sqrtf delta_time screen_size r.2 ⟨toast_margin, 0⟩ r.1).map (stackArgs r.2)

/-- The depth values of those calls. -/
def layoutDepths (sqrtf : F → F) (delta_time : F) (screen_size : ImVec2 F)
    (toasts : List (ToastData F)) : List Int :=
  (layoutCalls sqrtf delta_time screen_size toasts).map fun a => stackDepth a.1 a.2

/-- The `offset_y` values those calls return. -/
def layoutOffsets (sqrtf : F → F) (delta_time : F) (screen_size : ImVec2 F)
    (toasts : List (ToastData F)) : List F :=
  (layoutCalls sqrtf delta_time screen_size toasts).map fun a =>
    (CalculateStackParams a.1 a.2 : StackParams F).offset_y

/-- The toast after `n` successive `UpdateToastPhysics` calls with the same layout parameters and
frame time; `target_pos` is not written by the integrator, so it is held fixed. -/
def physicsFrames (sqrtf : F → F) (params : StackParams F) (delta_time : F) :
    Nat → ToastData F → ToastData F
  | 0, toast => toast
  | n + 1, toast =>
    UpdateToastPhysics sqrtf (physicsFrames sqrtf params delta_time n toast) params delta_time

/-- The toast `Show` creates, put at rest `offset` units to the right of its target: a start
state for `physicsFrames`. -/
def shownToastAt (CalcTextSize : String → ImVec2 F) (screen_size : ImVec2 F) (offset : F) :
    ToastData F :=
  let toast := shownToast CalcTextSize screen_size "A" "msg" 5 false
  { toast with current_pos := ⟨toast.target_pos.x + offset, toast.target_pos.y⟩ }

/-- The integrator of `UpdateToastPhysics` along one fixed direction: `s.1` is the signed
distance to the target and `s.2` the signed speed, both measured along a unit vector.  Used to
analyse the motion of a toast that starts at rest, which never leaves the line through its start
and its target. -/
def springStep (delta_time : F) (s : F × F) : F × F :=
  if 1 / 10 < |s.1| then
    let speed := s.2 + (s.1 * 25 - s.2 * (35 / 10)) * delta_time
    let speed := if 800 < |speed| then speed * (800 / |speed|) else speed
    (s.1 - speed * delta_time, speed)
  else (0, s.2 * (1 - delta_time * 8))

/-- Iterates of `springStep`. -/
def springRun (delta_time : F) : Nat → F × F → F × F
  | 0, s => s
  | n + 1, s => springStep delta_time (springRun delta_time n s)

/-- Toast `toast` lies on the line through its target with direction `e`: its displacement to
the target is `s.1 * e` and its velocity `s.2 * e`. -/
def Along (e : ImVec2 F) (toast : ToastData F) (s : F × F) : Prop :=
  toast.target_pos.sub toast.current_pos = e.smul s.1 ∧ toast.physics.velocity = e.smul s.2

/-- A quadratic form that every unclamped step of `springStep` multiplies by
`1 - 3.5 * delta_time`. -/
def springEnergy (delta_time : F) (s : F × F) : F :=
  25 * s.1 ^ 2 + (25 * delta_time - 35 / 10) * s.1 * s.2 + (1 - (35 / 10) * delta_time) * s.2 ^ 2

/-- The smoothed visual parameters of a toast lie within their ranges. -/
def VisualInRange (toast : ToastData F) : Prop :=
  0 ≤ toast.scale ∧ toast.scale ≤ 1 ∧ 0 ≤ toast.alpha ∧ toast.alpha ≤ 1 ∧
    0 ≤ toast.shadow ∧ toast.shadow ≤ 3 / 10

/-- The registry after `n` successive `UpdateAndRender` calls with the same frame time and
screen size. -/
def runFrames (sqrtf : F → F) (delta_time : F) (screen_size : ImVec2 F) :
    Nat → List (ToastData F) → List (ToastData F)
  | 0, toasts => toasts
  | n + 1, toasts =>
    UpdateAndRender sqrtf delta_time screen_size (runFrames sqrtf delta_time screen_size n toasts)

/-- The registry holds exactly one toast, of duration 5, with the given lifecycle values. -/
def SingleToast (toasts : List (ToastData F)) (exiting : Bool) (ap timer ep : F) : Prop :=
  ∃ t, toasts = [t] ∧ t.is_exiting = exiting ∧ t.animation_progress = ap ∧ t.timer = timer ∧
    t.exit_progress = ep ∧ t.duration = 5

end Embedding

/-- A computable stand-in for `sqrtf` on the rationals, used to run the embedding on examples:
`⌊√(p·q)⌋ / q` for `x = p / q`, which is the exact root whenever `x` is the square of a rational. -/
def sqrtQ (x : ℚ) : ℚ := (Nat.sqrt (x.num.toNat * x.den) : ℚ) / x.den

/-- A text measurement for examples: every string is 14 units high and 7 units wide per byte. -/
def measureQ (s : String) : ImVec2 ℚ := ⟨7 * s.utf8ByteSize, 14⟩

/-- A 1920 x 1080 display for examples. -/
def screenQ : ImVec2 ℚ := ⟨1920, 1080⟩

/-- Eight toasts registered in quick succession on the empty registry. -/
def eightShownQ : List (ToastData ℚ) :=
  (Show measureQ screenQ "A" "msg" 5 false)^[8] []

/-- The registry one frame of 1/5 s after eight toasts were registered: all eight are entering
with `animation_progress = 2/15`. -/
def eightToastsQ : List (ToastData ℚ) := UpdateAndRender sqrtQ (1 / 5) screenQ eightShownQ

/-- The toast `Show` creates, half way through its exit: `is_exiting` with
`exit_progress = 1/2`; its height is `50 + 14 = 64`. -/
def exitingToastQ : ToastData ℚ :=
  { shownToast measureQ screenQ "A" "msg" 5 false with is_exiting := true, exit_progress := 1 / 2 }

section Structure

variable {F : Type} [LinearOrderedField F]

theorem timerLoop_fst (dt : F) (scr : ImVec2 F) (vc : Int) (l : List (ToastData F)) :
    (timerLoop dt scr vc l).1 = l.filterMap (timerStep dt scr) := by
  induction l generalizing vc with
  | nil => rfl
  | cons t ts ih =>
    cases h : timerStep dt scr t with
    | none => simp [timerLoop, h, ih]
    | some t1 => simp [timerLoop, h, ih]

theorem length_filter_not_eq {α : Type} (p : α → Bool) (l : List α) :
    (l.filter fun a => !p a).length = l.length - l.countP p := by
  induction l with
  | nil => rfl
  | cons a l ih =>
    have hle := List.countP_le_length p (l := l)
    cases h : p a
    · simp only [List.filter_cons, List.countP_cons, h, ih, Bool.not_false, if_true,
        List.length_cons, Bool.false_eq_true, if_false]
      omega
    · simp only [List.filter_cons, List.countP_cons, h, ih, Bool.not_true, if_true,
        List.length_cons, Bool.false_eq_true, if_false]
      omega

/-- `timerStep` with its local rebindings of `toast` written out. -/
theorem timerStep_eq (dt : F) (scr : ImVec2 F) (t : ToastData F) :
    timerStep dt scr t =
      if t.is_exiting = true then
        if 1 ≤ t.exit_progress + dt / animation_duration then none
        else some { t with exit_progress := t.exit_progress + dt / animation_duration }
      else if 1 ≤ t.animation_progress + dt / animation_duration then
        if t.duration ≤ t.timer + dt then
          some { t with
            animation_progress := 1
            timer := t.timer + dt
            is_exiting := true
            exit_progress := 0
            target_pos := ⟨scr.x + toast_width, t.current_pos.y⟩ }
        else some { t with animation_progress := 1, timer := t.timer + dt }
      else some { t with animation_progress := t.animation_progress + dt / animation_duration } :=
  rfl

theorem timerStep_isSome (dt : F) (scr : ImVec2 F) (t : ToastData F) :
    (timerStep dt scr t).isSome = !erasedThisFrame dt t := by
  unfold timerStep erasedThisFrame
  by_cases he : t.is_exiting = true
  · by_cases h1 : 1 ≤ t.exit_progress + dt / animation_duration
    · simp [he, h1]
    · simp [he, h1]
  · simp only [Bool.not_eq_true] at he
    simp only [he, Bool.false_and, Bool.not_false, Bool.false_eq_true, if_false]
    split_ifs <;> rfl

theorem UpdateToastPhysics_fields (sqrtf : F → F) (t : ToastData F) (p : StackParams F) (dt : F) :
    let u := UpdateToastPhysics sqrtf t p dt
    u.title = t.title ∧ u.content = t.content ∧ u.duration = t.duration ∧ u.timer = t.timer ∧
      u.start_pos = t.start_pos ∧ u.animation_progress = t.animation_progress ∧
      u.active = t.active ∧ u.height = t.height ∧ u.is_error = t.is_error ∧
      u.is_exiting = t.is_exiting ∧ u.exit_progress = t.exit_progress ∧
      u.target_pos = t.target_pos := by
  simp only [UpdateToastPhysics]
  split_ifs <;> simp

theorem UpdateToastPhysics_visual (sqrtf : F → F) (t : ToastData F) (p : StackParams F) (dt : F) :
    let u := UpdateToastPhysics sqrtf t p dt
    u.scale = CustomLerp t.scale p.scale (dt * 8) EaseOutQuad ∧
      u.alpha = CustomLerp t.alpha p.alpha (dt * 6) EaseOutQuad ∧
      u.shadow = CustomLerp t.shadow p.shadow (dt * 5) EaseOutQuad := by
  simp only [UpdateToastPhysics]
  split_ifs <;> simp

/-- What the layout loop leaves untouched in a toast: everything but the targets, the spring
state and the smoothed visual parameters. -/
theorem layoutStep_fields (sqrtf : F → F) (dt : F) (scr : ImVec2 F) (vc : Int)
    (st : LayoutState F) (t : ToastData F) :
    let u := (layoutStep sqrtf dt scr vc st t).2
    u.title = t.title ∧ u.content = t.content ∧ u.duration = t.duration ∧ u.timer = t.timer ∧
      u.start_pos = t.start_pos ∧ u.animation_progress = t.animation_progress ∧
      u.active = t.active ∧ u.height = t.height ∧ u.is_error = t.is_error ∧
      u.is_exiting = t.is_exiting ∧ u.exit_progress = t.exit_progress := by
  simp only [layoutStep]
  by_cases hs : layoutSkips t = true
  · simp [hs]
  · simp only [hs, Bool.false_eq_true, if_false]
    have h := UpdateToastPhysics_fields sqrtf
      (if (!t.is_exiting) = true then
        { t with
          target_pos :=
            ⟨scr.x - toast_width - toast_margin - 35,
              st.current_y +
                (CalculateStackParams (stackArgs vc st).1 (stackArgs vc st).2 : StackParams F).offset_y⟩ }
      else t) (layoutParams vc st t) dt
    simp only at h
    obtain ⟨h1, h2, h3, h4, h5, h6, h7, h8, h9, h10, h11, -⟩ := h
    rw [h1, h2, h3, h4, h5, h6, h7, h8, h9, h10, h11]
    split_ifs <;> simp

/-- Each toast of the registry after `UpdateAndRender` comes from exactly one toast the first loop
did not erase, in the same order: first its timers were advanced, then it was laid out. -/
theorem UpdateAndRender_forall₂ (sqrtf : F → F) (dt : F) (scr : ImVec2 F)
    (reg : List (ToastData F)) :
    List.Forall₂
      (fun t u => ∃ t1 vc st, timerStep dt scr t = some t1 ∧
        u = (layoutStep sqrtf dt scr vc st t1).2)
      (reg.filter fun t => !erasedThisFrame dt t) (UpdateAndRender sqrtf dt scr reg) := by
  unfold UpdateAndRender
  simp only [timerLoop_fst]
  generalize (timerLoop dt scr 0 reg).2 = vc
  generalize (⟨toast_margin, 0⟩ : LayoutState F) = st
  induction reg generalizing st with
  | nil => simp [layoutLoop]
  | cons t ts ih =>
    have hs := timerStep_isSome dt scr t
    cases h : timerStep dt scr t with
    | none =>
      rw [h] at hs
      have he : erasedThisFrame dt t = true := by simpa using hs
      simp only [List.filter_cons, he, List.filterMap_cons, h]
      exact ih st
    | some t1 =>
      rw [h] at hs
      have he : erasedThisFrame dt t = false := by simpa using hs
      simp only [List.filter_cons, he, List.filterMap_cons, h, layoutLoop]
      exact List.Forall₂.cons ⟨t1, vc, st, h, rfl⟩ (ih _)

/-- Membership form of `UpdateAndRender_forall₂`. -/
theorem mem_UpdateAndRender {sqrtf : F → F} {dt : F} {scr : ImVec2 F}
    {reg : List (ToastData F)} {u : ToastData F} (hu : u ∈ UpdateAndRender sqrtf dt scr reg) :
    ∃ t ∈ reg, ∃ t1 vc st, timerStep dt scr t = some t1 ∧
      u = (layoutStep sqrtf dt scr vc st t1).2 := by
  have h := UpdateAndRender_forall₂ sqrtf dt scr reg
  generalize UpdateAndRender sqrtf dt scr reg = out at h hu
  generalize hl : (reg.filter fun t => !erasedThisFrame dt t) = l at h
  have hsub : ∀ t ∈ l, t ∈ reg := by
    intro t ht
    rw [← hl] at ht
    exact (List.mem_filter.1 ht).1
  clear hl
  induction h with
  | nil => simp at hu
  | cons hab _ ih =>
    rcases List.mem_cons.1 hu with rfl | hu
    · exact ⟨_, hsub _ (List.mem_cons_self _ _), hab⟩
    · exact ih hu (fun t ht => hsub t (List.mem_cons_of_mem _ ht))

end Structure

section Lifecycle

variable {F : Type} [LinearOrderedField F]

theorem animation_duration_pos : (0 : F) < animation_duration := by
  unfold animation_duration
  norm_num

theorem timerStep_progress {dt : F} (hdt : 0 ≤ dt) (scr : ImVec2 F) {t t1 : ToastData F}
    (ht : ProgressInUnit t) (h : timerStep dt scr t = some t1) : ProgressInUnit t1 := by
  have hq : (0 : F) ≤ dt / animation_duration := div_nonneg hdt animation_duration_pos.le
  obtain ⟨h1, h2, h3, h4⟩ := ht
  rw [timerStep_eq] at h
  split_ifs at h with he hx ha hd
  · cases h
    exact ⟨h1, h2, by simp only; linarith, by simp only; linarith⟩
  · cases h
    exact ⟨by simp, by simp, by simp, by simp⟩
  · cases h
    exact ⟨by simp, by simp, h3, h4⟩
  · cases h
    exact ⟨by simp only; linarith, by simp only; linarith, h3, h4⟩

theorem layoutStep_progress (sqrtf : F → F) (dt : F) (scr : ImVec2 F) (vc : Int)
    (st : LayoutState F) {t : ToastData F} (ht : ProgressInUnit t) :
    ProgressInUnit (layoutStep sqrtf dt scr vc st t).2 := by
  obtain ⟨-, -, -, -, -, h6, -, -, -, -, h11⟩ := layoutStep_fields sqrtf dt scr vc st t
  unfold ProgressInUnit
  rw [h6, h11]
  exact ht

theorem timerStep_exiting {dt : F} {scr : ImVec2 F} {t t1 : ToastData F}
    (h : timerStep dt scr t = some t1) :
    (t.is_exiting = false →
        (t1.is_exiting = true ↔ t1.animation_progress = 1 ∧ t1.timer ≥ t1.duration)) ∧
      (t.is_exiting = true → t1.is_exiting = true) := by
  rw [timerStep_eq] at h
  split_ifs at h with he hx ha hd
  · cases h
    simp [he]
  · cases h
    simp [he, hd]
  · cases h
    simp only [Bool.not_eq_true] at he
    simp [he, not_le.1 hd]
  · cases h
    have hne : t.animation_progress + dt / animation_duration ≠ 1 := fun h1 => ha h1.ge
    simp only [Bool.not_eq_true] at he
    simp [he, hne]

theorem timerStep_identity {dt : F} {scr : ImVec2 F} {t t1 : ToastData F}
    (h : timerStep dt scr t = some t1) :
    t1.title = t.title ∧ t1.content = t.content ∧ t1.duration = t.duration ∧
      t1.is_error = t.is_error ∧ t1.height = t.height ∧ t1.start_pos = t.start_pos := by
  rw [timerStep_eq] at h
  split_ifs at h <;> cases h <;> simp

/-- C1. In every registry reachable from the empty one by `Show`, `ClearAll` and
`UpdateAndRender` with frame times `dt ≥ 0` of any size, every registered toast has
`0 ≤ animation_progress ≤ 1` and `0 ≤ exit_progress ≤ 1`. -/
theorem C1_progress_in_unit_interval (sqrtf : F → F) {reg : List (ToastData F)}
    (h : Reachable sqrtf reg) :
    ∀ t ∈ reg, 0 ≤ t.animation_progress ∧ t.animation_progress ≤ 1 ∧
      0 ≤ t.exit_progress ∧ t.exit_progress ≤ 1 := by
  unfold Reachable at h
  induction h with
  | empty => simp
  | afterShow cts scr title content duration err _ ih =>
    intro t ht
    rcases List.mem_cons.1 ht with rfl | ht
    · simp [shownToast, ToastData.new]
    · exact ih t ht
  | afterClearAll scr _ ih =>
    intro t ht
    obtain ⟨t0, ht0, rfl⟩ := List.mem_map.1 ht
    obtain ⟨h1, h2, -, -⟩ := ih t0 ht0
    exact ⟨h1, h2, by simp, by simp⟩
  | afterUpdate dt scr hdt _ ih =>
    intro u hu
    obtain ⟨t, ht, t1, vc, st, h1, rfl⟩ := mem_UpdateAndRender hu
    exact layoutStep_progress sqrtf dt scr vc st (timerStep_progress hdt scr (ih t ht) h1)

/-- Witness of C1: one toast shown, then a single frame of 1000 seconds; the toast is still
registered (it has just become exiting) and its progress values are in range. -/
theorem C1_progress_witness :
    Reachable sqrtQ (UpdateAndRender sqrtQ 1000 screenQ (Show measureQ screenQ "A" "msg" 5 false [])) ∧
      (UpdateAndRender sqrtQ 1000 screenQ (Show measureQ screenQ "A" "msg" 5 false [])).length = 1 ∧
      ∀ t ∈ UpdateAndRender sqrtQ 1000 screenQ (Show measureQ screenQ "A" "msg" 5 false []),
        0 ≤ t.animation_progress ∧ t.animation_progress ≤ 1 ∧
          0 ≤ t.exit_progress ∧ t.exit_progress ≤ 1 :=
  have hr : Reachable sqrtQ
      (UpdateAndRender sqrtQ 1000 screenQ (Show measureQ screenQ "A" "msg" 5 false [])) :=
    ReachableWith.afterUpdate 1000 screenQ (by norm_num)
      (ReachableWith.afterShow measureQ screenQ "A" "msg" 5 false ReachableWith.empty)
  ⟨hr, by
    rw [← (UpdateAndRender_forall₂ sqrtQ 1000 screenQ _).length_eq]
    rfl, C1_progress_in_unit_interval sqrtQ hr⟩

/-- C2. In `UpdateAndRender` (any frame time, in particular every `dt ≥ 0`) a toast that was not
exiting before the call is exiting after it if and only if its updated `animation_progress` is 1
and its updated `timer` is at least `duration`; and under `UpdateAndRender`, `Show` and
`ClearAll` a toast that was exiting and is still registered is still exiting.  The toasts are
paired in registry order: the toasts the frame does not erase with the registry after it, the
registry before `Show` with the tail after it, the registry before `ClearAll` with the one
after it. -/
theorem C2_exiting_transition (sqrtf : F → F) (CalcTextSize : String → ImVec2 F) (dt : F)
    (scr : ImVec2 F) (title content : String) (duration : F) (is_error : Bool)
    (reg : List (ToastData F)) :
    List.Forall₂
        (fun t u =>
          (t.is_exiting = false →
            (u.is_exiting = true ↔ u.animation_progress = 1 ∧ u.timer ≥ u.duration)) ∧
          (t.is_exiting = true → u.is_exiting = true))
        (reg.filter fun t => !erasedThisFrame dt t) (UpdateAndRender sqrtf dt scr reg) ∧
      (Show CalcTextSize scr title content duration is_error reg).tail = reg ∧
      List.Forall₂ (fun t u => t.is_exiting = true → u.is_exiting = true) reg
        (ClearAll scr reg) := by
  refine ⟨?_, rfl, ?_⟩
  · refine (UpdateAndRender_forall₂ sqrtf dt scr reg).imp ?_
    rintro t u ⟨t1, vc, st, h1, rfl⟩
    obtain ⟨-, -, h3, h4, -, h6, -, -, -, h10, -⟩ := layoutStep_fields sqrtf dt scr vc st t1
    rw [h3, h4, h6, h10]
    exact timerStep_exiting h1
  · unfold ClearAll
    rw [List.forall₂_map_right_iff]
    exact List.forall₂_same.2 (fun t _ _ => rfl)

/-- C3. After `UpdateAndRender` the registry consists, in the same order, of exactly the toasts
that were not (already exiting with `exit_progress + dt / animation_duration ≥ 1`), each still
the same notification (title, content, duration, style, height and start position unchanged);
a toast that was not exiting before the call is therefore never removed by it, even when it
becomes exiting in this frame. -/
theorem C3_removal_exactly_on_exit_completion (sqrtf : F → F) (dt : F) (scr : ImVec2 F)
    (reg : List (ToastData F)) :
    List.Forall₂
        (fun t u => u.title = t.title ∧ u.content = t.content ∧ u.duration = t.duration ∧
          u.is_error = t.is_error ∧ u.height = t.height ∧ u.start_pos = t.start_pos)
        (reg.filter fun t =>
          !(t.is_exiting && decide (t.exit_progress + dt / (3 / 2) ≥ 1)))
        (UpdateAndRender sqrtf dt scr reg) ∧
      (UpdateAndRender sqrtf dt scr reg).length =
        reg.length - reg.countP
          (fun t => t.is_exiting && decide (t.exit_progress + dt / (3 / 2) ≥ 1)) ∧
      ∀ t ∈ reg, t.is_exiting = false →
        t ∈ reg.filter fun t =>
          !(t.is_exiting && decide (t.exit_progress + dt / (3 / 2) ≥ 1)) := by
  have hfun : (fun t : ToastData F =>
      (t.is_exiting && decide (t.exit_progress + dt / (3 / 2) ≥ 1))) = erasedThisFrame dt := rfl
  have hfun2 : (fun t : ToastData F =>
      !(t.is_exiting && decide (t.exit_progress + dt / (3 / 2) ≥ 1))) =
      fun t => !erasedThisFrame dt t := rfl
  rw [hfun, hfun2]
  have hmain := UpdateAndRender_forall₂ sqrtf dt scr reg
  refine ⟨?_, ?_, ?_⟩
  · refine hmain.imp ?_
    rintro t u ⟨t1, vc, st, h1, rfl⟩
    obtain ⟨g1, g2, g3, -, g5, -, -, g8, g9, -, -⟩ := layoutStep_fields sqrtf dt scr vc st t1
    obtain ⟨i1, i2, i3, i4, i5, i6⟩ := timerStep_identity h1
    rw [g1, g2, g3, g5, g8, g9, i1, i2, i3, i4, i5, i6]
    exact ⟨rfl, rfl, rfl, rfl, rfl, rfl⟩
  · rw [← hmain.length_eq]
    exact length_filter_not_eq (erasedThisFrame dt) reg
  · intro t ht he
    exact List.mem_filter.2 ⟨ht, by simp [erasedThisFrame, he]⟩

/-- C4. `ClearAll` keeps all `N` toasts in their order and leaves each with `is_exiting = true`,
`exit_progress = 0` and `target_pos = (screen width + toast_width, its current_pos.y)`, whatever
its phase was; everything else in the toast is unchanged. -/
theorem C4_clearAll_forces_exit (scr : ImVec2 F) (reg : List (ToastData F)) :
    (ClearAll scr reg).length = reg.length ∧
      List.Forall₂
        (fun t u => u.is_exiting = true ∧ u.exit_progress = 0 ∧
          u.target_pos = ⟨scr.x + 280, t.current_pos.y⟩ ∧
          u.title = t.title ∧ u.content = t.content ∧ u.duration = t.duration ∧
          u.timer = t.timer ∧ u.current_pos = t.current_pos ∧ u.start_pos = t.start_pos ∧
          u.animation_progress = t.animation_progress ∧ u.active = t.active ∧
          u.height = t.height ∧ u.is_error = t.is_error ∧ u.physics = t.physics ∧
          u.scale = t.scale ∧ u.alpha = t.alpha ∧ u.shadow = t.shadow)
        reg (ClearAll scr reg) := by
  unfold ClearAll
  refine ⟨List.length_map _ _, ?_⟩
  rw [List.forall₂_map_right_iff]
  refine List.forall₂_same.2 (fun t _ => ?_)
  simp [toast_width]

/-- C5. `Show` puts the new toast at the front and leaves the previous registry behind it
untouched; the new toast carries the given title, content, duration and style, has zero timer and
progress values, is not exiting, has height `50 +` the measured content height, and starts at
`(W + toast_width, toast_margin) = (W + 280, 20)`. -/
theorem C5_show_inserts_at_front (CalcTextSize : String → ImVec2 F) (scr : ImVec2 F)
    (title content : String) (duration : F) (is_error : Bool) (reg : List (ToastData F)) :
    ∃ toast : ToastData F,
      Show CalcTextSize scr title content duration is_error reg = toast :: reg ∧
        (Show CalcTextSize scr title content duration is_error reg).length = reg.length + 1 ∧
        toast.title = title ∧ toast.content = content ∧ toast.duration = duration ∧
        toast.is_error = is_error ∧ toast.timer = 0 ∧ toast.animation_progress = 0 ∧
        toast.exit_progress = 0 ∧ toast.is_exiting = false ∧
        toast.height = 50 + (CalcTextSize content).y ∧
        toast.start_pos = ⟨scr.x + 280, 20⟩ ∧ toast.current_pos = ⟨scr.x + 280, 20⟩ :=
  ⟨_, rfl, rfl, rfl, rfl, rfl, rfl, rfl, rfl, rfl, rfl, rfl, rfl, rfl⟩

end Lifecycle

section Stack

variable {F : Type} [LinearOrderedField F]

theorem ImClamp_eq_max_min (v : F) {mn mx : F} (h : mn ≤ mx) :
    ImClamp v mn mx = max mn (min v mx) := by
  unfold ImClamp
  split_ifs with h1 h2
  · rw [max_eq_left]
    exact le_trans (min_le_left _ _) h1.le
  · rw [min_eq_right h2.le, max_eq_right h]
  · rw [min_eq_left (not_lt.1 h2), max_eq_right (not_lt.1 h1)]

/-- The closed form of `CalculateStackParams`, with `depth = total_count - index + 1`. -/
theorem CalculateStackParams_formula (index total_count : Int) :
    (CalculateStackParams index total_count : StackParams F).offset_y =
        (((total_count - index + 1 : Int) : F) - 1) * 6 ∧
      (CalculateStackParams index total_count : StackParams F).scale =
        max (85 / 100) (min (1 - (((total_count - index + 1 : Int) : F) - 1) * (4 / 100)) 1) ∧
      (CalculateStackParams index total_count : StackParams F).alpha =
        max (6 / 10) (min (1 - (((total_count - index + 1 : Int) : F) - 1) * (15 / 100)) 1) ∧
      (CalculateStackParams index total_count : StackParams F).shadow =
        max (1 / 10)
          (min (3 / 10 - (((total_count - index + 1 : Int) : F) - 1) * (8 / 100)) (3 / 10)) := by
  simp only [CalculateStackParams]
  rw [ImClamp_eq_max_min _ (by norm_num), ImClamp_eq_max_min _ (by norm_num),
    ImClamp_eq_max_min _ (by norm_num)]
  push_cast
  exact ⟨rfl, rfl, rfl, rfl⟩

/-- From depth 5 on, `CalculateStackParams` returns the lower clamp bounds. -/
theorem CalculateStackParams_deep (index total_count : Int) (h : 4 ≤ total_count - index) :
    (CalculateStackParams index total_count : StackParams F).scale = 85 / 100 ∧
      (CalculateStackParams index total_count : StackParams F).alpha = 6 / 10 ∧
      (CalculateStackParams index total_count : StackParams F).shadow = 1 / 10 := by
  have hn : (4 : F) ≤ ((total_count - index + 1 - 1 : Int) : F) := by
    have : (4 : Int) ≤ total_count - index + 1 - 1 := by omega
    exact_mod_cast this
  simp only [CalculateStackParams, ImClamp]
  refine ⟨?_, ?_, ?_⟩
  · rw [if_pos]
    linarith
  · rw [if_pos]
    linarith
  · rw [if_pos]
    linarith

theorem wrapInt32_of_mem {z : Int} (h : -2147483648 ≤ z ∧ z ≤ 2147483647) : wrapInt32 z = z := by
  unfold wrapInt32
  omega

/-- The three wrapped operations of `CalculateStackParams32` leave `total_count - index`
reduced once: the `+ 1` and the `- 1` cancel modulo `2^32`. -/
theorem wrapInt32_depth (z : Int) :
    wrapInt32 (wrapInt32 (wrapInt32 z + 1) - 1) = wrapInt32 z := by
  unfold wrapInt32
  omega

/-- In 32-bit arithmetic the function is the closed form at `wrapInt32 (total_count - index)`. -/
theorem CalculateStackParams32_eq (index total_count : Int) :
    (CalculateStackParams32 index total_count : StackParams F) =
      CalculateStackParams 1 (wrapInt32 (total_count - index) + 1) := by
  simp only [CalculateStackParams32, CalculateStackParams, wrapInt32_depth]
  have e : wrapInt32 (total_count - index) + 1 - 1 + 1 - 1 = wrapInt32 (total_count - index) := by
    omega
  rw [e]

/-- Outside that range the 32-bit function differs from the closed form at
`depth = total_count - index + 1` already in `offset_y`. -/
theorem CalculateStackParams32_offset_ne (index total_count : Int)
    (h : ¬ (-2147483648 ≤ total_count - index ∧ total_count - index ≤ 2147483647)) :
    (CalculateStackParams32 index total_count : StackParams F).offset_y ≠
      (((total_count - index + 1 : Int) : F) - 1) * 6 := by
  rw [CalculateStackParams32_eq]
  simp only [CalculateStackParams]
  intro heq
  have h6 : ((wrapInt32 (total_count - index) + 1 - 1 + 1 - 1 : Int) : F) =
      ((total_count - index + 1 : Int) : F) - 1 :=
    mul_right_cancel₀ (by norm_num : (6 : F) ≠ 0) heq
  have hz : wrapInt32 (total_count - index) + 1 - 1 + 1 - 1 = total_count - index + 1 - 1 := by
    have : ((wrapInt32 (total_count - index) + 1 - 1 + 1 - 1 : Int) : F) =
        ((total_count - index + 1 - 1 : Int) : F) := by
      rw [h6]
      push_cast
      ring
    exact_mod_cast this
  unfold wrapInt32 at hz
  omega

/-- C6, as the code behaves.  The arguments of the source are 32-bit `int`s.  Whenever
`visible_count - rank` is again a 32-bit `int` (in particular whenever no `int` operation of the
function overflows), the 32-bit function agrees with the one computed in the integers, and with
`depth = visible_count - rank + 1` it returns `offset_y = (depth-1)*6`,
`scale = clamp(1 - (depth-1)*0.04, 0.85, 1)`, `alpha = clamp(1 - (depth-1)*0.15, 0.6, 1)`,
`shadow = clamp(0.3 - (depth-1)*0.08, 0.1, 0.3)`; `(1, 1)` gives exactly `(0, 1, 1, 0.3)`; and
for rank 1 and every such `visible_count ≥ 5` the scale, alpha and shadow are the lower bounds
0.85, 0.6 and 0.1. -/
theorem C6_stack_params_formula_without_wraparound (rank visible_count : Int)
    (hd : -2147483648 ≤ visible_count - rank ∧ visible_count - rank ≤ 2147483647) :
    (CalculateStackParams32 rank visible_count : StackParams F) =
        CalculateStackParams rank visible_count ∧
      (CalculateStackParams32 rank visible_count : StackParams F).offset_y =
        (((visible_count - rank + 1 : Int) : F) - 1) * 6 ∧
      (CalculateStackParams32 rank visible_count : StackParams F).scale =
        max (85 / 100) (min (1 - (((visible_count - rank + 1 : Int) : F) - 1) * (4 / 100)) 1) ∧
      (CalculateStackParams32 rank visible_count : StackParams F).alpha =
        max (6 / 10) (min (1 - (((visible_count - rank + 1 : Int) : F) - 1) * (15 / 100)) 1) ∧
      (CalculateStackParams32 rank visible_count : StackParams F).shadow =
        max (1 / 10)
          (min (3 / 10 - (((visible_count - rank + 1 : Int) : F) - 1) * (8 / 100)) (3 / 10)) ∧
      (CalculateStackParams32 1 1 : StackParams F) = ⟨0, 1, 1, 3 / 10⟩ ∧
      (rank = 1 → 5 ≤ visible_count →
        (CalculateStackParams32 rank visible_count : StackParams F).scale = 85 / 100 ∧
          (CalculateStackParams32 rank visible_count : StackParams F).alpha = 6 / 10 ∧
          (CalculateStackParams32 rank visible_count : StackParams F).shadow = 1 / 10) := by
  have hEq : (CalculateStackParams32 rank visible_count : StackParams F) =
      CalculateStackParams rank visible_count := by
    rw [CalculateStackParams32_eq, wrapInt32_of_mem hd]
    simp only [CalculateStackParams]
    have e : visible_count - rank + 1 - 1 + 1 - 1 = visible_count - rank + 1 - 1 := by omega
    rw [e]
  obtain ⟨f1, f2, f3, f4⟩ := CalculateStackParams_formula (F := F) rank visible_count
  refine ⟨hEq, ?_, ?_, ?_, ?_, ?_, fun h1 h5 => ?_⟩
  · rw [hEq, f1]
  · rw [hEq, f2]
  · rw [hEq, f3]
  · rw [hEq, f4]
  · rw [CalculateStackParams32_eq]
    simp only [CalculateStackParams, ImClamp, wrapInt32]
    norm_num
  · rw [hEq]
    exact CalculateStackParams_deep rank visible_count (by omega)

/-- Witness of C6: rank 2 of 5 has depth 4, and rank 1 of 7 has depth 7. -/
theorem C6_witness :
    ((-2147483648 : Int) ≤ 5 - 2 ∧ (5 - 2 : Int) ≤ 2147483647) ∧
      (CalculateStackParams32 2 5 : StackParams ℚ) = CalculateStackParams 2 5 ∧
      (CalculateStackParams32 2 5 : StackParams ℚ).offset_y = 18 ∧
      (CalculateStackParams32 2 5 : StackParams ℚ).scale = 88 / 100 ∧
      (CalculateStackParams32 1 7 : StackParams ℚ).scale = 85 / 100 ∧
      (CalculateStackParams32 1 7 : StackParams ℚ).alpha = 6 / 10 ∧
      (CalculateStackParams32 1 7 : StackParams ℚ).shadow = 1 / 10 := by
  have h := C6_stack_params_formula_without_wraparound (F := ℚ) 2 5 (by decide)
  have h7 := (C6_stack_params_formula_without_wraparound (F := ℚ) 1 7 (by decide)).2.2.2.2.2.2 rfl
    (by decide)
  refine ⟨by decide, h.1, ?_, ?_, h7⟩
  · rw [h.2.1]
    norm_num
  · rw [h.2.2.1]
    norm_num

/-- Counterexample to C6 as stated: for `rank = -2147483648` (the least `int`) and
`visible_count = 1` the difference `visible_count - rank = 2147483649` does not fit an `int` and
wraps to `-2147483647`, so the function returns `offset_y = -2147483647 * 6` and `scale = 1`,
whereas the stated formula with `depth = visible_count - rank + 1 = 2147483650` gives
`offset_y = 2147483649 * 6` and `scale = 0.85`. -/
theorem C6_counterexample :
    (CalculateStackParams32 (-2147483648) 1 : StackParams ℚ).offset_y = -12884901882 ∧
      (CalculateStackParams32 (-2147483648) 1 : StackParams ℚ).scale = 1 ∧
      ((((1 - (-2147483648) + 1 : Int) : ℚ) - 1) * 6 = 12884901894) ∧
      max (85 / 100) (min (1 - ((((1 - (-2147483648) + 1 : Int) : ℚ) - 1) * (4 / 100))) 1) =
        85 / 100 ∧
      (CalculateStackParams32 (-2147483648) 1 : StackParams ℚ).offset_y ≠
        (((1 - (-2147483648) + 1 : Int) : ℚ) - 1) * 6 ∧
      (CalculateStackParams32 (-2147483648) 1 : StackParams ℚ).scale ≠
        max (85 / 100) (min (1 - ((((1 - (-2147483648) + 1 : Int) : ℚ) - 1) * (4 / 100))) 1) := by
  have w : wrapInt32 (1 - (-2147483648)) = -2147483647 := by
    unfold wrapInt32
    norm_num
  have ho : (CalculateStackParams32 (-2147483648) 1 : StackParams ℚ).offset_y = -12884901882 := by
    rw [CalculateStackParams32_eq, w]
    simp only [CalculateStackParams]
    norm_num
  have hs : (CalculateStackParams32 (-2147483648) 1 : StackParams ℚ).scale = 1 := by
    rw [CalculateStackParams32_eq, w]
    simp only [CalculateStackParams, ImClamp]
    norm_num
  refine ⟨ho, hs, by norm_num, by norm_num, ?_, ?_⟩
  · rw [ho]
    norm_num
  · rw [hs]
    norm_num

end Stack

section Scenario

variable {F : Type} [LinearOrderedField F]

theorem UpdateAndRender_nil (sqrtf : F → F) (dt : F) (scr : ImVec2 F) :
    UpdateAndRender sqrtf dt scr [] = [] := rfl

theorem UpdateAndRender_single_none (sqrtf : F → F) {dt : F} {scr : ImVec2 F} {t : ToastData F}
    (h : timerStep dt scr t = none) : UpdateAndRender sqrtf dt scr [t] = [] := by
  simp [UpdateAndRender, timerLoop, h, layoutLoop]

theorem UpdateAndRender_single_some (sqrtf : F → F) {dt : F} {scr : ImVec2 F}
    {t t1 : ToastData F} (h : timerStep dt scr t = some t1) :
    ∃ u, UpdateAndRender sqrtf dt scr [t] = [u] ∧ u.is_exiting = t1.is_exiting ∧
      u.animation_progress = t1.animation_progress ∧ u.timer = t1.timer ∧
      u.exit_progress = t1.exit_progress ∧ u.duration = t1.duration := by
  refine ⟨(layoutStep sqrtf dt scr (if countsVisible t1 then 0 + 1 else 0)
    ⟨toast_margin, 0⟩ t1).2, ?_, ?_⟩
  · simp [UpdateAndRender, timerLoop, h, layoutLoop]
  · obtain ⟨-, -, h3, h4, -, h6, -, -, -, h10, h11⟩ :=
      layoutStep_fields sqrtf dt scr (if countsVisible t1 then 0 + 1 else 0) ⟨toast_margin, 0⟩ t1
    exact ⟨h10, h6, h4, h11, h3⟩

theorem frame_entering (sqrtf : F → F) {dt : F} (scr : ImVec2 F) {r : List (ToastData F)}
    {ap timer ep : F} (h : SingleToast r false ap timer ep)
    (hlt : ap + dt / animation_duration < 1) :
    SingleToast (UpdateAndRender sqrtf dt scr r) false (ap + dt / animation_duration) timer ep := by
  obtain ⟨t, rfl, he, ha, htm, hep, hd⟩ := h
  have hs : timerStep dt scr t =
      some { t with animation_progress := t.animation_progress + dt / animation_duration } := by
    rw [timerStep_eq, if_neg (by simp [he]), if_neg (by rw [ha]; exact not_le.2 hlt)]
  obtain ⟨u, hu, h1, h2, h3, h4, h5⟩ := UpdateAndRender_single_some sqrtf hs
  exact ⟨u, hu, h1.trans he, h2.trans (by rw [ha]), h3.trans htm, h4.trans hep, h5.trans hd⟩

theorem frame_visible (sqrtf : F → F) {dt : F} (scr : ImVec2 F) {r : List (ToastData F)}
    {ap timer ep : F} (h : SingleToast r false ap timer ep)
    (hge : 1 ≤ ap + dt / animation_duration) (hlt : timer + dt < 5) :
    SingleToast (UpdateAndRender sqrtf dt scr r) false 1 (timer + dt) ep := by
  obtain ⟨t, rfl, he, ha, htm, hep, hd⟩ := h
  have hs : timerStep dt scr t = some { t with animation_progress := 1, timer := t.timer + dt } := by
    rw [timerStep_eq, if_neg (by simp [he]), if_pos (by rw [ha]; exact hge),
      if_neg (by rw [hd, htm]; exact not_le.2 hlt)]
  obtain ⟨u, hu, h1, h2, h3, h4, h5⟩ := UpdateAndRender_single_some sqrtf hs
  exact ⟨u, hu, h1.trans he, h2, h3.trans (by rw [htm]), h4.trans hep, h5.trans hd⟩

theorem frame_expires (sqrtf : F → F) {dt : F} (scr : ImVec2 F) {r : List (ToastData F)}
    {ap timer ep : F} (h : SingleToast r false ap timer ep)
    (hge : 1 ≤ ap + dt / animation_duration) (hle : 5 ≤ timer + dt) :
    SingleToast (UpdateAndRender sqrtf dt scr r) true 1 (timer + dt) 0 := by
  obtain ⟨t, rfl, he, ha, htm, hep, hd⟩ := h
  have hs : timerStep dt scr t =
      some { t with
        animation_progress := 1
        timer := t.timer + dt
        is_exiting := true
        exit_progress := 0
        target_pos := ⟨scr.x + toast_width, t.current_pos.y⟩ } := by
    rw [timerStep_eq, if_neg (by simp [he]), if_pos (by rw [ha]; exact hge),
      if_pos (by rw [hd, htm]; exact hle)]
  obtain ⟨u, hu, h1, h2, h3, h4, h5⟩ := UpdateAndRender_single_some sqrtf hs
  exact ⟨u, hu, h1, h2, h3.trans (by rw [htm]), h4, h5.trans hd⟩

theorem frame_exiting (sqrtf : F → F) {dt : F} (scr : ImVec2 F) {r : List (ToastData F)}
    {ap timer ep : F} (h : SingleToast r true ap timer ep)
    (hlt : ep + dt / animation_duration < 1) :
    SingleToast (UpdateAndRender sqrtf dt scr r) true ap timer (ep + dt / animation_duration) := by
  obtain ⟨t, rfl, he, ha, htm, hep, hd⟩ := h
  have hs : timerStep dt scr t =
      some { t with exit_progress := t.exit_progress + dt / animation_duration } := by
    rw [timerStep_eq, if_pos he, if_neg (by rw [hep]; exact not_le.2 hlt)]
  obtain ⟨u, hu, h1, h2, h3, h4, h5⟩ := UpdateAndRender_single_some sqrtf hs
  exact ⟨u, hu, h1.trans he, h2.trans ha, h3.trans htm, h4.trans (by rw [hep]), h5.trans hd⟩

theorem frame_erases (sqrtf : F → F) {dt : F} (scr : ImVec2 F) {r : List (ToastData F)}
    {ap timer ep : F} (h : SingleToast r true ap timer ep)
    (hge : 1 ≤ ep + dt / animation_duration) :
    UpdateAndRender sqrtf dt scr r = [] := by
  obtain ⟨t, rfl, he, ha, htm, hep, hd⟩ := h
  have hs : timerStep dt scr t = none := by
    rw [timerStep_eq, if_pos he, if_pos (by rw [hep]; exact hge)]
  exact UpdateAndRender_single_none sqrtf hs

theorem frame_step_sixtieth : (1 / 60 : F) / animation_duration = 1 / 90 := by
  unfold animation_duration
  norm_num

/-- Frames 0 to 89 of the scenario: the toast is entering, `animation_progress = n / 90`. -/
theorem scenario_entering (sqrtf : F → F) (cts : String → ImVec2 F) (scr : ImVec2 F) (n : Nat)
    (hn : n ≤ 89) :
    SingleToast (runFrames sqrtf (1 / 60) scr n (Show cts scr "A" "msg" 5 false []))
      false ((n : F) / 90) 0 0 := by
  induction n with
  | zero => exact ⟨_, rfl, rfl, by simp [shownToast, ToastData.new], rfl, rfl, rfl⟩
  | succ k ih =>
    have hk : ((k : F) + 1) < 90 := by exact_mod_cast (by omega : k + 1 < 90)
    have h := frame_entering sqrtf scr (ih (by omega))
      (by rw [frame_step_sixtieth]; linarith)
    rw [frame_step_sixtieth] at h
    have he : ((k + 1 : Nat) : F) / 90 = (k : F) / 90 + 1 / 90 := by push_cast; ring
    rw [he]
    exact h

/-- Frames 90 to 388: fully entered, `timer = (n - 89) / 60 < 5`. -/
theorem scenario_visible (sqrtf : F → F) (cts : String → ImVec2 F) (scr : ImVec2 F) (k : Nat)
    (hk : k ≤ 298) :
    SingleToast (runFrames sqrtf (1 / 60) scr (90 + k) (Show cts scr "A" "msg" 5 false []))
      false 1 (((k : F) + 1) / 60) 0 := by
  induction k with
  | zero =>
    have h := frame_visible sqrtf scr (scenario_entering sqrtf cts scr 89 le_rfl)
      (by rw [frame_step_sixtieth]; norm_num) (by norm_num)
    simpa using h
  | succ j ih =>
    have hj : ((j : F) + 1) < 299 := by exact_mod_cast (by omega : j + 1 < 299)
    have h := frame_visible sqrtf scr (ih (by omega))
      (by rw [frame_step_sixtieth]; norm_num) (by linarith)
    have he : (((j + 1 : Nat) : F) + 1) / 60 = ((j : F) + 1) / 60 + 1 / 60 := by push_cast; ring
    rw [he]
    exact h

/-- Frames 389 to 478: exiting, `exit_progress = (n - 389) / 90 < 1`. -/
theorem scenario_exiting (sqrtf : F → F) (cts : String → ImVec2 F) (scr : ImVec2 F) (j : Nat)
    (hj : j ≤ 89) :
    SingleToast (runFrames sqrtf (1 / 60) scr (389 + j) (Show cts scr "A" "msg" 5 false []))
      true 1 5 ((j : F) / 90) := by
  induction j with
  | zero =>
    have h := frame_expires sqrtf scr (scenario_visible sqrtf cts scr 298 le_rfl)
      (by rw [frame_step_sixtieth]; norm_num) (by norm_num)
    norm_num at h
    simpa using h
  | succ i ih =>
    have hi : ((i : F) + 1) < 90 := by exact_mod_cast (by omega : i + 1 < 90)
    have h := frame_exiting sqrtf scr (ih (by omega))
      (by rw [frame_step_sixtieth]; linarith)
    rw [frame_step_sixtieth] at h
    have he : ((i + 1 : Nat) : F) / 90 = (i : F) / 90 + 1 / 90 := by push_cast; ring
    rw [he]
    exact h

/-- From frame 479 on the registry is empty. -/
theorem scenario_removed (sqrtf : F → F) (cts : String → ImVec2 F) (scr : ImVec2 F) (j : Nat) :
    runFrames sqrtf (1 / 60) scr (479 + j) (Show cts scr "A" "msg" 5 false []) = [] := by
  induction j with
  | zero =>
    exact frame_erases sqrtf scr (scenario_exiting sqrtf cts scr 89 le_rfl)
      (by rw [frame_step_sixtieth]; norm_num)
  | succ i ih =>
    show UpdateAndRender sqrtf (1 / 60) scr
      (runFrames sqrtf (1 / 60) scr (479 + i) (Show cts scr "A" "msg" 5 false [])) = []
    rw [ih]
    rfl

theorem SingleToast.map_exiting {r : List (ToastData F)} {e : Bool} {ap timer ep : F}
    (h : SingleToast r e ap timer ep) : r.map (fun t => t.is_exiting) = [e] := by
  obtain ⟨t, rfl, he, -⟩ := h
  simp [he]

/-- C7, as the code behaves.  After `Show("A","msg",5.0,false)` on the empty registry and `n`
frames of `dt = 1/60`, the registry holds one toast that is not exiting for every `n < 389`
(so also after 360 frames), one exiting toast for `389 ≤ n < 479` (so also after 450 frames), and
is empty for every `n ≥ 479`: the toast is exiting by 6.5 s (390 frames: 1.5 s of entry animation
plus 5 s of duration) and removed by 8 s (480 frames), within the 600 frames. -/
theorem C7_scenario_exits_at_389_removed_at_479 (sqrtf : F → F) (cts : String → ImVec2 F)
    (scr : ImVec2 F) (n : Nat) :
    (runFrames sqrtf (1 / 60) scr n (Show cts scr "A" "msg" 5 false [])).map
        (fun t => t.is_exiting) =
      if n < 389 then [false] else if n < 479 then [true] else [] := by
  by_cases h1 : n < 389
  · rw [if_pos h1]
    by_cases h0 : n ≤ 89
    · exact (scenario_entering sqrtf cts scr n h0).map_exiting
    · obtain ⟨k, rfl⟩ : ∃ k, n = 90 + k := ⟨n - 90, by omega⟩
      exact (scenario_visible sqrtf cts scr k (by omega)).map_exiting
  · rw [if_neg h1]
    by_cases h2 : n < 479
    · rw [if_pos h2]
      obtain ⟨j, rfl⟩ : ∃ j, n = 389 + j := ⟨n - 389, by omega⟩
      exact (scenario_exiting sqrtf cts scr j (by omega)).map_exiting
    · rw [if_neg h2]
      obtain ⟨j, rfl⟩ : ∃ j, n = 479 + j := ⟨n - 479, by omega⟩
      rw [scenario_removed]
      rfl

/-- Counterexample to C7 as stated: after 360 frames the toast is registered and not exiting,
and after 450 frames the registry is not empty. -/
theorem C7_counterexample :
    (runFrames sqrtQ (1 / 60) screenQ 360 (Show measureQ screenQ "A" "msg" 5 false [])).map
        (fun t => t.is_exiting) = [false] ∧
      runFrames sqrtQ (1 / 60) screenQ 450 (Show measureQ screenQ "A" "msg" 5 false []) ≠ [] := by
  refine ⟨(scenario_visible sqrtQ measureQ screenQ 270 (by norm_num)).map_exiting, ?_⟩
  intro h
  have h2 := (scenario_exiting sqrtQ measureQ screenQ 61 (by norm_num)).map_exiting
  rw [show 389 + 61 = 450 from rfl, h] at h2
  simp at h2

end Scenario

section Layout

variable {F : Type} [LinearOrderedField F]

theorem layoutStep_index (sqrtf : F → F) (dt : F) (scr : ImVec2 F) (vc : Int)
    (st : LayoutState F) (t : ToastData F) :
    (layoutStep sqrtf dt scr vc st t).1.current_index =
      if layoutSkips t then st.current_index else st.current_index + 1 := by
  unfold layoutStep
  split_ifs <;> rfl

/-- The layout loop numbers the toasts it does not skip consecutively. -/
theorem layoutStates_index (sqrtf : F → F) (dt : F) (scr : ImVec2 F) (vc : Int)
    (st : LayoutState F) (l : List (ToastData F)) :
    (layoutStates sqrtf dt scr vc st l).map (fun s => s.current_index) =
      (List.range (l.filter fun t => !layoutSkips t).length).map
        (fun k : Nat => st.current_index + (k : Int)) := by
  induction l generalizing st with
  | nil => rfl
  | cons t ts ih =>
    have hi := layoutStep_index sqrtf dt scr vc st t
    by_cases hs : layoutSkips t = true
    · rw [if_pos hs] at hi
      simp only [layoutStates, hs, if_true, List.filter_cons, Bool.not_true, Bool.false_eq_true,
        if_false]
      rw [ih, hi]
    · simp only [Bool.not_eq_true] at hs
      rw [hs] at hi
      simp only [Bool.false_eq_true, if_false] at hi
      simp only [layoutStates, hs, Bool.false_eq_true, if_false, List.filter_cons, Bool.not_false,
        if_true, List.map_cons, List.length_cons]
      rw [List.range_succ_eq_map, List.map_cons, List.map_map, ih, hi]
      refine congrArg₂ _ (by simp) (List.map_congr_left fun k _ => ?_)
      simp only [Function.comp_apply]
      push_cast
      ring

theorem layoutCalls_eq (sqrtf : F → F) (dt : F) (scr : ImVec2 F) (reg : List (ToastData F)) :
    layoutCalls sqrtf dt scr reg =
      (List.range (rankedToasts dt scr reg).length).map
        (fun k : Nat => ((k : Int) + 1, ImMin (timerLoop dt scr 0 reg).2 max_visible_toasts)) := by
  unfold layoutCalls rankedToasts
  have h := layoutStates_index sqrtf dt scr (timerLoop dt scr 0 reg).2 ⟨toast_margin, 0⟩
    (timerLoop dt scr 0 reg).1
  have h2 := congrArg (List.map fun i : Int =>
    (i + 1, ImMin (timerLoop dt scr 0 reg).2 max_visible_toasts)) h
  simp only [List.map_map] at h2
  refine Eq.trans (List.map_congr_left fun s _ => ?_) (h2.trans (List.map_congr_left fun k _ => ?_))
  · simp only [Function.comp_apply, stackArgs]
  · simp only [Function.comp_apply, zero_add]

theorem layoutDepths_eq (sqrtf : F → F) (dt : F) (scr : ImVec2 F) (reg : List (ToastData F)) :
    layoutDepths sqrtf dt scr reg =
      (List.range (rankedToasts dt scr reg).length).map
        (fun k : Nat => ImMin (timerLoop dt scr 0 reg).2 max_visible_toasts - (k : Int)) := by
  unfold layoutDepths
  rw [layoutCalls_eq, List.map_map]
  refine List.map_congr_left fun k _ => ?_
  simp only [Function.comp_apply, stackDepth]
  ring

theorem ImMin_le_right (a b : Int) : ImMin a b ≤ b := by
  unfold ImMin
  split_ifs with h
  · exact h.le
  · exact le_rfl

theorem timerLoop_snd (dt : F) (scr : ImVec2 F) (vc : Int) (l : List (ToastData F)) :
    (timerLoop dt scr vc l).2 =
      vc + (((l.filterMap (timerStep dt scr)).filter countsVisible).length : Int) := by
  induction l generalizing vc with
  | nil => simp [timerLoop]
  | cons t ts ih =>
    cases h : timerStep dt scr t with
    | none => simp [timerLoop, h, ih]
    | some t1 =>
      cases hv : countsVisible t1
      · simp [timerLoop, h, ih, List.filter_cons, hv]
      · simp [timerLoop, h, ih, List.filter_cons, hv]
        ring

/-- A toast that is not exiting and already counts as visible stays registered, visible and
ranked through the timer loop of a frame with `dt ≥ 0`. -/
theorem timerStep_entering_visible {dt : F} (hdt : 0 ≤ dt) (scr : ImVec2 F) {t : ToastData F}
    (he : t.is_exiting = false) (ha : 1 / 10 < t.animation_progress) :
    ∃ t1, timerStep dt scr t = some t1 ∧ countsVisible t1 = true ∧ layoutSkips t1 = false := by
  have hq : (0 : F) ≤ dt / animation_duration := div_nonneg hdt animation_duration_pos.le
  rw [timerStep_eq, if_neg (by simp [he])]
  split_ifs with h1 h2
  · exact ⟨_, rfl, by simp [countsVisible], by simp [layoutSkips]⟩
  · exact ⟨_, rfl, by simp [countsVisible, he]; norm_num, by simp [layoutSkips, he]; norm_num⟩
  · refine ⟨_, rfl, ?_, ?_⟩
    · simp only [countsVisible, he, Bool.not_false, Bool.true_and, Bool.false_and, Bool.or_false,
        decide_eq_true_eq]
      linarith
    · simp only [layoutSkips, he, Bool.not_false, Bool.true_and, Bool.false_and, Bool.false_or,
        decide_eq_false_iff_not, not_lt]
      linarith

theorem timerLoop_all_entering_visible {dt : F} (hdt : 0 ≤ dt) (scr : ImVec2 F)
    (l : List (ToastData F))
    (hall : ∀ t ∈ l, t.is_exiting = false ∧ 1 / 10 < t.animation_progress) :
    ((l.filterMap (timerStep dt scr)).filter countsVisible).length = l.length ∧
      ((l.filterMap (timerStep dt scr)).filter fun t => !layoutSkips t).length = l.length := by
  induction l with
  | nil => simp
  | cons t ts ih =>
    obtain ⟨he, ha⟩ := hall t (List.mem_cons_self _ _)
    obtain ⟨t1, h1, hv, hs⟩ := timerStep_entering_visible hdt scr he ha
    obtain ⟨i1, i2⟩ := ih (fun u hu => hall u (List.mem_cons_of_mem _ hu))
    simp [List.filterMap_cons, h1, List.filter_cons, hv, hs, i1, i2]

/-- The clamped outputs of the stack formulas for a depth of at most 5. -/
theorem stack_tiers (index total_count : Int) (h : stackDepth index total_count ≤ 5) :
    let p : StackParams F := CalculateStackParams index total_count
    (p.scale = 1 ∨ p.scale = 96 / 100 ∨ p.scale = 92 / 100 ∨ p.scale = 88 / 100 ∨
        p.scale = 85 / 100) ∧
      (p.alpha = 1 ∨ p.alpha = 85 / 100 ∨ p.alpha = 70 / 100 ∨ p.alpha = 60 / 100) ∧
      (p.shadow = 3 / 10 ∨ p.shadow = 22 / 100 ∨ p.shadow = 14 / 100 ∨ p.shadow = 1 / 10) := by
  unfold stackDepth at h
  simp only [CalculateStackParams]
  generalize hd : total_count - index + 1 - 1 = d at *
  have hcases : d ≤ -1 ∨ d = 0 ∨ d = 1 ∨ d = 2 ∨ d = 3 ∨ d = 4 := by omega
  rcases hcases with hneg | rfl | rfl | rfl | rfl | rfl
  · have hc : ((d : Int) : F) ≤ -1 := by exact_mod_cast hneg
    refine ⟨Or.inl ?_, Or.inl ?_, Or.inl ?_⟩
    · unfold ImClamp
      rw [if_neg (by linarith), if_pos (by linarith)]
    · unfold ImClamp
      rw [if_neg (by linarith), if_pos (by linarith)]
    · unfold ImClamp
      rw [if_neg (by linarith), if_pos (by linarith)]
  all_goals
    simp only [ImClamp]
    norm_num

theorem GetVisibleCount_eq (reg : List (ToastData F)) :
    GetVisibleCount reg = ((reg.filter countsVisible).length : Int) := by
  induction reg with
  | nil => rfl
  | cons t ts ih =>
    cases h : countsVisible t
    · simp [GetVisibleCount, List.filter_cons, h, ih]
    · simp [GetVisibleCount, List.filter_cons, h, ih]
      ring

theorem eightShownQ_eq :
    eightShownQ = List.replicate 8 (shownToast measureQ screenQ "A" "msg" 5 false) := rfl

theorem eightToastsQ_entering :
    ∀ t ∈ eightToastsQ, t.is_exiting = false ∧ 1 / 10 < t.animation_progress := by
  intro u hu
  obtain ⟨t, ht, t1, vc, st, h1, rfl⟩ := mem_UpdateAndRender hu
  rw [eightShownQ_eq] at ht
  rw [List.eq_of_mem_replicate ht, timerStep_eq, if_neg (by simp [shownToast, ToastData.new]),
    if_neg (by norm_num [shownToast, ToastData.new, animation_duration])] at h1
  obtain ⟨-, -, -, -, -, h6, -, -, -, h10, -⟩ := layoutStep_fields sqrtQ (1 / 5) screenQ vc st t1
  rw [h6, h10]
  cases h1
  exact ⟨rfl, by norm_num [shownToast, ToastData.new, animation_duration]⟩

theorem eightToastsQ_length : eightToastsQ.length = 8 := by
  unfold eightToastsQ
  rw [← (UpdateAndRender_forall₂ sqrtQ (1 / 5) screenQ eightShownQ).length_eq]
  rfl

theorem eightToastsQ_reachable : Reachable sqrtQ eightToastsQ := by
  have hshown : ∀ n : Nat, Reachable sqrtQ ((Show measureQ screenQ "A" "msg" 5 false)^[n] []) := by
    intro n
    induction n with
    | zero => exact ReachableWith.empty
    | succ n ih =>
      rw [Function.iterate_succ_apply']
      exact ReachableWith.afterShow measureQ screenQ "A" "msg" 5 false ih
  exact ReachableWith.afterUpdate (1 / 5) screenQ (by norm_num) (hshown 8)

theorem countsVisible_of_entering {t : ToastData F} (he : t.is_exiting = false)
    (ha : 1 / 10 < t.animation_progress) : countsVisible t = true := by
  simp only [countsVisible, he, Bool.not_false, Bool.true_and, Bool.false_and, Bool.or_false,
    decide_eq_true_eq]
  exact ha

/-- C8, as the code behaves.  `GetVisibleCount` is the uncapped number of toasts passing the
visibility rule.  In the layout loop of `UpdateAndRender` the `k`-th ranked toast (`k` from 0) is
handed depth `min(visible_count, 5) - k`: every depth is at most 5, but the depths, and the
`offset_y` values computed from them, are pairwise distinct, one per ranked toast, so their number
is not capped at 5.  Only the clamped outputs take at most five values (scale), four (alpha,
shadow).  When all toasts are non-exiting with `animation_progress > 0.1` and `dt ≥ 0`, every
toast is counted and ranked. -/
theorem C8_one_depth_per_ranked_toast (sqrtf : F → F) (dt : F) (scr : ImVec2 F)
    (reg : List (ToastData F)) :
    GetVisibleCount reg = ((reg.filter countsVisible).length : Int) ∧
      layoutDepths sqrtf dt scr reg =
        (List.range (rankedToasts dt scr reg).length).map
          (fun k : Nat => ImMin (timerLoop dt scr 0 reg).2 5 - (k : Int)) ∧
      (layoutDepths sqrtf dt scr reg).Nodup ∧
      (layoutOffsets sqrtf dt scr reg).Nodup ∧
      (layoutOffsets sqrtf dt scr reg).length = (rankedToasts dt scr reg).length ∧
      (∀ d ∈ layoutDepths sqrtf dt scr reg, d ≤ 5) ∧
      (∀ a ∈ layoutCalls sqrtf dt scr reg,
        ((CalculateStackParams a.1 a.2 : StackParams F).scale = 1 ∨
            (CalculateStackParams a.1 a.2 : StackParams F).scale = 96 / 100 ∨
            (CalculateStackParams a.1 a.2 : StackParams F).scale = 92 / 100 ∨
            (CalculateStackParams a.1 a.2 : StackParams F).scale = 88 / 100 ∨
            (CalculateStackParams a.1 a.2 : StackParams F).scale = 85 / 100) ∧
          ((CalculateStackParams a.1 a.2 : StackParams F).alpha = 1 ∨
            (CalculateStackParams a.1 a.2 : StackParams F).alpha = 85 / 100 ∨
            (CalculateStackParams a.1 a.2 : StackParams F).alpha = 70 / 100 ∨
            (CalculateStackParams a.1 a.2 : StackParams F).alpha = 60 / 100) ∧
          ((CalculateStackParams a.1 a.2 : StackParams F).shadow = 3 / 10 ∨
            (CalculateStackParams a.1 a.2 : StackParams F).shadow = 22 / 100 ∨
            (CalculateStackParams a.1 a.2 : StackParams F).shadow = 14 / 100 ∨
            (CalculateStackParams a.1 a.2 : StackParams F).shadow = 1 / 10)) ∧
      (0 ≤ dt → (∀ t ∈ reg, t.is_exiting = false ∧ 1 / 10 < t.animation_progress) →
        GetVisibleCount reg = (reg.length : Int) ∧
          (layoutDepths sqrtf dt scr reg).length = reg.length) := by
  have hdepths := layoutDepths_eq sqrtf dt scr reg
  have hcalls := layoutCalls_eq sqrtf dt scr reg
  have hle : ∀ d ∈ layoutDepths sqrtf dt scr reg, d ≤ 5 := by
    intro d hd
    rw [hdepths] at hd
    obtain ⟨k, -, rfl⟩ := List.mem_map.1 hd
    have h5 := ImMin_le_right (timerLoop dt scr 0 reg).2 max_visible_toasts
    have hk : (0 : Int) ≤ (k : Int) := Int.natCast_nonneg k
    unfold max_visible_toasts at h5
    unfold max_visible_toasts
    omega
  refine ⟨GetVisibleCount_eq reg, hdepths, ?_, ?_, ?_, hle, ?_, ?_⟩
  · rw [hdepths]
    refine (List.nodup_range _).map ?_
    intro a b hab
    simp only at hab
    omega
  · unfold layoutOffsets
    rw [hcalls, List.map_map]
    refine (List.nodup_range _).map ?_
    intro a b hab
    simp only [Function.comp_apply, CalculateStackParams] at hab
    have h6 := mul_right_cancel₀ (by norm_num : (6 : F) ≠ 0) hab
    have hi := Int.cast_injective h6
    omega
  · unfold layoutOffsets
    rw [hcalls, List.length_map, List.length_map, List.length_range]
  · intro a ha
    refine stack_tiers a.1 a.2 (hle _ ?_)
    unfold layoutDepths
    exact List.mem_map_of_mem _ ha
  · intro hdt hall
    obtain ⟨h1, h2⟩ := timerLoop_all_entering_visible hdt scr reg hall
    refine ⟨?_, ?_⟩
    · rw [GetVisibleCount_eq]
      have hf : reg.filter countsVisible = reg := by
        refine List.filter_eq_self.2 fun t ht => ?_
        obtain ⟨he, ha⟩ := hall t ht
        exact countsVisible_of_entering he ha
      rw [hf]
    · rw [hdepths, List.length_map, List.length_range]
      unfold rankedToasts
      rw [timerLoop_fst]
      exact h2

/-- Witness of C8: eight toasts registered in quick succession, all entering; in the next frame
of 1/60 s all eight are counted and each gets a depth of its own. -/
theorem C8_witness :
    Reachable sqrtQ eightToastsQ ∧ eightToastsQ.length = 8 ∧
      GetVisibleCount eightToastsQ = 8 ∧
      (layoutDepths sqrtQ (1 / 60) screenQ eightToastsQ).length = 8 ∧
      (layoutDepths sqrtQ (1 / 60) screenQ eightToastsQ).Nodup :=
  have h := C8_one_depth_per_ranked_toast sqrtQ (1 / 60) screenQ eightToastsQ
  have h8 := h.2.2.2.2.2.2.2 (by norm_num) eightToastsQ_entering
  ⟨eightToastsQ_reachable, eightToastsQ_length, by rw [h8.1, eightToastsQ_length]; rfl,
    by rw [h8.2, eightToastsQ_length], h.2.2.1⟩

/-- Counterexample to C8 as stated: eight toasts registered in quick succession are all visible
one frame later; the layout loop of the next frame hands the stack formulas the eight depths
5, 4, ..., -2 and gets eight different `offset_y` values. -/
theorem C8_counterexample :
    Reachable sqrtQ eightToastsQ ∧ GetVisibleCount eightToastsQ = 8 ∧
      layoutDepths sqrtQ (1 / 60) screenQ eightToastsQ = [5, 4, 3, 2, 1, 0, -1, -2] ∧
      layoutOffsets sqrtQ (1 / 60) screenQ eightToastsQ = [24, 18, 12, 6, 0, -6, -12, -18] ∧
      ¬ (layoutDepths sqrtQ (1 / 60) screenQ eightToastsQ).toFinset.card ≤ 5 := by
  obtain ⟨h1, h2⟩ :=
    timerLoop_all_entering_visible (by norm_num : (0 : ℚ) ≤ 1 / 60) screenQ eightToastsQ
      eightToastsQ_entering
  have hlen : eightToastsQ.length = 8 := eightToastsQ_length
  have hvc : (timerLoop (1 / 60 : ℚ) screenQ 0 eightToastsQ).2 = 8 := by
    rw [timerLoop_snd, h1, hlen]
    rfl
  have hm : (rankedToasts (1 / 60 : ℚ) screenQ eightToastsQ).length = 8 := by
    unfold rankedToasts
    rw [timerLoop_fst, h2, hlen]
  have hd : layoutDepths sqrtQ (1 / 60) screenQ eightToastsQ = [5, 4, 3, 2, 1, 0, -1, -2] := by
    rw [layoutDepths_eq, hvc, hm]
    decide
  refine ⟨eightToastsQ_reachable, ?_, hd, ?_, ?_⟩
  · rw [GetVisibleCount_eq, List.filter_eq_self.2, hlen]
    · rfl
    · intro t ht
      obtain ⟨he, ha⟩ := eightToastsQ_entering t ht
      exact countsVisible_of_entering he ha
  · unfold layoutOffsets
    rw [layoutCalls_eq, hvc, hm]
    simp [List.range_succ, CalculateStackParams, ImMin, max_visible_toasts]
    norm_num
  · rw [hd]
    decide

end Layout

section Visual

variable {F : Type} [LinearOrderedField F]

theorem EaseOutQuad_mem {τ : F} (h0 : 0 ≤ τ) (h2 : τ ≤ 2) :
    0 ≤ EaseOutQuad τ ∧ EaseOutQuad τ ≤ 1 := by
  unfold EaseOutQuad
  constructor
  · nlinarith
  · nlinarith [mul_self_nonneg (1 - τ)]

/-- For `0 ≤ t ≤ 2` the eased interpolation stays between its end points. -/
theorem CustomLerp_mem {τ a b lo hi : F} (h0 : 0 ≤ τ) (h2 : τ ≤ 2) (ha : lo ≤ a ∧ a ≤ hi)
    (hb : lo ≤ b ∧ b ≤ hi) :
    lo ≤ CustomLerp a b τ EaseOutQuad ∧ CustomLerp a b τ EaseOutQuad ≤ hi := by
  obtain ⟨e0, e1⟩ := EaseOutQuad_mem h0 h2
  unfold CustomLerp
  generalize EaseOutQuad τ = e at e0 e1 ⊢
  have h1e : 0 ≤ 1 - e := by linarith
  constructor
  · nlinarith [mul_nonneg h1e (sub_nonneg.2 ha.1), mul_nonneg e0 (sub_nonneg.2 hb.1)]
  · nlinarith [mul_nonneg h1e (sub_nonneg.2 ha.2), mul_nonneg e0 (sub_nonneg.2 hb.2)]

theorem ImClamp_mem (v : F) {mn mx : F} (h : mn ≤ mx) :
    mn ≤ ImClamp v mn mx ∧ ImClamp v mn mx ≤ mx := by
  unfold ImClamp
  split_ifs with h1 h2
  · exact ⟨le_rfl, h⟩
  · exact ⟨h, le_rfl⟩
  · exact ⟨not_lt.1 h1, not_lt.1 h2⟩

/-- The targets the layout loop hands to the integrator are within the visual ranges. -/
theorem layoutParams_mem (vc : Int) (st : LayoutState F) {t : ToastData F}
    (hp : ProgressInUnit t) :
    let p := layoutParams vc st t
    (0 ≤ p.scale ∧ p.scale ≤ 1) ∧ (0 ≤ p.alpha ∧ p.alpha ≤ 1) ∧
      (0 ≤ p.shadow ∧ p.shadow ≤ 3 / 10) := by
  obtain ⟨-, -, h3, h4⟩ := hp
  have hs := ImClamp_mem (1 - (((stackArgs vc st).2 - (stackArgs vc st).1 + 1 - 1 : Int) : F) *
    (4 / 100)) (by norm_num : (85 / 100 : F) ≤ 1)
  have ha := ImClamp_mem (1 - (((stackArgs vc st).2 - (stackArgs vc st).1 + 1 - 1 : Int) : F) *
    (15 / 100)) (by norm_num : (6 / 10 : F) ≤ 1)
  have hw := ImClamp_mem (3 / 10 - (((stackArgs vc st).2 - (stackArgs vc st).1 + 1 - 1 : Int) : F) *
    (8 / 100)) (by norm_num : (1 / 10 : F) ≤ 3 / 10)
  have h1e : 0 ≤ 1 - t.exit_progress := by linarith
  have h1e' : 1 - t.exit_progress ≤ 1 := by linarith
  simp only [layoutParams, CalculateStackParams]
  split_ifs
  · exact ⟨⟨by linarith, hs.2⟩, ⟨by linarith, ha.2⟩, ⟨by linarith, hw.2⟩⟩
  · refine ⟨⟨mul_nonneg (by linarith) h1e, ?_⟩, ⟨mul_nonneg (by linarith) h1e, ?_⟩,
      ⟨mul_nonneg (by linarith) h1e, ?_⟩⟩
    · exact mul_le_one₀ hs.2 h1e h1e'
    · exact mul_le_one₀ ha.2 h1e h1e'
    · simp only
      nlinarith [mul_nonneg (sub_nonneg.2 hw.2) h1e, hw.1, hw.2]

theorem layoutStep_visual_eq (sqrtf : F → F) (dt : F) (scr : ImVec2 F) (vc : Int)
    (st : LayoutState F) {t : ToastData F} (hs : layoutSkips t = false) :
    let u := (layoutStep sqrtf dt scr vc st t).2
    u.scale = CustomLerp t.scale (layoutParams vc st t).scale (dt * 8) EaseOutQuad ∧
      u.alpha = CustomLerp t.alpha (layoutParams vc st t).alpha (dt * 6) EaseOutQuad ∧
      u.shadow = CustomLerp t.shadow (layoutParams vc st t).shadow (dt * 5) EaseOutQuad := by
  simp only [layoutStep, hs, Bool.false_eq_true, if_false]
  obtain ⟨h1, h2, h3⟩ := UpdateToastPhysics_visual sqrtf
      (if (!t.is_exiting) = true then
        { t with
          target_pos :=
            ⟨scr.x - toast_width - toast_margin - 35,
              st.current_y +
                (CalculateStackParams (stackArgs vc st).1 (stackArgs vc st).2 : StackParams F).offset_y⟩ }
      else t) (layoutParams vc st t) dt
  rw [h1, h2, h3]
  split_ifs <;> exact ⟨rfl, rfl, rfl⟩

theorem layoutStep_visual (sqrtf : F → F) {dt : F} (h0 : 0 ≤ dt) (h4 : dt ≤ 1 / 4)
    (scr : ImVec2 F) (vc : Int) (st : LayoutState F) {t : ToastData F} (hp : ProgressInUnit t)
    (hv : VisualInRange t) : VisualInRange (layoutStep sqrtf dt scr vc st t).2 := by
  cases hs : layoutSkips t
  · obtain ⟨e1, e2, e3⟩ := layoutStep_visual_eq sqrtf dt scr vc st hs
    obtain ⟨p1, p2, p3⟩ := layoutParams_mem vc st hp
    obtain ⟨v1, v2, v3, v4, v5, v6⟩ := hv
    unfold VisualInRange
    rw [e1, e2, e3]
    have a := CustomLerp_mem (by linarith : (0 : F) ≤ dt * 8) (by linarith) ⟨v1, v2⟩ p1
    have b := CustomLerp_mem (by linarith : (0 : F) ≤ dt * 6) (by linarith) ⟨v3, v4⟩ p2
    have c := CustomLerp_mem (by linarith : (0 : F) ≤ dt * 5) (by linarith) ⟨v5, v6⟩ p3
    exact ⟨a.1, a.2, b.1, b.2, c.1, c.2⟩
  · simp only [layoutStep, hs, if_true]
    exact hv

theorem timerStep_visual {dt : F} {scr : ImVec2 F} {t t1 : ToastData F}
    (h : timerStep dt scr t = some t1) (hv : VisualInRange t) : VisualInRange t1 := by
  rw [timerStep_eq] at h
  split_ifs at h <;> cases h <;> exact hv

/-- C9, as the code behaves.  In every registry reachable from the empty one by `Show`,
`ClearAll` and `UpdateAndRender` with frame times `0 ≤ dt ≤ 1/4`, every toast has
`0 ≤ scale ≤ 1`, `0 ≤ alpha ≤ 1` and `0 ≤ shadow ≤ 0.3`. -/
theorem C9_visual_in_range_up_to_quarter_second (sqrtf : F → F) {reg : List (ToastData F)}
    (h : ReachableWith sqrtf (fun dt => 0 ≤ dt ∧ dt ≤ 1 / 4) reg) :
    ∀ t ∈ reg, 0 ≤ t.scale ∧ t.scale ≤ 1 ∧ 0 ≤ t.alpha ∧ t.alpha ≤ 1 ∧
      0 ≤ t.shadow ∧ t.shadow ≤ 3 / 10 := by
  suffices hinv : ∀ t ∈ reg, ProgressInUnit t ∧ VisualInRange t from fun t ht => (hinv t ht).2
  induction h with
  | empty => simp
  | afterShow cts scr title content duration err _ ih =>
    intro t ht
    rcases List.mem_cons.1 ht with rfl | ht
    · constructor
      · simp [ProgressInUnit, shownToast, ToastData.new]
      · simp only [VisualInRange, shownToast, ToastData.new]
        norm_num
    · exact ih t ht
  | afterClearAll scr _ ih =>
    intro t ht
    obtain ⟨t0, ht0, rfl⟩ := List.mem_map.1 ht
    obtain ⟨⟨h1, h2, -, -⟩, hv⟩ := ih t0 ht0
    exact ⟨⟨h1, h2, by simp, by simp⟩, hv⟩
  | afterUpdate dt scr hdt _ ih =>
    intro u hu
    obtain ⟨t, ht, t1, vc, st, h1, rfl⟩ := mem_UpdateAndRender hu
    obtain ⟨hp, hv⟩ := ih t ht
    have hp1 := timerStep_progress hdt.1 scr hp h1
    exact ⟨layoutStep_progress sqrtf dt scr vc st hp1,
      layoutStep_visual sqrtf hdt.1 hdt.2 scr vc st hp1 (timerStep_visual h1 hv)⟩

theorem UpdateAndRender_single_eq (sqrtf : F → F) {dt : F} {scr : ImVec2 F}
    {t t1 : ToastData F} (h : timerStep dt scr t = some t1) :
    UpdateAndRender sqrtf dt scr [t] =
      [(layoutStep sqrtf dt scr (if countsVisible t1 then 0 + 1 else 0) ⟨toast_margin, 0⟩ t1).2] := by
  simp [UpdateAndRender, timerLoop, h, layoutLoop]

/-- The shadow of a freshly shown toast after one frame of `dt` seconds in which it is still
entering and already ranked: `0.3 * EaseOutQuad (5 dt)`. -/
theorem shadow_after_first_frame (sqrtf : F → F) (cts : String → ImVec2 F) (scr : ImVec2 F)
    (dt : F) (h1 : 1 / 10 < dt / animation_duration) (h2 : dt / animation_duration < 1) :
    (UpdateAndRender sqrtf dt scr (Show cts scr "A" "msg" 5 false [])).map (fun t => t.shadow) =
      [3 / 10 * EaseOutQuad (dt * 5)] := by
  have hs : timerStep dt scr (shownToast cts scr "A" "msg" 5 false) =
      some { shownToast cts scr "A" "msg" 5 false with
        animation_progress := 0 + dt / animation_duration } := by
    rw [timerStep_eq, if_neg (by simp [shownToast, ToastData.new]), if_neg]
    · rfl
    · simp only [shownToast, ToastData.new, zero_add, not_le]
      exact h2
  have hshow : Show cts scr "A" "msg" 5 false [] = [shownToast cts scr "A" "msg" 5 false] := rfl
  rw [hshow, UpdateAndRender_single_eq sqrtf hs, List.map_cons, List.map_nil]
  have hskip : layoutSkips { shownToast cts scr "A" "msg" 5 false with
      animation_progress := 0 + dt / animation_duration } = false := by
    simp only [layoutSkips, shownToast, ToastData.new, zero_add, Bool.false_and,
      Bool.not_false, Bool.true_and, Bool.false_or, decide_eq_false_iff_not, not_lt]
    exact h1.le
  have hvis : countsVisible { shownToast cts scr "A" "msg" 5 false with
      animation_progress := 0 + dt / animation_duration } = true := by
    simp only [countsVisible, shownToast, ToastData.new, zero_add, Bool.false_and,
      Bool.not_false, Bool.true_and, Bool.or_false, decide_eq_true_eq]
    exact h1
  obtain ⟨-, -, e3⟩ := layoutStep_visual_eq sqrtf dt scr (if countsVisible
    { shownToast cts scr "A" "msg" 5 false with
      animation_progress := 0 + dt / animation_duration } then 0 + 1 else 0)
    ⟨toast_margin, 0⟩ hskip
  rw [e3, hvis]
  simp only [layoutParams, stackArgs, CalculateStackParams, ImMin, max_visible_toasts, shownToast,
    ToastData.new, CustomLerp, ImClamp]
  norm_num

/-- Witness of C9: one toast shown, then one frame of a quarter second; the toast is registered,
its shadow has moved to `0.3 * EaseOutQuad (5/4)` and all three parameters are in range. -/
theorem C9_witness :
    ReachableWith sqrtQ (fun dt => 0 ≤ dt ∧ dt ≤ 1 / 4)
        (UpdateAndRender sqrtQ (1 / 4) screenQ (Show measureQ screenQ "A" "msg" 5 false [])) ∧
      (UpdateAndRender sqrtQ (1 / 4) screenQ (Show measureQ screenQ "A" "msg" 5 false [])).map
          (fun t => t.shadow) = [3 / 10 * EaseOutQuad (1 / 4 * 5)] ∧
      ∀ t ∈ UpdateAndRender sqrtQ (1 / 4) screenQ (Show measureQ screenQ "A" "msg" 5 false []),
        0 ≤ t.scale ∧ t.scale ≤ 1 ∧ 0 ≤ t.alpha ∧ t.alpha ≤ 1 ∧ 0 ≤ t.shadow ∧ t.shadow ≤ 3 / 10 :=
  have hr : ReachableWith sqrtQ (fun dt => 0 ≤ dt ∧ dt ≤ 1 / 4)
      (UpdateAndRender sqrtQ (1 / 4) screenQ (Show measureQ screenQ "A" "msg" 5 false [])) :=
    ReachableWith.afterUpdate (1 / 4) screenQ (by norm_num)
      (ReachableWith.afterShow measureQ screenQ "A" "msg" 5 false ReachableWith.empty)
  ⟨hr, shadow_after_first_frame sqrtQ measureQ screenQ (1 / 4)
    (by norm_num [animation_duration]) (by norm_num [animation_duration]),
    C9_visual_in_range_up_to_quarter_second sqrtQ hr⟩

/-- Counterexample to C9 as stated: one toast shown, then one frame of `dt = 1` second (the
spike the claim names); the registry is reachable and its toast has shadow `-9/2 < 0`. -/
theorem C9_counterexample :
    Reachable sqrtQ (UpdateAndRender sqrtQ 1 screenQ (Show measureQ screenQ "A" "msg" 5 false [])) ∧
      (UpdateAndRender sqrtQ 1 screenQ (Show measureQ screenQ "A" "msg" 5 false [])).map
          (fun t => t.shadow) = [-9 / 2] ∧
      ¬ ∀ t ∈ UpdateAndRender sqrtQ 1 screenQ (Show measureQ screenQ "A" "msg" 5 false []),
        0 ≤ t.shadow := by
  have hsh := shadow_after_first_frame sqrtQ measureQ screenQ 1
    (by norm_num [animation_duration]) (by norm_num [animation_duration])
  have hval : (3 / 10 * EaseOutQuad (1 * 5) : ℚ) = -9 / 2 := by norm_num [EaseOutQuad]
  rw [hval] at hsh
  refine ⟨ReachableWith.afterUpdate 1 screenQ (by norm_num)
    (ReachableWith.afterShow measureQ screenQ "A" "msg" 5 false ReachableWith.empty), hsh, ?_⟩
  intro hall
  have hmap : ∀ x ∈ (UpdateAndRender sqrtQ 1 screenQ
      (Show measureQ screenQ "A" "msg" 5 false [])).map (fun t => t.shadow), (0 : ℚ) ≤ x := by
    intro x hx
    obtain ⟨t, ht, rfl⟩ := List.mem_map.1 hx
    exact hall t ht
  rw [hsh] at hmap
  have h0 := hmap (-9 / 2) (List.mem_singleton_self _)
  norm_num at h0

end Visual

section Spring

variable {F : Type} [LinearOrderedField F]

/-- Position and velocity after `UpdateToastPhysics`, in both branches. -/
theorem UpdateToastPhysics_motion (sqrtf : F → F) (t : ToastData F) (p : StackParams F) (dt : F) :
    (UpdateToastPhysics sqrtf t p dt).target_pos = t.target_pos ∧
      (1 / 10 < ImLength sqrtf (t.target_pos.sub t.current_pos) →
        (UpdateToastPhysics sqrtf t p dt).physics.velocity =
            (if 800 < ImLength sqrtf (t.physics.velocity.add
                ((((t.target_pos.sub t.current_pos).smul 25).sub
                  (t.physics.velocity.smul (35 / 10))).smul dt)) then
              (t.physics.velocity.add
                ((((t.target_pos.sub t.current_pos).smul 25).sub
                  (t.physics.velocity.smul (35 / 10))).smul dt)).smul
                (800 / ImLength sqrtf (t.physics.velocity.add
                  ((((t.target_pos.sub t.current_pos).smul 25).sub
                    (t.physics.velocity.smul (35 / 10))).smul dt)))
            else
              t.physics.velocity.add
                ((((t.target_pos.sub t.current_pos).smul 25).sub
                  (t.physics.velocity.smul (35 / 10))).smul dt)) ∧
          (UpdateToastPhysics sqrtf t p dt).current_pos =
            t.current_pos.add ((UpdateToastPhysics sqrtf t p dt).physics.velocity.smul dt)) ∧
      (¬ 1 / 10 < ImLength sqrtf (t.target_pos.sub t.current_pos) →
        (UpdateToastPhysics sqrtf t p dt).physics.velocity =
            t.physics.velocity.smul (1 - dt * 8) ∧
          (UpdateToastPhysics sqrtf t p dt).current_pos = t.target_pos) := by
  simp only [UpdateToastPhysics, gt_iff_lt]
  refine ⟨by split_ifs <;> rfl, fun h => ?_, fun h => ?_⟩
  · rw [if_pos h]
    exact ⟨rfl, rfl⟩
  · rw [if_neg h]
    exact ⟨rfl, rfl⟩

/-- For steps of at most a quarter of a second the energy bounds the squared distance. -/
theorem springEnergy_lower {h : F} (h0 : 0 < h) (h1 : h ≤ 1 / 4) (s : F × F) :
    9 * s.1 ^ 2 ≤ springEnergy h s := by
  unfold springEnergy
  obtain ⟨d, v⟩ := s
  simp only
  have ha : 0 < 1 - 35 / 10 * h := by linarith
  have hdisc : (25 * h - 35 / 10) ^ 2 ≤ 64 * (1 - 35 / 10 * h) := by nlinarith
  have hsq : 0 ≤ (1 - 35 / 10 * h) *
      (16 * d ^ 2 + (25 * h - 35 / 10) * d * v + (1 - 35 / 10 * h) * v ^ 2) := by
    have e : (1 - 35 / 10 * h) *
        (16 * d ^ 2 + (25 * h - 35 / 10) * d * v + (1 - 35 / 10 * h) * v ^ 2) =
        ((1 - 35 / 10 * h) * v + (25 * h - 35 / 10) / 2 * d) ^ 2 +
          (64 * (1 - 35 / 10 * h) - (25 * h - 35 / 10) ^ 2) / 4 * d ^ 2 := by ring
    rw [e]
    have := mul_nonneg (div_nonneg (sub_nonneg.2 hdisc) (by norm_num : (0 : F) ≤ 4)) (sq_nonneg d)
    positivity
  have := nonneg_of_mul_nonneg_right hsq ha
  linarith

theorem springEnergy_nonneg {h : F} (h0 : 0 < h) (h1 : h ≤ 1 / 4) (s : F × F) :
    0 ≤ springEnergy h s :=
  le_trans (by positivity) (springEnergy_lower h0 h1 s)

theorem springEnergy_neg (h d v : F) : springEnergy h (-d, -v) = springEnergy h (d, v) := by
  unfold springEnergy
  simp only
  ring

/-- An unclamped step multiplies the energy by `1 - 3.5 h`. -/
theorem springEnergy_unclamped (h d v : F) :
    springEnergy h (d - (v + (d * 25 - v * (35 / 10)) * h) * h, v + (d * 25 - v * (35 / 10)) * h) =
      (1 - 35 / 10 * h) * springEnergy h (d, v) := by
  unfold springEnergy
  simp only
  ring

/-- A step clamped to speed `+800` lowers the energy by at least `800000 h`. -/
theorem springEnergy_clamped {h d v : F} (h0 : 0 < h) (h1 : h ≤ 1 / 4) (hv1 : -800 ≤ v)
    (hv2 : v ≤ 800) (hw : 800 < v + (d * 25 - v * (35 / 10)) * h) :
    springEnergy h (d - 800 * h, 800) ≤ springEnergy h (d, v) - 800000 * h := by
  have hK : 0 ≤ (25 * h - 35 / 10) * v + 20000 * h + 2800 := by nlinarith
  have ha : 1 / 8 ≤ 1 - 35 / 10 * h := by linarith
  have hd : 800 - (1 - 35 / 10 * h) * v ≤ 25 * h * d := by linarith
  have hu : 0 ≤ 800 - v := by linarith
  -- the guaranteed drop, as a quadratic in `u = 800 - v`
  have hid : (800 - (1 - 35 / 10 * h) * v) * ((25 * h - 35 / 10) * v + 20000 * h + 2800) +
      25 * h * ((1 - 35 / 10 * h) * v ^ 2 - 640000) =
      35 / 10 * (1 - 35 / 10 * h) * (800 - v) ^ 2 + h * (9800 - 70000 * h) * (800 - v) +
        56000000 * h ^ 2 := by ring
  have hquad : 20000000 * h ^ 2 ≤
      35 / 10 * (1 - 35 / 10 * h) * (800 - v) ^ 2 + h * (9800 - 70000 * h) * (800 - v) +
        56000000 * h ^ 2 := by
    have t1 : 35 / 10 * (1 / 8) * (800 - v) ^ 2 ≤
        35 / 10 * (1 - 35 / 10 * h) * (800 - v) ^ 2 := by
      have := mul_le_mul_of_nonneg_right ha (sq_nonneg (800 - v))
      linarith
    have t2 : -(7700 * h * (800 - v)) ≤ h * (9800 - 70000 * h) * (800 - v) := by
      have hc : 0 ≤ h * (800 - v) := mul_nonneg h0.le hu
      have : 0 ≤ (9800 - 70000 * h + 7700) * (h * (800 - v)) :=
        mul_nonneg (by linarith) hc
      linarith
    have e3 : 35 / 10 * (1 / 8) * (800 - v) ^ 2 - 7700 * h * (800 - v) + 36000000 * h ^ 2 =
        35 / 80 * ((800 - v) - 8800 * h) ^ 2 + 2120000 * h ^ 2 := by ring
    have p1 : 0 ≤ 35 / 80 * ((800 - v) - 8800 * h) ^ 2 :=
      mul_nonneg (by norm_num) (sq_nonneg _)
    have p2 : 0 ≤ 2120000 * h ^ 2 := mul_nonneg (by norm_num) (sq_nonneg _)
    linarith only [t1, t2, e3, p1, p2]
  have key : 20000000 * h ^ 2 ≤
      25 * h * (d * ((25 * h - 35 / 10) * v + 20000 * h + 2800) +
        (1 - 35 / 10 * h) * v ^ 2 - 640000) := by
    calc 20000000 * h ^ 2
        ≤ 35 / 10 * (1 - 35 / 10 * h) * (800 - v) ^ 2 + h * (9800 - 70000 * h) * (800 - v) +
            56000000 * h ^ 2 := hquad
      _ = (800 - (1 - 35 / 10 * h) * v) * ((25 * h - 35 / 10) * v + 20000 * h + 2800) +
            25 * h * ((1 - 35 / 10 * h) * v ^ 2 - 640000) := hid.symm
      _ ≤ 25 * h * d * ((25 * h - 35 / 10) * v + 20000 * h + 2800) +
            25 * h * ((1 - 35 / 10 * h) * v ^ 2 - 640000) :=
          add_le_add_right (mul_le_mul_of_nonneg_right hd hK) _
      _ = 25 * h * (d * ((25 * h - 35 / 10) * v + 20000 * h + 2800) +
            (1 - 35 / 10 * h) * v ^ 2 - 640000) := by ring
  have hG : 800000 * h ≤ d * ((25 * h - 35 / 10) * v + 20000 * h + 2800) +
        (1 - 35 / 10 * h) * v ^ 2 - 640000 := by
    have e : 25 * h * (800000 * h) = 20000000 * h ^ 2 := by ring
    rw [← e] at key
    exact le_of_mul_le_mul_left key (mul_pos (by norm_num) h0)
  have hid2 : springEnergy h (d, v) - springEnergy h (d - 800 * h, 800) =
      d * ((25 * h - 35 / 10) * v + 20000 * h + 2800) + (1 - 35 / 10 * h) * v ^ 2 - 640000 := by
    unfold springEnergy
    simp only
    ring
  linarith only [hG, hid2]

theorem springStep_far {h : F} {s : F × F} (hd : 1 / 10 < |s.1|)
    (hw : ¬ 800 < |s.2 + (s.1 * 25 - s.2 * (35 / 10)) * h|) :
    springStep h s =
      (s.1 - (s.2 + (s.1 * 25 - s.2 * (35 / 10)) * h) * h,
        s.2 + (s.1 * 25 - s.2 * (35 / 10)) * h) := by
  simp only [springStep, if_pos hd, if_neg hw]

theorem springStep_clamped_pos {h : F} {s : F × F} (hd : 1 / 10 < |s.1|)
    (hw : 800 < s.2 + (s.1 * 25 - s.2 * (35 / 10)) * h) :
    springStep h s = (s.1 - 800 * h, 800) := by
  have hpos : 0 < s.2 + (s.1 * 25 - s.2 * (35 / 10)) * h := by linarith
  have habs : |s.2 + (s.1 * 25 - s.2 * (35 / 10)) * h| = s.2 + (s.1 * 25 - s.2 * (35 / 10)) * h :=
    abs_of_pos hpos
  simp only [springStep, if_pos hd, habs, if_pos hw]
  rw [mul_div_cancel₀ _ hpos.ne']

theorem springStep_clamped_neg {h : F} {s : F × F} (hd : 1 / 10 < |s.1|)
    (hw : s.2 + (s.1 * 25 - s.2 * (35 / 10)) * h < -800) :
    springStep h s = (s.1 - -800 * h, -800) := by
  have hneg : s.2 + (s.1 * 25 - s.2 * (35 / 10)) * h < 0 := by linarith
  have habs : |s.2 + (s.1 * 25 - s.2 * (35 / 10)) * h| =
      -(s.2 + (s.1 * 25 - s.2 * (35 / 10)) * h) := abs_of_neg hneg
  have hclamp : (s.2 + (s.1 * 25 - s.2 * (35 / 10)) * h) *
      (800 / -(s.2 + (s.1 * 25 - s.2 * (35 / 10)) * h)) = -800 := by
    rw [div_neg, mul_neg, mul_div_cancel₀ _ hneg.ne]
  simp only [springStep, if_pos hd, habs, if_pos (by linarith : (800 : F) <
    -(s.2 + (s.1 * 25 - s.2 * (35 / 10)) * h)), hclamp]

theorem springStep_near {h : F} {s : F × F} (hd : ¬ 1 / 10 < |s.1|) :
    springStep h s = (0, s.2 * (1 - h * 8)) := by
  simp only [springStep, if_neg hd]

/-- While the toast is farther than 0.1 from its target, a step of at most a quarter of a second
lowers the energy by at least `0.3 h` and keeps the speed within 800. -/
theorem springStep_descent {h : F} (h0 : 0 < h) (h1 : h ≤ 1 / 4) {s : F × F}
    (hd : 1 / 10 < |s.1|) (hv : |s.2| ≤ 800) :
    springEnergy h (springStep h s) ≤ springEnergy h s - 3 / 10 * h ∧
      |(springStep h s).2| ≤ 800 := by
  obtain ⟨hv1, hv2⟩ := abs_le.1 hv
  by_cases hw : 800 < |s.2 + (s.1 * 25 - s.2 * (35 / 10)) * h|
  · rcases lt_abs.1 hw with hp | hn
    · rw [springStep_clamped_pos hd hp]
      refine ⟨?_, by simp⟩
      have := springEnergy_clamped h0 h1 hv1 hv2 hp
      linarith
    · have hn' : s.2 + (s.1 * 25 - s.2 * (35 / 10)) * h < -800 := by linarith
      rw [springStep_clamped_neg hd hn']
      refine ⟨?_, by simp⟩
      have := springEnergy_clamped (d := -s.1) (v := -s.2) h0 h1 (by linarith) (by linarith)
        (by linarith)
      rw [springEnergy_neg] at this
      have e : springEnergy h (s.1 - -800 * h, -800) = springEnergy h (-s.1 - 800 * h, 800) := by
        unfold springEnergy
        simp only
        ring
      rw [e]
      linarith
  · rw [springStep_far hd hw]
    refine ⟨?_, not_lt.1 hw⟩
    rw [springEnergy_unclamped]
    have hlow := springEnergy_lower h0 h1 s
    have hsq : (1 / 10 : F) ^ 2 < s.1 ^ 2 := by
      rw [← abs_of_pos (by norm_num : (0 : F) < 1 / 10)] at hd
      exact sq_lt_sq.2 hd
    have hE : 9 / 100 ≤ springEnergy h s := by linarith
    have hm : h * (9 / 100) ≤ h * springEnergy h s := mul_le_mul_of_nonneg_left hE h0.le
    have e : (1 - 35 / 10 * h) * springEnergy h s =
        springEnergy h s - 35 / 10 * (h * springEnergy h s) := by ring
    rw [e]
    linarith

/-- Within 0.1 of the target a step of at most a quarter of a second does not raise the speed:
the factor `1 - 8 h` lies in `[-1, 1)`. -/
theorem springStep_speed_near {h : F} (h0 : 0 < h) (h1 : h ≤ 1 / 4) {s : F × F}
    (hd : ¬ 1 / 10 < |s.1|) (hv : |s.2| ≤ 800) : |(springStep h s).2| ≤ 800 := by
  rw [springStep_near hd]
  simp only
  rw [abs_mul]
  have hf : |1 - h * 8| ≤ 1 := abs_le.2 ⟨by linarith, by linarith⟩
  have : |s.2| * |1 - h * 8| ≤ |s.2| * 1 := mul_le_mul_of_nonneg_left hf (abs_nonneg _)
  linarith

theorem springRun_speed {h : F} (h0 : 0 < h) (h1 : h ≤ 1 / 4) {s : F × F} (hv : |s.2| ≤ 800)
    (n : Nat) : |(springRun h n s).2| ≤ 800 := by
  induction n with
  | zero => exact hv
  | succ n ih =>
    by_cases hd : 1 / 10 < |(springRun h n s).1|
    · exact (springStep_descent h0 h1 hd ih).2
    · exact springStep_speed_near h0 h1 hd ih

/-- As long as the toast has not come within 0.1 of its target, the energy has dropped by
`0.3 h` per step. -/
theorem springRun_energy {h : F} (h0 : 0 < h) (h1 : h ≤ 1 / 4) {s : F × F} (hv : |s.2| ≤ 800)
    (n : Nat) (hfar : ∀ k, k < n → 1 / 10 < |(springRun h k s).1|) :
    springEnergy h (springRun h n s) ≤ springEnergy h s - (n : F) * (3 / 10 * h) := by
  induction n with
  | zero => simp [springRun]
  | succ n ih =>
    have hn := ih (fun k hk => hfar k (Nat.lt_succ_of_lt hk))
    have hstep := (springStep_descent h0 h1 (hfar n (Nat.lt_succ_self n))
      (springRun_speed h0 h1 hv n)).1
    show springEnergy h (springStep h (springRun h n s)) ≤ _
    push_cast
    linarith

/-- Started with a speed of at most 800 and stepped by at most a quarter of a second, the spring
comes within 0.1 of its target after finitely many steps. -/
theorem springRun_reaches [Archimedean F] {h : F} (h0 : 0 < h) (h1 : h ≤ 1 / 4) {s : F × F}
    (hv : |s.2| ≤ 800) : ∃ N, |(springRun h N s).1| ≤ 1 / 10 := by
  by_contra hnone
  push_neg at hnone
  have hc : (0 : F) < 3 / 10 * h := by positivity
  obtain ⟨n, hn⟩ := Archimedean.arch (springEnergy h s + 1) hc
  have hE := springRun_energy h0 h1 hv n (fun k _ => hnone k)
  have hpos := springEnergy_nonneg h0 h1 (springRun h n s)
  rw [nsmul_eq_mul] at hn
  linarith

/-- Once within 0.1 of the target the position is the target and every step multiplies the
speed by `1 - 8 h`. -/
theorem springRun_settled {h : F} {s : F × F} {N : Nat} (hN : |(springRun h N s).1| ≤ 1 / 10)
    (n : Nat) (hn : N ≤ n) :
    |(springRun h n s).1| ≤ 1 / 10 ∧ (springRun h (n + 1) s).1 = 0 ∧
      (springRun h (n + 1) s).2 = (springRun h n s).2 * (1 - h * 8) := by
  induction n, hn using Nat.le_induction with
  | base =>
    have hs := springStep_near (h := h) (not_lt.2 hN)
    exact ⟨hN, congrArg Prod.fst hs, congrArg Prod.snd hs⟩
  | succ n _ ih =>
    have hd : |(springRun h (n + 1) s).1| ≤ 1 / 10 := by
      rw [ih.2.1]
      norm_num
    have hs := springStep_near (h := h) (not_lt.2 hd)
    exact ⟨hd, congrArg Prod.fst hs, congrArg Prod.snd hs⟩

end Spring

section RealSpring

theorem ImLength_smul_unit {e : ImVec2 ℝ} (he : e.x * e.x + e.y * e.y = 1) (c : ℝ) :
    ImLength Real.sqrt (e.smul c) = |c| := by
  unfold ImLength ImVec2.smul
  simp only
  have : e.x * c * (e.x * c) + e.y * c * (e.y * c) = c ^ 2 := by
    have : e.x * c * (e.x * c) + e.y * c * (e.y * c) = (e.x * e.x + e.y * e.y) * c ^ 2 := by ring
    rw [this, he, one_mul]
  rw [this, Real.sqrt_sq_eq_abs]

theorem UpdateToastPhysics_along {e : ImVec2 ℝ} (he : e.x * e.x + e.y * e.y = 1)
    {t : ToastData ℝ} {s : ℝ × ℝ} (hA : Along e t s) (p : StackParams ℝ) (dt : ℝ) :
    Along e (UpdateToastPhysics Real.sqrt t p dt) (springStep dt s) := by
  obtain ⟨hD, hV⟩ := hA
  obtain ⟨hT, hfar, hnear⟩ := UpdateToastPhysics_motion Real.sqrt t p dt
  have hdist : ImLength Real.sqrt (t.target_pos.sub t.current_pos) = |s.1| := by
    rw [hD, ImLength_smul_unit he]
  have hw : t.physics.velocity.add
      ((((t.target_pos.sub t.current_pos).smul 25).sub
        (t.physics.velocity.smul (35 / 10))).smul dt) =
      e.smul (s.2 + (s.1 * 25 - s.2 * (35 / 10)) * dt) := by
    rw [hD, hV]
    ext <;> simp only [ImVec2.add, ImVec2.sub, ImVec2.smul] <;> ring
  rw [hdist] at hfar hnear
  rw [hw, ImLength_smul_unit he] at hfar
  have hcur : ∀ v : ℝ, (UpdateToastPhysics Real.sqrt t p dt).physics.velocity = e.smul v →
      (UpdateToastPhysics Real.sqrt t p dt).current_pos =
        t.current_pos.add ((UpdateToastPhysics Real.sqrt t p dt).physics.velocity.smul dt) →
      (UpdateToastPhysics Real.sqrt t p dt).target_pos.sub
        (UpdateToastPhysics Real.sqrt t p dt).current_pos = e.smul (s.1 - v * dt) := by
    intro v hv hc
    rw [hT, hc, hv]
    have hx := congrArg ImVec2.x hD
    have hy := congrArg ImVec2.y hD
    simp only [ImVec2.sub, ImVec2.smul] at hx hy
    ext <;> simp only [ImVec2.add, ImVec2.sub, ImVec2.smul] <;> linarith
  by_cases hd : 1 / 10 < |s.1|
  · obtain ⟨h1, h2⟩ := hfar hd
    by_cases hc : 800 < |s.2 + (s.1 * 25 - s.2 * (35 / 10)) * dt|
    · rw [if_pos hc] at h1
      have hv : (UpdateToastPhysics Real.sqrt t p dt).physics.velocity =
          e.smul ((s.2 + (s.1 * 25 - s.2 * (35 / 10)) * dt) *
            (800 / |s.2 + (s.1 * 25 - s.2 * (35 / 10)) * dt|)) := by
        rw [h1]
        ext <;> simp only [ImVec2.smul] <;> ring
      simp only [springStep, if_pos hd, if_pos hc]
      exact ⟨hcur _ hv h2, hv⟩
    · rw [if_neg hc] at h1
      simp only [springStep, if_pos hd, if_neg hc]
      exact ⟨hcur _ h1 h2, h1⟩
  · obtain ⟨h1, h2⟩ := hnear hd
    simp only [springStep, if_neg hd]
    refine ⟨?_, ?_⟩
    · rw [hT, h2]
      ext <;> simp [ImVec2.sub, ImVec2.smul]
    · rw [h1, hV]
      ext <;> simp only [ImVec2.smul] <;> ring

theorem physicsFrames_target (sqrtf : ℝ → ℝ) (p : StackParams ℝ) (dt : ℝ) (n : Nat)
    (t : ToastData ℝ) : (physicsFrames sqrtf p dt n t).target_pos = t.target_pos := by
  induction n with
  | zero => rfl
  | succ n ih =>
    exact (UpdateToastPhysics_motion sqrtf (physicsFrames sqrtf p dt n t) p dt).1.trans ih

theorem physicsFrames_along {e : ImVec2 ℝ} (he : e.x * e.x + e.y * e.y = 1)
    {t : ToastData ℝ} {s : ℝ × ℝ} (hA : Along e t s) (p : StackParams ℝ) (dt : ℝ) (n : Nat) :
    Along e (physicsFrames Real.sqrt p dt n t) (springRun dt n s) := by
  induction n with
  | zero => exact hA
  | succ n ih => exact UpdateToastPhysics_along he ih p dt

/-- A toast at rest lies, with its target, on a line through the target. -/
theorem exists_along_of_rest (t : ToastData ℝ) (hv : t.physics.velocity = ⟨0, 0⟩) :
    ∃ e : ImVec2 ℝ, ∃ d : ℝ, e.x * e.x + e.y * e.y = 1 ∧ Along e t (d, 0) := by
  by_cases hz : (t.target_pos.sub t.current_pos).x * (t.target_pos.sub t.current_pos).x +
      (t.target_pos.sub t.current_pos).y * (t.target_pos.sub t.current_pos).y = 0
  · refine ⟨⟨1, 0⟩, 0, by norm_num, ?_, ?_⟩
    · have hx : (t.target_pos.sub t.current_pos).x = 0 := by
        nlinarith [mul_self_nonneg (t.target_pos.sub t.current_pos).x,
          mul_self_nonneg (t.target_pos.sub t.current_pos).y]
      have hy : (t.target_pos.sub t.current_pos).y = 0 := by
        nlinarith [mul_self_nonneg (t.target_pos.sub t.current_pos).x,
          mul_self_nonneg (t.target_pos.sub t.current_pos).y]
      ext
      · simpa [ImVec2.smul] using hx
      · simpa [ImVec2.smul] using hy
    · rw [hv]
      ext <;> simp [ImVec2.smul]
  · have hnn : 0 ≤ (t.target_pos.sub t.current_pos).x * (t.target_pos.sub t.current_pos).x +
        (t.target_pos.sub t.current_pos).y * (t.target_pos.sub t.current_pos).y :=
      add_nonneg (mul_self_nonneg _) (mul_self_nonneg _)
    have hpos : 0 < Real.sqrt ((t.target_pos.sub t.current_pos).x *
        (t.target_pos.sub t.current_pos).x +
        (t.target_pos.sub t.current_pos).y * (t.target_pos.sub t.current_pos).y) :=
      Real.sqrt_pos.2 (lt_of_le_of_ne hnn (Ne.symm hz))
    have hsq := Real.mul_self_sqrt hnn
    generalize Real.sqrt ((t.target_pos.sub t.current_pos).x *
        (t.target_pos.sub t.current_pos).x +
        (t.target_pos.sub t.current_pos).y * (t.target_pos.sub t.current_pos).y) = L at hpos hsq
    refine ⟨⟨(t.target_pos.sub t.current_pos).x / L, (t.target_pos.sub t.current_pos).y / L⟩, L,
      ?_, ?_, ?_⟩
    · simp only
      field_simp
      linarith
    · ext
      · simp only [ImVec2.smul]
        field_simp
      · simp only [ImVec2.smul]
        field_simp
    · rw [hv]
      ext <;> simp [ImVec2.smul]

/-- For a factor `r` in `[0, 1)` the sequence `r ^ k * S` falls below every positive bound. -/
theorem pow_mul_eventually_lt {r S ε : ℝ} (hr0 : 0 ≤ r) (hr1 : r < 1) (hS : 0 ≤ S) (hε : 0 < ε) :
    ∃ K : Nat, ∀ k, K ≤ k → r ^ k * S < ε := by
  obtain ⟨K, hK⟩ := exists_pow_lt_of_lt_one (div_pos hε (by linarith : (0 : ℝ) < S + 1)) hr1
  refine ⟨K, fun k hk => ?_⟩
  have h1 : r ^ k ≤ r ^ K := pow_le_pow_of_le_one hr0 hr1.le hk
  have h2 : r ^ k * S ≤ r ^ K * S := mul_le_mul_of_nonneg_right h1 hS
  have h3 : r ^ K * (S + 1) < ε := (lt_div_iff₀ (by linarith : (0 : ℝ) < S + 1)).1 hK
  have h4 : 0 ≤ r ^ K := pow_nonneg hr0 K
  nlinarith

/-- C10, as the code behaves.  Over the reals, with the target held fixed, a toast that starts at
rest and is stepped with a fixed `dt`, `0 < dt ≤ 1/4`, is within 0.1 of its target after some
frame `N` and at every later frame; after every call from then on `current_pos` equals
`target_pos` and the velocity is the previous one times `1 - 8 dt`, so the speed never increases
again and is `|1 - 8 dt| ^ k` times the speed of frame `N` after `k` more frames.  The factor
`|1 - 8 dt|` is at most 1, and below 1 when `dt < 1/4`, in which case the speed falls below every
positive bound. -/
theorem C10_spring_settles_up_to_quarter_second (t : ToastData ℝ) (p : StackParams ℝ) (dt : ℝ)
    (h0 : 0 < dt) (h1 : dt ≤ 1 / 4) (hv : t.physics.velocity = ⟨0, 0⟩) :
    ∃ N : Nat,
      (∀ n, N ≤ n →
        (physicsFrames Real.sqrt p dt n t).target_pos = t.target_pos ∧
        ImLength Real.sqrt
            (t.target_pos.sub (physicsFrames Real.sqrt p dt n t).current_pos) ≤ 1 / 10 ∧
        (physicsFrames Real.sqrt p dt (n + 1) t).current_pos = t.target_pos ∧
        (physicsFrames Real.sqrt p dt (n + 1) t).physics.velocity =
          (physicsFrames Real.sqrt p dt n t).physics.velocity.smul (1 - dt * 8) ∧
        ImLength Real.sqrt (physicsFrames Real.sqrt p dt (n + 1) t).physics.velocity ≤
          ImLength Real.sqrt (physicsFrames Real.sqrt p dt n t).physics.velocity) ∧
      (∀ k : Nat,
        ImLength Real.sqrt (physicsFrames Real.sqrt p dt (N + k) t).physics.velocity =
          |1 - dt * 8| ^ k *
            ImLength Real.sqrt (physicsFrames Real.sqrt p dt N t).physics.velocity) ∧
      |1 - dt * 8| ≤ 1 ∧
      (dt < 1 / 4 →
        |1 - dt * 8| < 1 ∧
          ∀ ε : ℝ, 0 < ε → ∃ K : Nat, ∀ k, K ≤ k →
            ImLength Real.sqrt (physicsFrames Real.sqrt p dt (N + k) t).physics.velocity < ε) := by
  obtain ⟨e, d, he, hA⟩ := exists_along_of_rest t hv
  obtain ⟨N, hN⟩ := springRun_reaches h0 h1 (s := (d, 0)) (by simp)
  have hfac : |1 - dt * 8| ≤ 1 := abs_le.2 ⟨by linarith, by linarith⟩
  have hspeed : ∀ n, ImLength Real.sqrt (physicsFrames Real.sqrt p dt n t).physics.velocity =
      |(springRun dt n (d, 0)).2| := by
    intro n
    rw [(physicsFrames_along he hA p dt n).2, ImLength_smul_unit he]
  have hstep : ∀ n, N ≤ n →
      ImLength Real.sqrt (physicsFrames Real.sqrt p dt (n + 1) t).physics.velocity =
        |1 - dt * 8| *
          ImLength Real.sqrt (physicsFrames Real.sqrt p dt n t).physics.velocity := by
    intro n hn
    rw [hspeed, hspeed, (springRun_settled hN n hn).2.2, abs_mul, mul_comm]
  have hpow : ∀ k : Nat,
      ImLength Real.sqrt (physicsFrames Real.sqrt p dt (N + k) t).physics.velocity =
        |1 - dt * 8| ^ k *
          ImLength Real.sqrt (physicsFrames Real.sqrt p dt N t).physics.velocity := by
    intro k
    induction k with
    | zero => simp
    | succ k ih =>
      rw [← add_assoc, hstep (N + k) (Nat.le_add_right N k), ih, pow_succ]
      ring
  refine ⟨N, fun n hn => ?_, hpow, hfac, fun hlt => ?_⟩
  · obtain ⟨s1, s2, s3⟩ := springRun_settled hN n hn
    obtain ⟨a1, a2⟩ := physicsFrames_along he hA p dt n
    obtain ⟨b1, b2⟩ := physicsFrames_along he hA p dt (n + 1)
    have hT := physicsFrames_target Real.sqrt p dt n t
    have hT1 := physicsFrames_target Real.sqrt p dt (n + 1) t
    refine ⟨hT, ?_, ?_, ?_, ?_⟩
    · rw [← hT, a1, ImLength_smul_unit he]
      exact s1
    · rw [s2, hT1] at b1
      have hx := congrArg ImVec2.x b1
      have hy := congrArg ImVec2.y b1
      simp only [ImVec2.sub, ImVec2.smul, mul_zero] at hx hy
      ext
      · linarith
      · linarith
    · rw [b2, a2, s3]
      ext <;> simp only [ImVec2.smul] <;> ring
    · rw [hstep n hn]
      have hnn : 0 ≤ ImLength Real.sqrt (physicsFrames Real.sqrt p dt n t).physics.velocity := by
        rw [hspeed]
        exact abs_nonneg _
      nlinarith
  · have hfac1 : |1 - dt * 8| < 1 := abs_lt.2 ⟨by linarith, by linarith⟩
    refine ⟨hfac1, fun ε hε => ?_⟩
    have hS : 0 ≤ ImLength Real.sqrt (physicsFrames Real.sqrt p dt N t).physics.velocity := by
      rw [hspeed]
      exact abs_nonneg _
    obtain ⟨K, hK⟩ := pow_mul_eventually_lt (abs_nonneg (1 - dt * 8)) hfac1 hS hε
    exact ⟨K, fun k hk => by rw [hpow k]; exact hK k hk⟩

/-- Witness of C10: the toast `Show` creates on a 1920 x 1080 display, stepped at 60 frames per
second and at 4 frames per second. -/
theorem C10_witness :
    (0 : ℝ) < 1 / 60 ∧ (1 / 60 : ℝ) ≤ 1 / 4 ∧
      (shownToast (fun _ => ⟨21, 14⟩) ⟨1920, 1080⟩ "A" "msg" 5 false :
        ToastData ℝ).physics.velocity = ⟨0, 0⟩ ∧
      (∃ N : Nat, ∀ n, N ≤ n →
        ImLength Real.sqrt
          ((shownToast (fun _ => ⟨21, 14⟩) ⟨1920, 1080⟩ "A" "msg" 5 false :
              ToastData ℝ).target_pos.sub
            (physicsFrames Real.sqrt (CalculateStackParams 1 1) (1 / 60) n
              (shownToast (fun _ => ⟨21, 14⟩) ⟨1920, 1080⟩ "A" "msg" 5 false)).current_pos) ≤
          1 / 10) ∧
      ∃ N : Nat, ∀ n, N ≤ n →
        ImLength Real.sqrt
          ((shownToast (fun _ => ⟨21, 14⟩) ⟨1920, 1080⟩ "A" "msg" 5 false :
              ToastData ℝ).target_pos.sub
            (physicsFrames Real.sqrt (CalculateStackParams 1 1) (1 / 4) n
              (shownToast (fun _ => ⟨21, 14⟩) ⟨1920, 1080⟩ "A" "msg" 5 false)).current_pos) ≤
          1 / 10 := by
  refine ⟨by norm_num, by norm_num, rfl, ?_, ?_⟩
  · obtain ⟨N, hN, -⟩ := C10_spring_settles_up_to_quarter_second
      (shownToast (fun _ => ⟨21, 14⟩) ⟨1920, 1080⟩ "A" "msg" 5 false) (CalculateStackParams 1 1)
      (1 / 60) (by norm_num) (by norm_num) rfl
    exact ⟨N, fun n hn => (hN n hn).2.1⟩
  · obtain ⟨N, hN, -⟩ := C10_spring_settles_up_to_quarter_second
      (shownToast (fun _ => ⟨21, 14⟩) ⟨1920, 1080⟩ "A" "msg" 5 false) (CalculateStackParams 1 1)
      (1 / 4) (by norm_num) (by norm_num) rfl
    exact ⟨N, fun n hn => (hN n hn).2.1⟩

theorem springRun_oscillates (n : Nat) :
    springRun (1 : ℝ) n (-615, 0) = (-615, 0) ∨ springRun (1 : ℝ) n (-615, 0) = (185, -800) ∨
      springRun (1 : ℝ) n (-615, 0) = (-615, 800) := by
  induction n with
  | zero => exact Or.inl rfl
  | succ n ih =>
    show springStep 1 (springRun 1 n (-615, 0)) = _ ∨ springStep 1 (springRun 1 n (-615, 0)) = _ ∨
      springStep 1 (springRun 1 n (-615, 0)) = _
    rcases ih with h | h | h
    · rw [h, springStep_clamped_neg (by norm_num [abs_of_neg]) (by norm_num)]
      exact Or.inr (Or.inl (by norm_num))
    · rw [h, springStep_clamped_pos (by norm_num [abs_of_pos]) (by norm_num)]
      exact Or.inr (Or.inr (by norm_num))
    · rw [h, springStep_clamped_neg (by norm_num [abs_of_neg]) (by norm_num)]
      exact Or.inr (Or.inl (by norm_num))

/-- With a step `h` between 1/4 and 7/25 of a second, a start at rest 0.104 from the target is
within 0.1 of it after the first step, and from then on every step multiplies the velocity by
`1 - 8 h`, a factor below `-1`. -/
theorem springRun_speeds_up {h : ℝ} (h0 : 1 / 4 < h) (h1 : h ≤ 7 / 25) (n : Nat) :
    |(springRun h (n + 1) (-(13 / 125), 0)).1| ≤ 1 / 10 ∧
      (springRun h (n + 1) (-(13 / 125), 0)).2 = 13 / 5 * h * (1 - h * 8) ^ n * -1 := by
  induction n with
  | zero =>
    have hfar : (1 / 10 : ℝ) < |((-(13 / 125), 0) : ℝ × ℝ).1| := by
      norm_num [abs_of_neg]
    have hw : ¬ 800 < |((-(13 / 125), 0) : ℝ × ℝ).2 +
        (((-(13 / 125), 0) : ℝ × ℝ).1 * 25 - ((-(13 / 125), 0) : ℝ × ℝ).2 * (35 / 10)) * h| := by
      simp only
      rw [not_lt, abs_le]
      constructor <;> nlinarith
    show |(springStep h (-(13 / 125), 0)).1| ≤ 1 / 10 ∧ (springStep h (-(13 / 125), 0)).2 = _
    rw [springStep_far hfar hw]
    simp only
    refine ⟨?_, by ring⟩
    rw [abs_le]
    constructor <;> nlinarith
  | succ n ih =>
    have hs := springStep_near (h := h) (not_lt.2 ih.1)
    show |(springStep h (springRun h (n + 1) (-(13 / 125), 0))).1| ≤ 1 / 10 ∧
      (springStep h (springRun h (n + 1) (-(13 / 125), 0))).2 = _
    rw [hs, ih.2]
    simp only
    refine ⟨by norm_num, ?_⟩
    rw [pow_succ]
    ring

/-- The toast at rest 0.104 to the right of its target lies on the horizontal line through the
target. -/
theorem shownToastAt_along :
    Along (⟨1, 0⟩ : ImVec2 ℝ) (shownToastAt (fun _ => ⟨21, 14⟩) ⟨1920, 1080⟩ (13 / 125))
      (-(13 / 125), 0) := by
  constructor
  · ext <;> norm_num [shownToastAt, shownToast, ToastData.new, ImVec2.sub, ImVec2.smul,
      toast_width, toast_margin]
  · ext <;> norm_num [shownToastAt, shownToast, ToastData.new, ImVec2.smul]

/-- Counterexample to C10 as stated, in two parts.  (1) The toast `Show` creates on a
1920 x 1080 display starts at rest 615 units from its target; stepped with `dt = 1` it jumps
between 185 units on one side and 615 units on the other side of the target for ever and is never
within 0.1 of it.  (2) The same toast put at rest 0.104 units from its target and stepped with
`dt = 13/50`, just above a quarter of a second, is within 0.1 of the target after the first frame
with velocity `(-0.676, 0)`, and the near branch then multiplies the velocity by `1 - 8 dt = -1.08`
in every frame, so the speed grows in every frame from then on. -/
theorem C10_counterexample :
    ((shownToast (fun _ => ⟨21, 14⟩) ⟨1920, 1080⟩ "A" "msg" 5 false :
        ToastData ℝ).physics.velocity = ⟨0, 0⟩ ∧
      ¬ ∃ N : Nat,
        ImLength Real.sqrt
          ((shownToast (fun _ => ⟨21, 14⟩) ⟨1920, 1080⟩ "A" "msg" 5 false :
              ToastData ℝ).target_pos.sub
            (physicsFrames Real.sqrt (CalculateStackParams 1 1) 1 N
              (shownToast (fun _ => ⟨21, 14⟩) ⟨1920, 1080⟩ "A" "msg" 5 false)).current_pos) ≤
          1 / 10) ∧
      ((shownToastAt (fun _ => ⟨21, 14⟩) ⟨1920, 1080⟩ (13 / 125) :
          ToastData ℝ).physics.velocity = ⟨0, 0⟩ ∧
        (physicsFrames Real.sqrt (CalculateStackParams 1 1) (13 / 50) 1
          (shownToastAt (fun _ => ⟨21, 14⟩) ⟨1920, 1080⟩ (13 / 125))).physics.velocity =
            ⟨-(169 / 250), 0⟩ ∧
        (physicsFrames Real.sqrt (CalculateStackParams 1 1) (13 / 50) 2
          (shownToastAt (fun _ => ⟨21, 14⟩) ⟨1920, 1080⟩ (13 / 125))).physics.velocity =
            ⟨4563 / 6250, 0⟩ ∧
        ∀ n : Nat,
          ImLength Real.sqrt
              ((shownToastAt (fun _ => ⟨21, 14⟩) ⟨1920, 1080⟩ (13 / 125) :
                  ToastData ℝ).target_pos.sub
                (physicsFrames Real.sqrt (CalculateStackParams 1 1) (13 / 50) (n + 1)
                  (shownToastAt (fun _ => ⟨21, 14⟩) ⟨1920, 1080⟩ (13 / 125))).current_pos) ≤
              1 / 10 ∧
            ImLength Real.sqrt
                (physicsFrames Real.sqrt (CalculateStackParams 1 1) (13 / 50) (n + 1)
                  (shownToastAt (fun _ => ⟨21, 14⟩) ⟨1920, 1080⟩ (13 / 125))).physics.velocity <
              ImLength Real.sqrt
                (physicsFrames Real.sqrt (CalculateStackParams 1 1) (13 / 50) (n + 2)
                  (shownToastAt (fun _ => ⟨21, 14⟩) ⟨1920, 1080⟩ (13 / 125))).physics.velocity) := by
  have he : (⟨1, 0⟩ : ImVec2 ℝ).x * (⟨1, 0⟩ : ImVec2 ℝ).x +
      (⟨1, 0⟩ : ImVec2 ℝ).y * (⟨1, 0⟩ : ImVec2 ℝ).y = 1 := by norm_num
  refine ⟨⟨rfl, ?_⟩, rfl, ?_, ?_, fun n => ⟨?_, ?_⟩⟩
  · rintro ⟨N, hN⟩
    have hA : Along (⟨1, 0⟩ : ImVec2 ℝ)
        (shownToast (fun _ => ⟨21, 14⟩) ⟨1920, 1080⟩ "A" "msg" 5 false) (-615, 0) := by
      constructor
      · ext <;> norm_num [shownToast, ToastData.new, ImVec2.sub, ImVec2.smul, toast_width,
          toast_margin]
      · ext <;> norm_num [shownToast, ToastData.new, ImVec2.smul]
    have hrun := (physicsFrames_along he hA (CalculateStackParams 1 1) 1 N).1
    rw [physicsFrames_target] at hrun
    rw [hrun, ImLength_smul_unit he] at hN
    rcases springRun_oscillates N with h | h | h <;> rw [h] at hN <;> norm_num [abs_of_neg] at hN
  · rw [(physicsFrames_along he shownToastAt_along (CalculateStackParams 1 1) (13 / 50) 1).2,
      (springRun_speeds_up (by norm_num) (by norm_num) 0).2]
    ext <;> norm_num [ImVec2.smul]
  · rw [(physicsFrames_along he shownToastAt_along (CalculateStackParams 1 1) (13 / 50) 2).2,
      (springRun_speeds_up (by norm_num) (by norm_num) 1).2]
    ext <;> norm_num [ImVec2.smul]
  · have hrun := (physicsFrames_along he shownToastAt_along (CalculateStackParams 1 1) (13 / 50)
      (n + 1)).1
    rw [physicsFrames_target] at hrun
    rw [hrun, ImLength_smul_unit he]
    exact (springRun_speeds_up (by norm_num) (by norm_num) n).1
  · rw [(physicsFrames_along he shownToastAt_along (CalculateStackParams 1 1) (13 / 50) (n + 1)).2,
      (physicsFrames_along he shownToastAt_along (CalculateStackParams 1 1) (13 / 50) (n + 2)).2,
      ImLength_smul_unit he, ImLength_smul_unit he,
      (springRun_speeds_up (by norm_num) (by norm_num) n).2,
      (springRun_speeds_up (by norm_num) (by norm_num) (n + 1)).2, pow_succ]
    have hp : (0 : ℝ) < |(1 - 13 / 50 * 8 : ℝ) ^ n| := abs_pos.2 (pow_ne_zero n (by norm_num))
    have e1 : |13 / 5 * (13 / 50 : ℝ) * (1 - 13 / 50 * 8) ^ n * -1| =
        169 / 250 * |(1 - 13 / 50 * 8 : ℝ) ^ n| := by
      rw [abs_mul, abs_mul, abs_mul, abs_neg, abs_one, mul_one,
        abs_of_pos (by norm_num : (0 : ℝ) < 13 / 5), abs_of_pos (by norm_num : (0 : ℝ) < 13 / 50)]
      ring
    have e2 : |13 / 5 * (13 / 50 : ℝ) * ((1 - 13 / 50 * 8) ^ n * (1 - 13 / 50 * 8)) * -1| =
        169 / 250 * (|(1 - 13 / 50 * 8 : ℝ) ^ n| * (27 / 25)) := by
      rw [abs_mul, abs_mul, abs_mul, abs_mul, abs_neg, abs_one, mul_one,
        abs_of_pos (by norm_num : (0 : ℝ) < 13 / 5), abs_of_pos (by norm_num : (0 : ℝ) < 13 / 50),
        abs_of_neg (by norm_num : (1 - 13 / 50 * 8 : ℝ) < 0)]
      ring
    rw [e1, e2]
    nlinarith

end RealSpring

section Integrator

theorem ImLength_nonneg (v : ImVec2 ℝ) : 0 ≤ ImLength Real.sqrt v := Real.sqrt_nonneg _

theorem ImLength_smul (v : ImVec2 ℝ) (c : ℝ) :
    ImLength Real.sqrt (v.smul c) = |c| * ImLength Real.sqrt v := by
  unfold ImLength ImVec2.smul
  simp only
  have h : v.x * c * (v.x * c) + v.y * c * (v.y * c) = c ^ 2 * (v.x * v.x + v.y * v.y) := by ring
  rw [h, Real.sqrt_mul (sq_nonneg c), Real.sqrt_sq_eq_abs]

/-- The far branch of `UpdateToastPhysics`, in terms of `springAcceleration` and
`unclampedVelocity`. -/
theorem UpdateToastPhysics_far (sqrtf : ℝ → ℝ) (t : ToastData ℝ) (p : StackParams ℝ) (dt : ℝ)
    (h : 1 / 10 < ImLength sqrtf (t.target_pos.sub t.current_pos)) :
    (UpdateToastPhysics sqrtf t p dt).physics.acceleration = springAcceleration t ∧
      (UpdateToastPhysics sqrtf t p dt).physics.velocity =
        (if 800 < ImLength sqrtf (unclampedVelocity t dt) then
          (unclampedVelocity t dt).smul (800 / ImLength sqrtf (unclampedVelocity t dt))
        else unclampedVelocity t dt) ∧
      (UpdateToastPhysics sqrtf t p dt).current_pos =
        t.current_pos.add ((UpdateToastPhysics sqrtf t p dt).physics.velocity.smul dt) := by
  have hg : ImLength sqrtf (t.target_pos.sub t.current_pos) > 1 / 10 := h
  refine ⟨?_, ?_, ?_⟩
  · simp only [UpdateToastPhysics, if_pos hg]
    rfl
  · simp only [UpdateToastPhysics, if_pos hg]
    rfl
  · simp only [UpdateToastPhysics, if_pos hg]

/-- C11. Over the reals, for every toast and `dt ≥ 0`, `UpdateToastPhysics` leaves `target_pos`
alone.  If the toast is farther than 0.1 from its target, the stored acceleration is
`a = displacement * 25 - velocity * 3.5`; with `w = velocity + a * dt`, the new velocity is `w`
itself when `|w| ≤ 800` and `w * (800 / |w|)` otherwise, that is `w` times a factor in `(0, 1]`,
so its direction is that of `w` and its length is `min |w| 800`; the position moves by the new
velocity times `dt`, a distance of `min |w| 800 * dt`, at most `800 * dt`.  Otherwise
`current_pos` becomes `target_pos` and the velocity is multiplied by `1 - 8 * dt`. -/
theorem C11_integrator_step_exact (t : ToastData ℝ) (p : StackParams ℝ) (dt : ℝ) (hdt : 0 ≤ dt) :
    (UpdateToastPhysics Real.sqrt t p dt).target_pos = t.target_pos ∧
      (1 / 10 < ImLength Real.sqrt (t.target_pos.sub t.current_pos) →
        (UpdateToastPhysics Real.sqrt t p dt).physics.acceleration =
            ((t.target_pos.sub t.current_pos).smul 25).sub (t.physics.velocity.smul (35 / 10)) ∧
          (UpdateToastPhysics Real.sqrt t p dt).physics.velocity =
            (if 800 < ImLength Real.sqrt (t.physics.velocity.add
                ((((t.target_pos.sub t.current_pos).smul 25).sub
                  (t.physics.velocity.smul (35 / 10))).smul dt)) then
              (t.physics.velocity.add
                ((((t.target_pos.sub t.current_pos).smul 25).sub
                  (t.physics.velocity.smul (35 / 10))).smul dt)).smul
                (800 / ImLength Real.sqrt (t.physics.velocity.add
                  ((((t.target_pos.sub t.current_pos).smul 25).sub
                    (t.physics.velocity.smul (35 / 10))).smul dt)))
            else
              t.physics.velocity.add
                ((((t.target_pos.sub t.current_pos).smul 25).sub
                  (t.physics.velocity.smul (35 / 10))).smul dt)) ∧
          (∃ c : ℝ, 0 < c ∧ c ≤ 1 ∧
            (UpdateToastPhysics Real.sqrt t p dt).physics.velocity =
              (t.physics.velocity.add
                ((((t.target_pos.sub t.current_pos).smul 25).sub
                  (t.physics.velocity.smul (35 / 10))).smul dt)).smul c) ∧
          ImLength Real.sqrt (UpdateToastPhysics Real.sqrt t p dt).physics.velocity =
            min (ImLength Real.sqrt (t.physics.velocity.add
              ((((t.target_pos.sub t.current_pos).smul 25).sub
                (t.physics.velocity.smul (35 / 10))).smul dt))) 800 ∧
          ImLength Real.sqrt (UpdateToastPhysics Real.sqrt t p dt).physics.velocity ≤ 800 ∧
          (UpdateToastPhysics Real.sqrt t p dt).current_pos =
            t.current_pos.add ((UpdateToastPhysics Real.sqrt t p dt).physics.velocity.smul dt) ∧
          ImLength Real.sqrt ((UpdateToastPhysics Real.sqrt t p dt).current_pos.sub t.current_pos) =
            min (ImLength Real.sqrt (t.physics.velocity.add
              ((((t.target_pos.sub t.current_pos).smul 25).sub
                (t.physics.velocity.smul (35 / 10))).smul dt))) 800 * dt ∧
          ImLength Real.sqrt ((UpdateToastPhysics Real.sqrt t p dt).current_pos.sub t.current_pos) ≤
            800 * dt) ∧
      (ImLength Real.sqrt (t.target_pos.sub t.current_pos) ≤ 1 / 10 →
        (UpdateToastPhysics Real.sqrt t p dt).current_pos = t.target_pos ∧
          (UpdateToastPhysics Real.sqrt t p dt).physics.velocity =
            t.physics.velocity.smul (1 - 8 * dt)) := by
  obtain ⟨hT, -, hnear⟩ := UpdateToastPhysics_motion Real.sqrt t p dt
  refine ⟨hT, fun hfar => ?_, fun hn => ?_⟩
  · obtain ⟨ha, hv, hc⟩ := UpdateToastPhysics_far Real.sqrt t p dt hfar
    have hw : unclampedVelocity t dt = t.physics.velocity.add
        ((((t.target_pos.sub t.current_pos).smul 25).sub
          (t.physics.velocity.smul (35 / 10))).smul dt) := rfl
    rw [hw] at hv
    generalize t.physics.velocity.add
        ((((t.target_pos.sub t.current_pos).smul 25).sub
          (t.physics.velocity.smul (35 / 10))).smul dt) = w at hv ⊢
    have hlen : ImLength Real.sqrt (UpdateToastPhysics Real.sqrt t p dt).physics.velocity =
        min (ImLength Real.sqrt w) 800 := by
      rw [hv]
      split_ifs with hs
      · have hpos : 0 < ImLength Real.sqrt w := by linarith
        rw [ImLength_smul, abs_of_pos (div_pos (by norm_num) hpos), div_mul_cancel₀ _ hpos.ne',
          min_eq_right hs.le]
      · rw [min_eq_left (not_lt.1 hs)]
    have hd : (UpdateToastPhysics Real.sqrt t p dt).current_pos.sub t.current_pos =
        (UpdateToastPhysics Real.sqrt t p dt).physics.velocity.smul dt := by
      rw [hc]
      ext <;> simp [ImVec2.sub, ImVec2.add, ImVec2.smul]
    have hmove : ImLength Real.sqrt
        ((UpdateToastPhysics Real.sqrt t p dt).current_pos.sub t.current_pos) =
        min (ImLength Real.sqrt w) 800 * dt := by
      rw [hd, ImLength_smul, abs_of_nonneg hdt, hlen, mul_comm]
    refine ⟨ha, hv, ?_, hlen, ?_, hc, hmove, ?_⟩
    · rw [hv]
      split_ifs with hs
      · have hpos : 0 < ImLength Real.sqrt w := by linarith
        exact ⟨800 / ImLength Real.sqrt w, div_pos (by norm_num) hpos,
          (div_le_one hpos).2 hs.le, rfl⟩
      · refine ⟨1, zero_lt_one, le_refl 1, ?_⟩
        ext <;> simp [ImVec2.smul]
    · rw [hlen]
      exact min_le_right _ _
    · rw [hmove]
      exact mul_le_mul_of_nonneg_right (min_le_right _ _) hdt
  · obtain ⟨h1, h2⟩ := hnear (not_lt.2 hn)
    refine ⟨h2, ?_⟩
    rw [h1]
    ext <;> simp only [ImVec2.smul] <;> ring

theorem ImLength_horizontal (c : ℝ) : ImLength Real.sqrt ⟨c, 0⟩ = |c| := by
  unfold ImLength
  simp only
  rw [show c * c + 0 * 0 = c ^ 2 by ring, Real.sqrt_sq_eq_abs]

theorem shownToast_distance :
    ImLength Real.sqrt
        ((shownToast (fun _ => ⟨21, 14⟩) ⟨1920, 1080⟩ "A" "msg" 5 false :
            ToastData ℝ).target_pos.sub
          (shownToast (fun _ => ⟨21, 14⟩) ⟨1920, 1080⟩ "A" "msg" 5 false :
            ToastData ℝ).current_pos) = 615 := by
  have hD : (shownToast (fun _ => ⟨21, 14⟩) ⟨1920, 1080⟩ "A" "msg" 5 false :
        ToastData ℝ).target_pos.sub
      (shownToast (fun _ => ⟨21, 14⟩) ⟨1920, 1080⟩ "A" "msg" 5 false : ToastData ℝ).current_pos =
      ⟨-615, 0⟩ := by
    ext <;> norm_num [shownToast, ToastData.new, ImVec2.sub, toast_width, toast_margin]
  rw [hD, ImLength_horizontal]
  norm_num [abs_of_neg]

/-- The velocity the toast `Show` creates on a 1920 x 1080 display has after the spring
acceleration of one frame, before the clamp: `(-615 * 25 * dt, 0)`. -/
theorem shownToast_unclamped (dt : ℝ) :
    (shownToast (fun _ => ⟨21, 14⟩) ⟨1920, 1080⟩ "A" "msg" 5 false : ToastData ℝ).physics.velocity.add
        (((((shownToast (fun _ => ⟨21, 14⟩) ⟨1920, 1080⟩ "A" "msg" 5 false :
            ToastData ℝ).target_pos.sub
          (shownToast (fun _ => ⟨21, 14⟩) ⟨1920, 1080⟩ "A" "msg" 5 false :
            ToastData ℝ).current_pos).smul 25).sub
          ((shownToast (fun _ => ⟨21, 14⟩) ⟨1920, 1080⟩ "A" "msg" 5 false :
            ToastData ℝ).physics.velocity.smul (35 / 10))).smul dt) = ⟨-15375 * dt, 0⟩ := by
  ext <;> norm_num [shownToast, ToastData.new, ImVec2.sub, ImVec2.add, ImVec2.smul, toast_width,
    toast_margin]

/-- Witness of C11: the toast `Show` creates on a 1920 x 1080 display, at rest at `(2200, 20)`,
615 units from its target `(1585, 20)`.  Stepped by 1/60 s it gets the acceleration
`(-15375, 0)` and the velocity `(-256.25, 0)`, below the speed limit, and moves to
`(2200 - 205/48, 20)`; stepped by 1 s its velocity `(-15375, 0)` is clamped to `(-800, 0)` and
it moves to `(1400, 20)`. -/
theorem C11_witness :
    (0 : ℝ) ≤ 1 / 60 ∧ (0 : ℝ) ≤ 1 ∧
      1 / 10 < ImLength Real.sqrt
        ((shownToast (fun _ => ⟨21, 14⟩) ⟨1920, 1080⟩ "A" "msg" 5 false :
            ToastData ℝ).target_pos.sub
          (shownToast (fun _ => ⟨21, 14⟩) ⟨1920, 1080⟩ "A" "msg" 5 false :
            ToastData ℝ).current_pos) ∧
      (UpdateToastPhysics Real.sqrt (shownToast (fun _ => ⟨21, 14⟩) ⟨1920, 1080⟩ "A" "msg" 5 false)
        (CalculateStackParams 1 1) (1 / 60)).physics.acceleration = ⟨-15375, 0⟩ ∧
      (UpdateToastPhysics Real.sqrt (shownToast (fun _ => ⟨21, 14⟩) ⟨1920, 1080⟩ "A" "msg" 5 false)
        (CalculateStackParams 1 1) (1 / 60)).physics.velocity = ⟨-(1025 / 4), 0⟩ ∧
      (UpdateToastPhysics Real.sqrt (shownToast (fun _ => ⟨21, 14⟩) ⟨1920, 1080⟩ "A" "msg" 5 false)
        (CalculateStackParams 1 1) (1 / 60)).current_pos = ⟨2200 - 205 / 48, 20⟩ ∧
      (UpdateToastPhysics Real.sqrt (shownToast (fun _ => ⟨21, 14⟩) ⟨1920, 1080⟩ "A" "msg" 5 false)
        (CalculateStackParams 1 1) 1).physics.velocity = ⟨-800, 0⟩ ∧
      (UpdateToastPhysics Real.sqrt (shownToast (fun _ => ⟨21, 14⟩) ⟨1920, 1080⟩ "A" "msg" 5 false)
        (CalculateStackParams 1 1) 1).current_pos = ⟨1400, 20⟩ := by
  have hfar : (1 / 10 : ℝ) < ImLength Real.sqrt
        ((shownToast (fun _ => ⟨21, 14⟩) ⟨1920, 1080⟩ "A" "msg" 5 false :
            ToastData ℝ).target_pos.sub
          (shownToast (fun _ => ⟨21, 14⟩) ⟨1920, 1080⟩ "A" "msg" 5 false :
            ToastData ℝ).current_pos) := by
    rw [shownToast_distance]
    norm_num
  obtain ⟨a1, v1, -, -, -, c1, -⟩ :=
    (C11_integrator_step_exact (shownToast (fun _ => ⟨21, 14⟩) ⟨1920, 1080⟩ "A" "msg" 5 false)
      (CalculateStackParams 1 1) (1 / 60) (by norm_num)).2.1 hfar
  obtain ⟨-, v2, -, -, -, c2, -⟩ :=
    (C11_integrator_step_exact (shownToast (fun _ => ⟨21, 14⟩) ⟨1920, 1080⟩ "A" "msg" 5 false)
      (CalculateStackParams 1 1) 1 (by norm_num)).2.1 hfar
  rw [shownToast_unclamped, ImLength_horizontal] at v1 v2
  rw [abs_of_neg (by norm_num : (-15375 * (1 / 60) : ℝ) < 0),
    if_neg (by norm_num : ¬ (800 : ℝ) < -(-15375 * (1 / 60)))] at v1
  rw [abs_of_neg (by norm_num : (-15375 * 1 : ℝ) < 0),
    if_pos (by norm_num : (800 : ℝ) < -(-15375 * 1))] at v2
  have hv1 : (UpdateToastPhysics Real.sqrt
      (shownToast (fun _ => ⟨21, 14⟩) ⟨1920, 1080⟩ "A" "msg" 5 false)
      (CalculateStackParams 1 1) (1 / 60)).physics.velocity = ⟨-(1025 / 4), 0⟩ := by
    rw [v1]
    ext <;> norm_num
  have hv2 : (UpdateToastPhysics Real.sqrt
      (shownToast (fun _ => ⟨21, 14⟩) ⟨1920, 1080⟩ "A" "msg" 5 false)
      (CalculateStackParams 1 1) 1).physics.velocity = ⟨-800, 0⟩ := by
    rw [v2]
    ext <;> norm_num [ImVec2.smul]
  refine ⟨by norm_num, by norm_num, hfar, ?_, hv1, ?_, hv2, ?_⟩
  · rw [a1]
    ext <;> norm_num [shownToast, ToastData.new, ImVec2.sub, ImVec2.smul, toast_width,
      toast_margin]
  · rw [c1, hv1]
    ext <;> norm_num [shownToast, ToastData.new, ImVec2.add, ImVec2.smul, toast_width,
      toast_margin]
  · rw [c2, hv2]
    ext <;> norm_num [shownToast, ToastData.new, ImVec2.add, ImVec2.smul, toast_width,
      toast_margin]

end Integrator

section Frame

variable {F : Type} [LinearOrderedField F]

theorem countsVisible_congr {t u : ToastData F} (h1 : u.is_exiting = t.is_exiting)
    (h2 : u.animation_progress = t.animation_progress)
    (h3 : u.exit_progress = t.exit_progress) : countsVisible u = countsVisible t := by
  unfold countsVisible
  rw [h1, h2, h3]

theorem layoutLoop_countsVisible (sqrtf : F → F) (dt : F) (scr : ImVec2 F) (vc : Int)
    (st : LayoutState F) (l : List (ToastData F)) :
    ((layoutLoop sqrtf dt scr vc st l).filter countsVisible).length =
      (l.filter countsVisible).length := by
  induction l generalizing st with
  | nil => rfl
  | cons t ts ih =>
    obtain ⟨-, -, -, -, -, h6, -, -, -, h10, h11⟩ := layoutStep_fields sqrtf dt scr vc st t
    have hc := countsVisible_congr h10 h6 h11
    simp only [layoutLoop, List.filter_cons, hc]
    split_ifs
    · simp only [List.length_cons, ih]
    · exact ih _

theorem GetVisibleCountRun_eq (count : Int) (l : List (ToastData F)) :
    GetVisibleCountRun count l = (l, count + GetVisibleCount l) := by
  induction l generalizing count with
  | nil => simp [GetVisibleCountRun, GetVisibleCount]
  | cons t ts ih =>
    simp only [GetVisibleCountRun, GetVisibleCount, ih]
    split_ifs
    · simp only [Prod.mk.injEq, true_and]
      ring
    · simp only [Prod.mk.injEq, true_and]
      ring

/-- C12. Right after `UpdateAndRender`, `GetVisibleCount` is the `visible_count` the timer loop
of that call computed (the value its layout loop was run with); on every registry it is the
number of toasts with (not exiting and `animation_progress > 0.1`) or (exiting and
`exit_progress < 0.9`); and the call leaves the registry as it was. -/
theorem C12_visible_count_agrees (sqrtf : F → F) (dt : F) (scr : ImVec2 F)
    (reg : List (ToastData F)) :
    GetVisibleCount (UpdateAndRender sqrtf dt scr reg) = (timerLoop dt scr 0 reg).2 ∧
      UpdateAndRender sqrtf dt scr reg =
        layoutLoop sqrtf dt scr (timerLoop dt scr 0 reg).2 ⟨toast_margin, 0⟩
          (timerLoop dt scr 0 reg).1 ∧
      GetVisibleCount reg =
        ((reg.filter fun t =>
          (!t.is_exiting && decide (t.animation_progress > 1 / 10)) ||
            (t.is_exiting && decide (t.exit_progress < 9 / 10))).length : Int) ∧
      GetVisibleCountRun 0 reg = (reg, GetVisibleCount reg) := by
  refine ⟨?_, rfl, GetVisibleCount_eq reg, ?_⟩
  · rw [GetVisibleCount_eq, timerLoop_snd, zero_add]
    unfold UpdateAndRender
    simp only
    rw [layoutLoop_countsVisible, timerLoop_fst]
  · rw [GetVisibleCountRun_eq, zero_add]

theorem timerStep_monotone {dt : F} (hdt : 0 ≤ dt) {scr : ImVec2 F} {t t1 : ToastData F}
    (hp : ProgressInUnit t) (h : timerStep dt scr t = some t1) :
    (t.is_exiting = true → t.exit_progress ≤ t1.exit_progress) ∧
      (t.is_exiting = false → t1.is_exiting = false →
        t.animation_progress ≤ t1.animation_progress) := by
  have hq : (0 : F) ≤ dt / animation_duration := div_nonneg hdt animation_duration_pos.le
  obtain ⟨-, h2, -, -⟩ := hp
  rw [timerStep_eq] at h
  split_ifs at h with he hx ha hd
  · cases h
    exact ⟨fun _ => by simp only; linarith, fun hf => by simp [he] at hf⟩
  · cases h
    exact ⟨fun hf => absurd hf he, fun _ hf => by simp at hf⟩
  · cases h
    exact ⟨fun hf => absurd hf he, fun _ _ => h2⟩
  · cases h
    exact ⟨fun hf => absurd hf he, fun _ _ => by simp only; linarith⟩

/-- Both progress values stay in the unit interval along every run whose frame times are
non-negative. -/
theorem reachable_progressInUnit (sqrtf : F → F) {okDt : F → Prop}
    (hok : ∀ dt, okDt dt → 0 ≤ dt) {reg : List (ToastData F)}
    (h : ReachableWith sqrtf okDt reg) : ∀ t ∈ reg, ProgressInUnit t := by
  induction h with
  | empty => simp
  | afterShow cts scr title content duration err _ ih =>
    intro t ht
    rcases List.mem_cons.1 ht with rfl | ht
    · simp [ProgressInUnit, shownToast, ToastData.new]
    · exact ih t ht
  | afterClearAll scr _ ih =>
    intro t ht
    obtain ⟨t0, ht0, rfl⟩ := List.mem_map.1 ht
    obtain ⟨h1, h2, -, -⟩ := ih t0 ht0
    exact ⟨h1, h2, by simp, by simp⟩
  | afterUpdate dt scr hdt _ ih =>
    intro u hu
    obtain ⟨t, ht, t1, vc, st, h1, rfl⟩ := mem_UpdateAndRender hu
    exact layoutStep_progress sqrtf dt scr vc st (timerStep_progress (hok dt hdt) scr (ih t ht) h1)

theorem forall₂_filter_of_mem {α β : Type} {R S : α → β → Prop} {p : α → Bool} {l : List α}
    {l' : List β} (h : List.Forall₂ R (l.filter p) l')
    (himp : ∀ a ∈ l, ∀ b, R a b → S a b) : List.Forall₂ S (l.filter p) l' := by
  have hsub : ∀ a ∈ l.filter p, a ∈ l := fun a ha => (List.mem_filter.1 ha).1
  generalize l.filter p = m at h hsub
  induction h with
  | nil => exact List.Forall₂.nil
  | cons hab _ ih =>
    exact List.Forall₂.cons (himp _ (hsub _ (List.mem_cons_self _ _)) _ hab)
      (ih fun a ha => hsub a (List.mem_cons_of_mem _ ha))

/-- C13, as the code behaves.  In a reachable registry, `UpdateAndRender` with `dt ≥ 0` never
lowers the `exit_progress` of a toast that was exiting and is still registered, nor the
`animation_progress` of a toast that is not exiting before and after; `Show` leaves the
registered toasts untouched; `ClearAll` leaves `animation_progress` untouched but sets the
`exit_progress` of every toast to 0, also of a toast that was already exiting. -/
theorem C13_progress_monotone_except_clearAll (sqrtf : F → F) (CalcTextSize : String → ImVec2 F)
    {dt : F} (hdt : 0 ≤ dt) (scr : ImVec2 F) (title content : String) (duration : F)
    (is_error : Bool) {reg : List (ToastData F)} (hr : Reachable sqrtf reg) :
    List.Forall₂
        (fun t u =>
          (t.is_exiting = true → t.exit_progress ≤ u.exit_progress) ∧
          (t.is_exiting = false → u.is_exiting = false →
            t.animation_progress ≤ u.animation_progress))
        (reg.filter fun t => !erasedThisFrame dt t) (UpdateAndRender sqrtf dt scr reg) ∧
      (Show CalcTextSize scr title content duration is_error reg).tail = reg ∧
      List.Forall₂
        (fun t u => u.animation_progress = t.animation_progress ∧ u.is_exiting = true ∧
          u.exit_progress = 0)
        reg (ClearAll scr reg) := by
  have hinv := reachable_progressInUnit sqrtf (fun _ h => h) hr
  refine ⟨?_, rfl, ?_⟩
  · refine forall₂_filter_of_mem (UpdateAndRender_forall₂ sqrtf dt scr reg) ?_
    rintro t ht u ⟨t1, vc, st, h1, rfl⟩
    obtain ⟨-, -, -, -, -, h6, -, -, -, h10, h11⟩ := layoutStep_fields sqrtf dt scr vc st t1
    rw [h6, h10, h11]
    exact timerStep_monotone hdt (hinv t ht) h1
  · unfold ClearAll
    rw [List.forall₂_map_right_iff]
    exact List.forall₂_same.2 (fun t _ => ⟨rfl, rfl, rfl⟩)

/-- The registry after `Show`, one frame of 1000 s and one frame of 3/4 s: a single toast,
half way through its exit. -/
theorem halfExited_single :
    SingleToast
      (UpdateAndRender sqrtQ (3 / 4) screenQ
        (UpdateAndRender sqrtQ 1000 screenQ (Show measureQ screenQ "A" "msg" 5 false [])))
      true 1 1000 (1 / 2) := by
  have h0 : SingleToast (Show measureQ screenQ "A" "msg" 5 false []) false 0 0 0 :=
    ⟨_, rfl, rfl, rfl, rfl, rfl, rfl⟩
  have h1 : SingleToast
      (UpdateAndRender sqrtQ 1000 screenQ (Show measureQ screenQ "A" "msg" 5 false []))
      true 1 (0 + 1000) 0 :=
    frame_expires sqrtQ screenQ h0 (by norm_num [animation_duration]) (by norm_num)
  have h2 : SingleToast
      (UpdateAndRender sqrtQ (3 / 4) screenQ
        (UpdateAndRender sqrtQ 1000 screenQ (Show measureQ screenQ "A" "msg" 5 false [])))
      true 1 (0 + 1000) (0 + 3 / 4 / animation_duration) :=
    frame_exiting sqrtQ screenQ h1 (by norm_num [animation_duration])
  have e1 : (0 : ℚ) + 1000 = 1000 := by norm_num
  have e2 : (0 : ℚ) + 3 / 4 / animation_duration = 1 / 2 := by norm_num [animation_duration]
  rw [e1, e2] at h2
  exact h2

theorem halfExited_reachable :
    Reachable sqrtQ
      (UpdateAndRender sqrtQ (3 / 4) screenQ
        (UpdateAndRender sqrtQ 1000 screenQ (Show measureQ screenQ "A" "msg" 5 false []))) :=
  ReachableWith.afterUpdate (3 / 4) screenQ (by norm_num)
    (ReachableWith.afterUpdate 1000 screenQ (by norm_num)
      (ReachableWith.afterShow measureQ screenQ "A" "msg" 5 false ReachableWith.empty))

/-- Witness of C13: a frame of 1/60 s on the registry whose single toast is half way through
its exit. -/
theorem C13_witness :
    (0 : ℚ) ≤ 1 / 60 ∧
      Reachable sqrtQ
        (UpdateAndRender sqrtQ (3 / 4) screenQ
          (UpdateAndRender sqrtQ 1000 screenQ (Show measureQ screenQ "A" "msg" 5 false []))) ∧
      List.Forall₂
        (fun t u =>
          (t.is_exiting = true → t.exit_progress ≤ u.exit_progress) ∧
          (t.is_exiting = false → u.is_exiting = false →
            t.animation_progress ≤ u.animation_progress))
        ((UpdateAndRender sqrtQ (3 / 4) screenQ
          (UpdateAndRender sqrtQ 1000 screenQ (Show measureQ screenQ "A" "msg" 5 false []))).filter
            fun t => !erasedThisFrame (1 / 60) t)
        (UpdateAndRender sqrtQ (1 / 60) screenQ
          (UpdateAndRender sqrtQ (3 / 4) screenQ
            (UpdateAndRender sqrtQ 1000 screenQ (Show measureQ screenQ "A" "msg" 5 false [])))) :=
  ⟨by norm_num, halfExited_reachable,
    (C13_progress_monotone_except_clearAll sqrtQ measureQ (by norm_num) screenQ "A" "msg" 5 false
      halfExited_reachable).1⟩

/-- Counterexample to C13 as stated: a reachable registry whose toast is exiting with
`exit_progress = 1/2`; after `ClearAll` the toast is still registered and its `exit_progress`
is 0. -/
theorem C13_counterexample :
    Reachable sqrtQ
        (UpdateAndRender sqrtQ (3 / 4) screenQ
          (UpdateAndRender sqrtQ 1000 screenQ (Show measureQ screenQ "A" "msg" 5 false []))) ∧
      (UpdateAndRender sqrtQ (3 / 4) screenQ
          (UpdateAndRender sqrtQ 1000 screenQ (Show measureQ screenQ "A" "msg" 5 false []))).map
        (fun t => (t.is_exiting, t.exit_progress)) = [(true, 1 / 2)] ∧
      (ClearAll screenQ
          (UpdateAndRender sqrtQ (3 / 4) screenQ
            (UpdateAndRender sqrtQ 1000 screenQ
              (Show measureQ screenQ "A" "msg" 5 false [])))).map
        (fun t => (t.is_exiting, t.exit_progress)) = [(true, 0)] := by
  obtain ⟨t, ht, he, -, -, hep, -⟩ := halfExited_single
  refine ⟨halfExited_reachable, ?_, ?_⟩
  · rw [ht]
    simp [he, hep]
  · rw [ht]
    simp [ClearAll]

/-- C14. `UpdateAndRender` (any `dt`) and `ClearAll` leave title, content, duration, style,
height, start position and the `active` flag of every toast that stays registered as they were,
and neither adds a toast: the registry after `UpdateAndRender` is paired in order with the toasts
of the old registry that were not erased, the one after `ClearAll` with the whole old registry. -/
theorem C14_content_and_height_fixed (sqrtf : F → F) (dt : F) (scr : ImVec2 F)
    (reg : List (ToastData F)) :
    List.Forall₂
        (fun t u => u.title = t.title ∧ u.content = t.content ∧ u.duration = t.duration ∧
          u.is_error = t.is_error ∧ u.height = t.height ∧ u.start_pos = t.start_pos ∧
          u.active = t.active)
        (reg.filter fun t => !erasedThisFrame dt t) (UpdateAndRender sqrtf dt scr reg) ∧
      (UpdateAndRender sqrtf dt scr reg).length ≤ reg.length ∧
      List.Forall₂
        (fun t u => u.title = t.title ∧ u.content = t.content ∧ u.duration = t.duration ∧
          u.is_error = t.is_error ∧ u.height = t.height ∧ u.start_pos = t.start_pos ∧
          u.active = t.active)
        reg (ClearAll scr reg) ∧
      (ClearAll scr reg).length = reg.length := by
  have hmain := UpdateAndRender_forall₂ sqrtf dt scr reg
  refine ⟨?_, ?_, ?_, ?_⟩
  · refine hmain.imp ?_
    rintro t u ⟨t1, vc, st, h1, rfl⟩
    obtain ⟨g1, g2, g3, -, g5, -, g7, g8, g9, -, -⟩ := layoutStep_fields sqrtf dt scr vc st t1
    obtain ⟨i1, i2, i3, i4, i5, i6⟩ := timerStep_identity h1
    have i7 : t1.active = t.active := by
      rw [timerStep_eq] at h1
      split_ifs at h1 <;> cases h1 <;> rfl
    rw [g1, g2, g3, g5, g7, g8, g9, i1, i2, i3, i4, i5, i6, i7]
    exact ⟨rfl, rfl, rfl, rfl, rfl, rfl, rfl⟩
  · rw [← hmain.length_eq]
    exact List.length_filter_le _ _
  · unfold ClearAll
    rw [List.forall₂_map_right_iff]
    exact List.forall₂_same.2 (fun t _ => ⟨rfl, rfl, rfl, rfl, rfl, rfl, rfl⟩)
  · unfold ClearAll
    exact List.length_map _ _

end Frame

section EasingFacts

variable {F : Type} [LinearOrderedField F]

/-- C15. For all `a`, `b` and both easing functions `CustomLerp a b 0 = a` and
`CustomLerp a b 1 = b`; for `0 ≤ s ≤ t ≤ 1`, `EaseOutQuad t = 1 - (1 - t)^2` lies in `[0, 1]`,
`EaseOutQuad s ≤ EaseOutQuad t`, and `CustomLerp a b t EaseOutQuad` lies between `a` and `b`. -/
theorem C15_lerp_endpoints_and_quad_range (a b s t : F) (hs : 0 ≤ s) (hst : s ≤ t)
    (ht : t ≤ 1) :
    CustomLerp a b 0 EaseOutQuad = a ∧ CustomLerp a b 1 EaseOutQuad = b ∧
      CustomLerp a b 0 EaseOutBack = a ∧ CustomLerp a b 1 EaseOutBack = b ∧
      EaseOutQuad t = 1 - (1 - t) ^ 2 ∧ 0 ≤ EaseOutQuad t ∧ EaseOutQuad t ≤ 1 ∧
      EaseOutQuad s ≤ EaseOutQuad t ∧
      min a b ≤ CustomLerp a b t EaseOutQuad ∧ CustomLerp a b t EaseOutQuad ≤ max a b := by
  have ht0 : 0 ≤ t := le_trans hs hst
  obtain ⟨e0, e1⟩ := EaseOutQuad_mem ht0 (by linarith : t ≤ 2)
  have hlerp := CustomLerp_mem (a := a) (b := b) ht0 (by linarith : t ≤ 2)
    ⟨min_le_left a b, le_max_left a b⟩ ⟨min_le_right a b, le_max_right a b⟩
  refine ⟨?_, ?_, ?_, ?_, ?_, e0, e1, ?_, hlerp.1, hlerp.2⟩
  · simp [CustomLerp, EaseOutQuad]
  · simp [CustomLerp, EaseOutQuad]
  · simp only [CustomLerp, EaseOutBack]
    norm_num
  · simp [CustomLerp, EaseOutBack]
  · unfold EaseOutQuad
    ring
  · unfold EaseOutQuad
    nlinarith [mul_nonneg (sub_nonneg.2 hst) (by linarith : (0 : F) ≤ (1 - s) + (1 - t))]

/-- Witness of C15: `t = 1/2`, `s = 1/4`, between `a = 2` and `b = 10`. -/
theorem C15_witness :
    (0 : ℚ) ≤ 1 / 4 ∧ (1 / 4 : ℚ) ≤ 1 / 2 ∧ (1 / 2 : ℚ) ≤ 1 ∧
      CustomLerp (2 : ℚ) 10 0 EaseOutBack = 2 ∧ CustomLerp (2 : ℚ) 10 1 EaseOutBack = 10 ∧
      EaseOutQuad (1 / 4 : ℚ) ≤ EaseOutQuad (1 / 2) ∧
      min (2 : ℚ) 10 ≤ CustomLerp 2 10 (1 / 2) EaseOutQuad ∧
      CustomLerp (2 : ℚ) 10 (1 / 2) EaseOutQuad ≤ max 2 10 :=
  have h := C15_lerp_endpoints_and_quad_range (2 : ℚ) 10 (1 / 4) (1 / 2) (by norm_num)
    (by norm_num) (by norm_num)
  ⟨by norm_num, by norm_num, by norm_num, h.2.2.1, h.2.2.2.1, h.2.2.2.2.2.2.2.1,
    h.2.2.2.2.2.2.2.2.1, h.2.2.2.2.2.2.2.2.2⟩

end EasingFacts

section StackSpace

variable {F : Type} [LinearOrderedField F]

/-- The running variables after the layout loop has processed a toast it does not skip. -/
theorem layoutStep_state (sqrtf : F → F) (dt : F) (scr : ImVec2 F) (vc : Int)
    (st : LayoutState F) {t : ToastData F} (hs : layoutSkips t = false) :
    (layoutStep sqrtf dt scr vc st t).1 =
      ⟨st.current_y + (t.height * (layoutParams vc st t).scale + toast_spacing),
        st.current_index + 1⟩ := by
  simp only [layoutStep, hs, Bool.false_eq_true, if_false]
  split_ifs <;> rfl

theorem layoutParams_exiting (vc : Int) (st : LayoutState F) {t : ToastData F}
    (he : t.is_exiting = true) :
    layoutParams vc st t =
      { (CalculateStackParams (st.current_index + 1) (ImMin vc max_visible_toasts) :
          StackParams F) with
        scale := (CalculateStackParams (st.current_index + 1) (ImMin vc max_visible_toasts) :
          StackParams F).scale * (1 - t.exit_progress)
        alpha := (CalculateStackParams (st.current_index + 1) (ImMin vc max_visible_toasts) :
          StackParams F).alpha * (1 - t.exit_progress)
        shadow := (CalculateStackParams (st.current_index + 1) (ImMin vc max_visible_toasts) :
          StackParams F).shadow * (1 - t.exit_progress) } := by
  simp only [layoutParams, stackArgs, he, Bool.not_true, Bool.false_eq_true, if_false]

theorem stack_scale_mem (index total_count : Int) :
    85 / 100 ≤ (CalculateStackParams index total_count : StackParams F).scale ∧
      (CalculateStackParams index total_count : StackParams F).scale ≤ 1 :=
  ImClamp_mem _ (by norm_num)

/-- C16, as the code behaves.  For an exiting toast the layout loop ranks (`exit_progress < 0.9`)
the scale, alpha and shadow of the stack formulas are multiplied by `1 - exit_progress`, and
`current_y` is advanced like for every ranked toast, by `height * scale + toast_spacing` with
that reduced scale: by at least the spacing 12 when the height is not negative. -/
theorem C16_exiting_toast_advances_current_y (sqrtf : F → F) (dt : F) (scr : ImVec2 F) (vc : Int)
    (st : LayoutState F) (t : ToastData F) (he : t.is_exiting = true)
    (hs : layoutSkips t = false) :
    (layoutParams vc st t).scale =
        (CalculateStackParams (st.current_index + 1) (ImMin vc 5) : StackParams F).scale *
          (1 - t.exit_progress) ∧
      (layoutParams vc st t).alpha =
        (CalculateStackParams (st.current_index + 1) (ImMin vc 5) : StackParams F).alpha *
          (1 - t.exit_progress) ∧
      (layoutParams vc st t).shadow =
        (CalculateStackParams (st.current_index + 1) (ImMin vc 5) : StackParams F).shadow *
          (1 - t.exit_progress) ∧
      (layoutStep sqrtf dt scr vc st t).1.current_y =
        st.current_y +
          (t.height *
            ((CalculateStackParams (st.current_index + 1) (ImMin vc 5) : StackParams F).scale *
              (1 - t.exit_progress)) + 12) ∧
      (0 ≤ t.height → st.current_y + 12 ≤ (layoutStep sqrtf dt scr vc st t).1.current_y) := by
  have hp := layoutParams_exiting (F := F) vc st he
  have hst := layoutStep_state sqrtf dt scr vc st hs
  have hsc := stack_scale_mem (F := F) (st.current_index + 1) (ImMin vc 5)
  have hep : t.exit_progress < 9 / 10 := by
    simp only [layoutSkips, he, Bool.true_and, Bool.not_true, Bool.false_and, Bool.or_false,
      decide_eq_false_iff_not, ge_iff_le, not_le] at hs
    exact hs
  rw [hst, hp]
  refine ⟨rfl, rfl, rfl, rfl, fun hh => ?_⟩
  show st.current_y + 12 ≤ st.current_y + (t.height *
    ((CalculateStackParams (st.current_index + 1) (ImMin vc 5) : StackParams F).scale *
      (1 - t.exit_progress)) + 12)
  have h1 : 0 ≤ (CalculateStackParams (st.current_index + 1) (ImMin vc 5) : StackParams F).scale *
      (1 - t.exit_progress) := mul_nonneg (by linarith) (by linarith)
  have := mul_nonneg hh h1
  linarith

theorem exitingToastQ_ranked :
    exitingToastQ.is_exiting = true ∧ layoutSkips exitingToastQ = false := by
  refine ⟨rfl, ?_⟩
  simp only [layoutSkips, exitingToastQ, shownToast, ToastData.new, Bool.true_and, Bool.not_true,
    Bool.false_and, Bool.or_false, decide_eq_false_iff_not, ge_iff_le, not_le]
  norm_num

/-- Witness of C16: the first toast of the layout loop is half way through its exit. -/
theorem C16_witness :
    exitingToastQ.is_exiting = true ∧ layoutSkips exitingToastQ = false ∧
      (layoutStep sqrtQ (1 / 60) screenQ 1 ⟨toast_margin, 0⟩ exitingToastQ).1.current_y =
        toast_margin +
          (exitingToastQ.height *
            ((CalculateStackParams ((0 : Int) + 1) (ImMin 1 5) : StackParams ℚ).scale *
              (1 - exitingToastQ.exit_progress)) + 12) :=
  ⟨exitingToastQ_ranked.1, exitingToastQ_ranked.2,
    (C16_exiting_toast_advances_current_y sqrtQ (1 / 60) screenQ 1 ⟨toast_margin, 0⟩
      exitingToastQ exitingToastQ_ranked.1 exitingToastQ_ranked.2).2.2.2.1⟩

/-- Counterexample to C16 as stated: the layout loop reaches an exiting toast of height 64 with
`exit_progress = 1/2` as its first ranked toast, with `current_y = 20`; afterwards `current_y`
is `20 + 64 * 1/2 + 12 = 64`. -/
theorem C16_counterexample :
    exitingToastQ.is_exiting = true ∧ layoutSkips exitingToastQ = false ∧
      (⟨toast_margin, 0⟩ : LayoutState ℚ).current_y = 20 ∧
      (layoutStep sqrtQ (1 / 60) screenQ 1 ⟨toast_margin, 0⟩ exitingToastQ).1.current_y = 64 := by
  refine ⟨exitingToastQ_ranked.1, exitingToastQ_ranked.2, rfl, ?_⟩
  rw [layoutStep_state sqrtQ (1 / 60) screenQ 1 ⟨toast_margin, 0⟩ exitingToastQ_ranked.2,
    layoutParams_exiting 1 _ exitingToastQ_ranked.1]
  simp only [CalculateStackParams, ImMin, max_visible_toasts, ImClamp, exitingToastQ, shownToast,
    ToastData.new, measureQ, toast_margin, toast_spacing]
  norm_num

end StackSpace

section ProgressBar

variable {F : Type} [LinearOrderedField F]

theorem timerStep_timer {dt : F} (hdt : 0 ≤ dt) {scr : ImVec2 F} {t t1 : ToastData F}
    (ht : TimerConsistent t) (h : timerStep dt scr t = some t1) : TimerConsistent t1 := by
  have hq : (0 : F) ≤ dt / animation_duration := div_nonneg hdt animation_duration_pos.le
  rw [timerStep_eq] at h
  split_ifs at h with he hx ha hd
  · cases h
    intro hf
    simp only at hf
    rw [he] at hf
    cases hf
  · cases h
    intro hf
    simp at hf
  · cases h
    simp only [Bool.not_eq_true] at he
    intro _
    refine Or.inr ⟨rfl, ?_, not_le.1 hd⟩
    rcases ht he with ⟨h1, h2⟩ | ⟨-, h2, -⟩
    · have hpos : 0 < dt / animation_duration := by linarith
      have hdt' : 0 < dt := by
        rcases hdt.eq_or_lt with h0 | h0
        · rw [← h0, zero_div] at hpos
          exact absurd hpos (lt_irrefl _)
        · exact h0
      simp only [h2, zero_add]
      exact hdt'
    · simp only
      linarith
  · cases h
    simp only [Bool.not_eq_true] at he
    intro _
    rcases ht he with ⟨-, h2⟩ | ⟨h1, -, -⟩
    · exact Or.inl ⟨not_le.1 ha, h2⟩
    · exact absurd (by rw [h1]; linarith : 1 ≤ t.animation_progress + dt / animation_duration) ha

theorem layoutStep_timer (sqrtf : F → F) (dt : F) (scr : ImVec2 F) (vc : Int)
    (st : LayoutState F) {t : ToastData F} (ht : TimerConsistent t) :
    TimerConsistent (layoutStep sqrtf dt scr vc st t).2 := by
  obtain ⟨-, -, h3, h4, -, h6, -, -, -, h10, -⟩ := layoutStep_fields sqrtf dt scr vc st t
  unfold TimerConsistent
  rw [h3, h4, h6, h10]
  exact ht

theorem reachable_timerConsistent (sqrtf : F → F) {reg : List (ToastData F)}
    (h : Reachable sqrtf reg) : ∀ t ∈ reg, TimerConsistent t := by
  unfold Reachable at h
  induction h with
  | empty => simp
  | afterShow cts scr title content duration err _ ih =>
    intro t ht
    rcases List.mem_cons.1 ht with rfl | ht
    · intro _
      exact Or.inl ⟨by simp [shownToast, ToastData.new], rfl⟩
    · exact ih t ht
  | afterClearAll scr _ ih =>
    intro t ht
    obtain ⟨t0, -, rfl⟩ := List.mem_map.1 ht
    intro hf
    simp at hf
  | afterUpdate dt scr hdt _ ih =>
    intro u hu
    obtain ⟨t, ht, t1, vc, st, h1, rfl⟩ := mem_UpdateAndRender hu
    exact layoutStep_timer sqrtf dt scr vc st (timerStep_timer hdt (ih t ht) h1)

/-- The renderer draws the progress bar only for a toast that is not exiting and has
`animation_progress ≥ 1` (Toast.h:226). -/
theorem progressBar_drawn_only_when_entered (font_size : F) (t : ToastData F) (c : DrawCall F)
    (hc : c ∈ renderToast font_size t) (hb : c.isProgressBar = true) :
    t.is_exiting = false ∧ 1 ≤ t.animation_progress := by
  by_cases hcond : (!t.is_exiting) = true ∧ t.animation_progress ≥ 1
  · exact ⟨by simpa using hcond.1, hcond.2⟩
  · exfalso
    unfold renderToast at hc
    simp only [hcond, if_false, List.append_nil] at hc
    split_ifs at hc
    all_goals
      simp only [List.mem_append, List.mem_cons, List.mem_singleton, List.not_mem_nil,
        or_false, false_or] at hc
    all_goals first
      | exact hc
      | (rcases hc with rfl | rfl | rfl | rfl <;> simp [DrawCall.isProgressBar] at hb)

/-- C17. In every reachable registry a toast that is not exiting and has
`animation_progress ≥ 1` has `duration > 0` and `0 < timer < duration`, so the fill fraction
`1 - timer / duration` of its progress bar does not divide by zero and lies in `[0, 1)`, whatever
durations were passed to `Show`; and the renderer draws a progress bar only for such toasts. -/
theorem C17_progress_bar_fraction_well_defined (sqrtf : F → F) (font_size : F)
    {reg : List (ToastData F)} (hr : Reachable sqrtf reg) :
    ∀ t ∈ reg,
      (t.is_exiting = false → 1 ≤ t.animation_progress →
        0 < t.duration ∧ 0 < t.timer ∧ t.timer < t.duration ∧
          0 ≤ timeProgress t ∧ timeProgress t < 1) ∧
      (∀ c ∈ renderToast font_size t, c.isProgressBar = true →
        t.is_exiting = false ∧ 1 ≤ t.animation_progress) := by
  intro t ht
  refine ⟨fun he ha => ?_, fun c hc hb => progressBar_drawn_only_when_entered font_size t c hc hb⟩
  rcases reachable_timerConsistent sqrtf hr t ht he with ⟨h1, -⟩ | ⟨-, h2, h3⟩
  · exact absurd ha (not_le.2 h1)
  · have hd : 0 < t.duration := lt_trans h2 h3
    have hq0 : 0 < t.timer / t.duration := div_pos h2 hd
    have hq1 : t.timer / t.duration < 1 := (div_lt_one hd).2 h3
    unfold timeProgress
    exact ⟨hd, h2, h3, by linarith, by linarith⟩

/-- Witness of C17: one toast of duration 5 shown, then one frame of 2 s; the toast has fully
entered and its timer stands at 2. -/
theorem C17_witness :
    Reachable sqrtQ (UpdateAndRender sqrtQ 2 screenQ (Show measureQ screenQ "A" "msg" 5 false [])) ∧
      (UpdateAndRender sqrtQ 2 screenQ (Show measureQ screenQ "A" "msg" 5 false [])).map
        (fun t => (t.is_exiting, t.animation_progress, t.timer, t.duration)) =
          [(false, 1, 2, 5)] ∧
      ∀ t ∈ UpdateAndRender sqrtQ 2 screenQ (Show measureQ screenQ "A" "msg" 5 false []),
        t.is_exiting = false → 1 ≤ t.animation_progress →
          0 < t.duration ∧ 0 < t.timer ∧ t.timer < t.duration ∧
            0 ≤ timeProgress t ∧ timeProgress t < 1 := by
  have hr : Reachable sqrtQ
      (UpdateAndRender sqrtQ 2 screenQ (Show measureQ screenQ "A" "msg" 5 false [])) :=
    ReachableWith.afterUpdate 2 screenQ (by norm_num)
      (ReachableWith.afterShow measureQ screenQ "A" "msg" 5 false ReachableWith.empty)
  have h0 : SingleToast (Show measureQ screenQ "A" "msg" 5 false []) false 0 0 0 :=
    ⟨_, rfl, rfl, rfl, rfl, rfl, rfl⟩
  have h1 : SingleToast
      (UpdateAndRender sqrtQ 2 screenQ (Show measureQ screenQ "A" "msg" 5 false []))
      false 1 (0 + 2) 0 :=
    frame_visible sqrtQ screenQ h0 (by norm_num [animation_duration]) (by norm_num)
  refine ⟨hr, ?_, fun t ht =>
    (C17_progress_bar_fraction_well_defined sqrtQ 13 hr t ht).1⟩
  obtain ⟨t, ht, he, ha, htm, -, hd⟩ := h1
  rw [ht]
  simp [he, ha, htm, hd]

end ProgressBar

section RankCount

variable {F : Type} [LinearOrderedField F]

/-- The layout loop skips no toast that counts as visible. -/
theorem layoutSkips_of_countsVisible {t : ToastData F} (h : countsVisible t = true) :
    layoutSkips t = false := by
  cases he : t.is_exiting
  · simp only [countsVisible, he, Bool.not_false, Bool.true_and, Bool.false_and, Bool.or_false,
      decide_eq_true_eq] at h
    simp only [layoutSkips, he, Bool.false_and, Bool.not_false, Bool.true_and, Bool.false_or,
      decide_eq_false_iff_not, not_lt]
    exact h.le
  · simp only [countsVisible, he, Bool.not_true, Bool.false_and, Bool.true_and, Bool.false_or,
      decide_eq_true_eq] at h
    simp only [layoutSkips, he, Bool.true_and, Bool.not_true, Bool.false_and, Bool.or_false,
      decide_eq_false_iff_not, ge_iff_le, not_le]
    exact h

/-- The layout loop ranks exactly the toasts that count as visible and, in addition, the toasts
that are not exiting and have `animation_progress = 0.1` exactly. -/
theorem layoutSkips_eq_false_iff (t : ToastData F) :
    layoutSkips t = false ↔
      countsVisible t = true ∨ (t.is_exiting = false ∧ t.animation_progress = 1 / 10) := by
  constructor
  · intro hs
    cases he : t.is_exiting
    · simp only [layoutSkips, he, Bool.false_and, Bool.not_false, Bool.true_and, Bool.false_or,
        decide_eq_false_iff_not, not_lt] at hs
      rcases hs.lt_or_eq with h | h
      · left
        simp only [countsVisible, he, Bool.not_false, Bool.true_and, Bool.false_and,
          Bool.or_false, decide_eq_true_eq]
        exact h
      · exact Or.inr ⟨rfl, h.symm⟩
    · left
      simp only [layoutSkips, he, Bool.true_and, Bool.not_true, Bool.false_and, Bool.or_false,
        decide_eq_false_iff_not, ge_iff_le, not_le] at hs
      simp only [countsVisible, he, Bool.not_true, Bool.false_and, Bool.true_and, Bool.false_or,
        decide_eq_true_eq]
      exact hs
  · rintro (h | ⟨he, ha⟩)
    · exact layoutSkips_of_countsVisible h
    · simp only [layoutSkips, he, ha, Bool.false_and, Bool.not_false, Bool.true_and,
        Bool.false_or, decide_eq_false_iff_not, not_lt]
      exact le_rfl

/-- The timer loop on a freshly shown toast, for a frame of 0.15 s: the entry animation is at
exactly 0.1. -/
theorem timerStep_shown_at_tenth (cts : String → ImVec2 F) (scr : ImVec2 F) :
    timerStep (3 / 20) scr (shownToast cts scr "A" "msg" 5 false) =
      some { shownToast cts scr "A" "msg" 5 false with animation_progress := 1 / 10 } := by
  rw [timerStep_eq, if_neg (by simp [shownToast, ToastData.new]),
    if_neg (by norm_num [shownToast, ToastData.new, animation_duration])]
  simp only [shownToast, ToastData.new, animation_duration]
  norm_num

/-- C18 at its failing input: `Show("A","msg",5,false)` on the empty registry, then one
`UpdateAndRender` with `dt = 0.15`.  The timer loop leaves the toast with
`animation_progress = 0.1` and computes `visible_count = 0`, but the layout loop ranks the toast
and calls `CalculateStackParams(1, 0)`: depth 0, `offset_y = -6`. -/
theorem C18_rank_exceeds_visible_count :
    (timerLoop (3 / 20) screenQ 0 (Show measureQ screenQ "A" "msg" 5 false [])).1.map
        (fun t => (t.is_exiting, t.animation_progress)) = [(false, 1 / 10)] ∧
      (timerLoop (3 / 20) screenQ 0 (Show measureQ screenQ "A" "msg" 5 false [])).2 = 0 ∧
      (rankedToasts (3 / 20) screenQ (Show measureQ screenQ "A" "msg" 5 false [])).length = 1 ∧
      layoutCalls sqrtQ (3 / 20) screenQ (Show measureQ screenQ "A" "msg" 5 false []) = [(1, 0)] ∧
      layoutDepths sqrtQ (3 / 20) screenQ (Show measureQ screenQ "A" "msg" 5 false []) = [0] ∧
      layoutOffsets sqrtQ (3 / 20) screenQ (Show measureQ screenQ "A" "msg" 5 false []) = [-6] := by
  have hs := timerStep_shown_at_tenth measureQ screenQ
  have hl : (timerLoop (3 / 20) screenQ 0 (Show measureQ screenQ "A" "msg" 5 false [])).1 =
      [{ shownToast measureQ screenQ "A" "msg" 5 false with animation_progress := 1 / 10 }] := by
    rw [timerLoop_fst]
    simp only [Show, List.filterMap_cons, hs, List.filterMap_nil]
  have hvis : countsVisible
      { shownToast measureQ screenQ "A" "msg" 5 false with animation_progress := 1 / 10 } =
      false := by
    simp [countsVisible, shownToast, ToastData.new]
  have hskip : layoutSkips
      { shownToast measureQ screenQ "A" "msg" 5 false with animation_progress := 1 / 10 } =
      false := by
    simp [layoutSkips, shownToast, ToastData.new]
  have hvc : (timerLoop (3 / 20) screenQ 0 (Show measureQ screenQ "A" "msg" 5 false [])).2 = 0 := by
    rw [timerLoop_snd]
    simp only [Show, List.filterMap_cons, hs, List.filterMap_nil, List.filter_cons, hvis,
      List.filter_nil]
    rfl
  have hm : (rankedToasts (3 / 20) screenQ (Show measureQ screenQ "A" "msg" 5 false [])).length =
      1 := by
    unfold rankedToasts
    rw [hl]
    simp only [List.filter_cons, hskip, List.filter_nil]
    rfl
  have hcalls : layoutCalls sqrtQ (3 / 20) screenQ (Show measureQ screenQ "A" "msg" 5 false []) =
      [(1, 0)] := by
    rw [layoutCalls_eq, hvc, hm]
    rfl
  refine ⟨?_, hvc, hm, hcalls, ?_, ?_⟩
  · rw [hl]
    rfl
  · unfold layoutDepths
    rw [hcalls]
    rfl
  · unfold layoutOffsets
    rw [hcalls]
    simp [CalculateStackParams]

end RankCount

section Stacking

variable {F : Type} [LinearOrderedField F]

theorem layoutSkips_congr {t u : ToastData F} (h1 : u.is_exiting = t.is_exiting)
    (h2 : u.animation_progress = t.animation_progress)
    (h3 : u.exit_progress = t.exit_progress) : layoutSkips u = layoutSkips t := by
  unfold layoutSkips
  rw [h1, h2, h3]

/-- The target the layout loop gives a toast that is ranked and not exiting (Toast.h:172). -/
theorem layoutStep_target (sqrtf : F → F) (dt : F) (scr : ImVec2 F) (vc : Int)
    (st : LayoutState F) {t : ToastData F} (hs : layoutSkips t = false)
    (he : t.is_exiting = false) :
    (layoutStep sqrtf dt scr vc st t).2.target_pos =
      ⟨scr.x - toast_width - toast_margin - 35,
        st.current_y +
          (((ImMin vc max_visible_toasts - (st.current_index + 1) + 1 - 1 : Int) : F)) * 6⟩ := by
  simp only [layoutStep, hs, Bool.false_eq_true, if_false, he, Bool.not_false, if_true]
  rw [(UpdateToastPhysics_fields sqrtf _ _ dt).2.2.2.2.2.2.2.2.2.2.2]
  simp only [CalculateStackParams, stackArgs]

/-- The height at which the next ranked, non-exiting toast would be placed. -/
theorem layoutStep_level (sqrtf : F → F) (dt : F) (scr : ImVec2 F) (vc : Int)
    (st : LayoutState F) {t : ToastData F} (hh : 0 ≤ t.height) :
    st.current_y + (((ImMin vc max_visible_toasts - (st.current_index + 1) : Int) : F)) * 6 ≤
        (layoutStep sqrtf dt scr vc st t).1.current_y +
          (((ImMin vc max_visible_toasts -
            ((layoutStep sqrtf dt scr vc st t).1.current_index + 1) : Int) : F)) * 6 ∧
      (layoutSkips t = false → t.is_exiting = false →
        st.current_y + (((ImMin vc max_visible_toasts - (st.current_index + 1) : Int) : F)) * 6 +
            85 / 100 * t.height + 6 ≤
          (layoutStep sqrtf dt scr vc st t).1.current_y +
            (((ImMin vc max_visible_toasts -
              ((layoutStep sqrtf dt scr vc st t).1.current_index + 1) : Int) : F)) * 6) := by
  cases hs : layoutSkips t
  · rw [layoutStep_state sqrtf dt scr vc st hs]
    simp only [toast_spacing]
    push_cast
    have hscale : 0 ≤ (layoutParams vc st t).scale ∧
        (t.is_exiting = false → 85 / 100 ≤ (layoutParams vc st t).scale) := by
      have hsc := stack_scale_mem (F := F) (stackArgs vc st).1 (stackArgs vc st).2
      cases he : t.is_exiting
      · simp only [layoutParams, he, Bool.not_false, if_true]
        exact ⟨by linarith, fun _ => hsc.1⟩
      · have hep : t.exit_progress < 9 / 10 := by
          simp only [layoutSkips, he, Bool.true_and, Bool.not_true, Bool.false_and, Bool.or_false,
            decide_eq_false_iff_not, ge_iff_le, not_le] at hs
          exact hs
        simp only [layoutParams, he, Bool.not_true, Bool.false_eq_true, if_false]
        exact ⟨mul_nonneg (by linarith) (by linarith), fun hf => by cases hf⟩
    have h0 := mul_nonneg hh hscale.1
    refine ⟨by linarith, fun _ he => ?_⟩
    have h1 := mul_le_mul_of_nonneg_left (hscale.2 he) hh
    linarith
  · simp only [layoutStep, hs, if_true]
    exact ⟨le_rfl, fun hf => by cases hf⟩

/-- Every ranked, non-exiting toast of the rest of the loop is placed at or below the level of
the loop state. -/
theorem layoutLoop_target_ge (sqrtf : F → F) (dt : F) (scr : ImVec2 F) (vc : Int)
    (l : List (ToastData F)) (hh : ∀ t ∈ l, 0 ≤ t.height) (st : LayoutState F) :
    ∀ u ∈ layoutLoop sqrtf dt scr vc st l, u.is_exiting = false → layoutSkips u = false →
      st.current_y + (((ImMin vc max_visible_toasts - (st.current_index + 1) : Int) : F)) * 6 ≤
        u.target_pos.y := by
  induction l generalizing st with
  | nil => simp [layoutLoop]
  | cons t ts ih =>
    intro u hu he hs
    simp only [layoutLoop, List.mem_cons] at hu
    obtain ⟨-, -, -, -, -, h6, -, -, -, h10, h11⟩ := layoutStep_fields sqrtf dt scr vc st t
    rcases hu with rfl | hu
    · rw [h10] at he
      rw [layoutSkips_congr h10 h6 h11] at hs
      rw [layoutStep_target sqrtf dt scr vc st hs he]
      simp only
      apply le_of_eq
      congr 2
      ring_nf
    · have h1 := ih (fun v hv => hh v (List.mem_cons_of_mem _ hv)) _ u hu he hs
      have h2 := (layoutStep_level sqrtf dt scr vc st (hh t (List.mem_cons_self _ _))).1
      exact le_trans h2 h1

theorem layoutLoop_pairwise (sqrtf : F → F) (dt : F) (scr : ImVec2 F) (vc : Int)
    (l : List (ToastData F)) (hh : ∀ t ∈ l, 0 ≤ t.height) (st : LayoutState F) :
    List.Pairwise
      (fun u v => u.is_exiting = false → layoutSkips u = false → v.is_exiting = false →
        layoutSkips v = false → u.target_pos.y + 85 / 100 * u.height + 6 ≤ v.target_pos.y)
      (layoutLoop sqrtf dt scr vc st l) := by
  induction l generalizing st with
  | nil => exact List.Pairwise.nil
  | cons t ts ih =>
    simp only [layoutLoop]
    refine List.Pairwise.cons ?_ (ih (fun v hv => hh v (List.mem_cons_of_mem _ hv)) _)
    intro v hv he hs hev hsv
    obtain ⟨-, -, -, -, -, h6, -, h8, -, h10, h11⟩ := layoutStep_fields sqrtf dt scr vc st t
    rw [h10] at he
    rw [layoutSkips_congr h10 h6 h11] at hs
    have h1 := layoutLoop_target_ge sqrtf dt scr vc ts
      (fun w hw => hh w (List.mem_cons_of_mem _ hw)) _ v hv hev hsv
    have h2 := (layoutStep_level sqrtf dt scr vc st (hh t (List.mem_cons_self _ _))).2 hs he
    rw [layoutStep_target sqrtf dt scr vc st hs he, h8]
    simp only
    have e : (((ImMin vc max_visible_toasts - (st.current_index + 1) + 1 - 1 : Int) : F)) =
        (((ImMin vc max_visible_toasts - (st.current_index + 1) : Int) : F)) := by
      congr 1
      ring
    rw [e]
    exact le_trans h2 h1

theorem layoutLoop_target_x (sqrtf : F → F) (dt : F) (scr : ImVec2 F) (vc : Int)
    (l : List (ToastData F)) (st : LayoutState F) :
    ∀ u ∈ layoutLoop sqrtf dt scr vc st l, u.is_exiting = false → layoutSkips u = false →
      u.target_pos.x = scr.x - toast_width - toast_margin - 35 := by
  induction l generalizing st with
  | nil => simp [layoutLoop]
  | cons t ts ih =>
    intro u hu he hs
    simp only [layoutLoop, List.mem_cons] at hu
    rcases hu with rfl | hu
    · obtain ⟨-, -, -, -, -, h6, -, -, -, h10, h11⟩ := layoutStep_fields sqrtf dt scr vc st t
      rw [h10] at he
      rw [layoutSkips_congr h10 h6 h11] at hs
      rw [layoutStep_target sqrtf dt scr vc st hs he]
    · exact ih _ u hu he hs

/-- C19. After the layout loop of one `UpdateAndRender` over toasts of non-negative height, for
any two toasts that are ranked (not skipped) and not exiting, the later one in registry order has
a target y that exceeds the target y of the earlier one by at least `0.85 * height + 6` of the
earlier one, for any number of toasts; and every such toast has target x
`screen width - 280 - 20 - 35`. -/
theorem C19_targets_strictly_stacked (sqrtf : F → F) (dt : F) (scr : ImVec2 F)
    (reg : List (ToastData F)) (hh : ∀ t ∈ reg, 0 ≤ t.height) :
    List.Pairwise
        (fun u v => u.is_exiting = false → layoutSkips u = false → v.is_exiting = false →
          layoutSkips v = false → u.target_pos.y + 85 / 100 * u.height + 6 ≤ v.target_pos.y)
        (UpdateAndRender sqrtf dt scr reg) ∧
      ∀ u ∈ UpdateAndRender sqrtf dt scr reg, u.is_exiting = false → layoutSkips u = false →
        u.target_pos.x = scr.x - 280 - 20 - 35 := by
  have hh1 : ∀ t ∈ (timerLoop dt scr 0 reg).1, 0 ≤ t.height := by
    intro t1 ht1
    rw [timerLoop_fst] at ht1
    obtain ⟨t, ht, hs⟩ := List.mem_filterMap.1 ht1
    rw [(timerStep_identity hs).2.2.2.2.1]
    exact hh t ht
  exact ⟨layoutLoop_pairwise sqrtf dt scr _ _ hh1 _, layoutLoop_target_x sqrtf dt scr _ _ _⟩

/-- The layout loop on two toasts that are both ranked and not exiting. -/
theorem layoutLoop_pair (sqrtf : F → F) (dt : F) (scr : ImVec2 F) (vc : Int)
    (st : LayoutState F) {a b : ToastData F} (hsa : layoutSkips a = false)
    (hea : a.is_exiting = false) (hsb : layoutSkips b = false) (heb : b.is_exiting = false) :
    (layoutLoop sqrtf dt scr vc st [a, b]).map
        (fun t => (t.is_exiting, layoutSkips t, t.height, t.target_pos.y)) =
      [(false, false, a.height,
          st.current_y +
            (((ImMin vc max_visible_toasts - (st.current_index + 1) + 1 - 1 : Int) : F)) * 6),
        (false, false, b.height,
          st.current_y + (a.height * (layoutParams vc st a).scale + toast_spacing) +
            (((ImMin vc max_visible_toasts - (st.current_index + 1 + 1) + 1 - 1 : Int) : F)) *
              6)] := by
  simp only [layoutLoop, List.map_cons, List.map_nil]
  rw [layoutStep_state sqrtf dt scr vc st hsa]
  obtain ⟨-, -, -, -, -, a6, -, a8, -, a10, a11⟩ := layoutStep_fields sqrtf dt scr vc st a
  obtain ⟨-, -, -, -, -, b6, -, b8, -, b10, b11⟩ := layoutStep_fields sqrtf dt scr vc
    ⟨st.current_y + (a.height * (layoutParams vc st a).scale + toast_spacing),
      st.current_index + 1⟩ b
  rw [layoutSkips_congr a10 a6 a11, layoutSkips_congr b10 b6 b11, a10, a8, b10, b8,
    layoutStep_target sqrtf dt scr vc st hsa hea, layoutStep_target sqrtf dt scr vc _ hsb heb,
    hsa, hsb, hea, heb]

/-- Two toasts shown on a 1920 x 1080 display and laid out by one frame of 1/5 s: the newer
one is sent to y = 26, the older one to y = 93.44. -/
theorem twoShown_targets :
    (UpdateAndRender sqrtQ (1 / 5) screenQ
        (Show measureQ screenQ "B" "msg" 5 false
          (Show measureQ screenQ "A" "msg" 5 false []))).map
      (fun t => (t.is_exiting, layoutSkips t, t.height, t.target_pos.y)) =
        [(false, false, 64, 26), (false, false, 64, 2336 / 25)] := by
  have hstep : ∀ title : String, timerStep (1 / 5) screenQ
      (shownToast measureQ screenQ title "msg" 5 false) =
      some { shownToast measureQ screenQ title "msg" 5 false with animation_progress := 2 / 15 } := by
    intro title
    rw [timerStep_eq, if_neg (by simp [shownToast, ToastData.new]),
      if_neg (by norm_num [shownToast, ToastData.new, animation_duration])]
    simp only [shownToast, ToastData.new, animation_duration]
    norm_num
  have hskip : ∀ title : String, layoutSkips
      { shownToast measureQ screenQ title "msg" 5 false with animation_progress := 2 / 15 } =
      false := by
    intro title
    simp only [layoutSkips, shownToast, ToastData.new, Bool.false_and, Bool.not_false,
      Bool.true_and, Bool.false_or, decide_eq_false_iff_not, not_lt]
    norm_num
  have hvis : ∀ title : String, countsVisible
      { shownToast measureQ screenQ title "msg" 5 false with animation_progress := 2 / 15 } =
      true := by
    intro title
    simp only [countsVisible, shownToast, ToastData.new, Bool.false_and, Bool.not_false,
      Bool.true_and, Bool.or_false, decide_eq_true_eq]
    norm_num
  have hl : (timerLoop (1 / 5) screenQ 0
      (Show measureQ screenQ "B" "msg" 5 false (Show measureQ screenQ "A" "msg" 5 false []))).1 =
      [{ shownToast measureQ screenQ "B" "msg" 5 false with animation_progress := 2 / 15 },
        { shownToast measureQ screenQ "A" "msg" 5 false with animation_progress := 2 / 15 }] := by
    rw [timerLoop_fst]
    simp only [Show, List.filterMap_cons, hstep, List.filterMap_nil]
  have hvc : (timerLoop (1 / 5) screenQ 0
      (Show measureQ screenQ "B" "msg" 5 false (Show measureQ screenQ "A" "msg" 5 false []))).2 =
      2 := by
    rw [timerLoop_snd]
    simp only [Show, List.filterMap_cons, hstep, List.filterMap_nil, List.filter_cons, hvis,
      if_true, List.filter_nil]
    rfl
  unfold UpdateAndRender
  simp only [hl, hvc]
  rw [layoutLoop_pair sqrtQ (1 / 5) screenQ 2 _ (hskip "B") rfl (hskip "A") rfl]
  simp only [shownToast, ToastData.new, measureQ, layoutParams, stackArgs, CalculateStackParams,
    ImMin, max_visible_toasts, ImClamp, toast_margin, toast_spacing]
  norm_num

/-- Witness of C19: two toasts of height 64 shown and laid out by one frame of 1/5 s. -/
theorem C19_witness :
    (∀ t ∈ Show measureQ screenQ "B" "msg" 5 false (Show measureQ screenQ "A" "msg" 5 false []),
        0 ≤ t.height) ∧
      (UpdateAndRender sqrtQ (1 / 5) screenQ
          (Show measureQ screenQ "B" "msg" 5 false
            (Show measureQ screenQ "A" "msg" 5 false []))).map
        (fun t => (t.is_exiting, layoutSkips t, t.height, t.target_pos.y)) =
          [(false, false, 64, 26), (false, false, 64, 2336 / 25)] ∧
      List.Pairwise
        (fun u v => u.is_exiting = false → layoutSkips u = false → v.is_exiting = false →
          layoutSkips v = false → u.target_pos.y + 85 / 100 * u.height + 6 ≤ v.target_pos.y)
        (UpdateAndRender sqrtQ (1 / 5) screenQ
          (Show measureQ screenQ "B" "msg" 5 false
            (Show measureQ screenQ "A" "msg" 5 false []))) := by
  have hh : ∀ t ∈ Show measureQ screenQ "B" "msg" 5 false
      (Show measureQ screenQ "A" "msg" 5 false []), 0 ≤ t.height := by
    intro t ht
    simp only [Show, List.mem_cons, List.mem_singleton, List.not_mem_nil, or_false] at ht
    rcases ht with rfl | rfl <;> norm_num [shownToast, ToastData.new, measureQ]
  exact ⟨hh, twoShown_targets, (C19_targets_strictly_stacked sqrtQ (1 / 5) screenQ _ hh).1⟩

end Stacking

section Renderer

variable {F : Type} [LinearOrderedField F]

/-- The exit reveal factor, factored: `1 - EaseOutBack x = -(x - 1)^2 (2.70158 x - 1)`. -/
theorem exit_eased_factored (x : F) :
    CustomLerp 1 0 x EaseOutBack = -((x - 1) ^ 2 * ((170158 / 100000 + 1) * x - 1)) := by
  simp only [CustomLerp, EaseOutBack]
  ring

/-- A toast whose `final_alpha` is not positive gets no draw call. -/
theorem renderToast_nil_of_exiting {font_size : F} {t : ToastData F} (he : t.is_exiting = true)
    (hfa : CustomLerp 1 0 t.exit_progress EaseOutBack * t.alpha ≤ 0) :
    renderToast font_size t = [] := by
  have hs : ¬(t.shadow > 1 / 100 ∧
      CustomLerp 1 0 t.exit_progress EaseOutBack * t.alpha > 1 / 10) :=
    fun h => absurd h.2 (not_lt.2 (le_trans hfa (by norm_num)))
  have hb : ¬CustomLerp 1 0 t.exit_progress EaseOutBack * t.alpha > 1 / 100 :=
    not_lt.2 (le_trans hfa (by norm_num))
  unfold renderToast
  simp only [he, if_true, hs, hb, if_false, List.append_nil]
  split_ifs <;> rfl

/-- C20. For an exiting toast with `alpha ≥ 0` and `exit_progress ≥ 1 / 2.70158`, the renderer's
`eased_progress = CustomLerp(1, 0, exit_progress, EaseOutBack)` is at most 0, so `final_alpha`
is at most 0 and the renderer issues no draw call for the toast; as long as
`exit_progress < 0.9` the toast still counts as visible and is still ranked by the layout loop. -/
theorem C20_no_draw_calls_in_late_exit (font_size : F) (t : ToastData F)
    (he : t.is_exiting = true) (ha : 0 ≤ t.alpha)
    (hep : 1 / (270158 / 100000) ≤ t.exit_progress) :
    CustomLerp 1 0 t.exit_progress EaseOutBack ≤ 0 ∧
      CustomLerp 1 0 t.exit_progress EaseOutBack * t.alpha ≤ 0 ∧
      renderToast font_size t = [] ∧
      (t.exit_progress < 9 / 10 → countsVisible t = true ∧ layoutSkips t = false) := by
  have hx : 0 ≤ (170158 / 100000 + 1) * t.exit_progress - 1 := by
    have h1 : (270158 / 100000 : F) * (1 / (270158 / 100000)) ≤
        270158 / 100000 * t.exit_progress :=
      mul_le_mul_of_nonneg_left hep (by norm_num)
    have h2 : (270158 / 100000 : F) * (1 / (270158 / 100000)) = 1 := by norm_num
    rw [h2] at h1
    linarith
  have heased : CustomLerp 1 0 t.exit_progress EaseOutBack ≤ 0 := by
    rw [exit_eased_factored]
    exact neg_nonpos.2 (mul_nonneg (sq_nonneg _) hx)
  have hfa : CustomLerp 1 0 t.exit_progress EaseOutBack * t.alpha ≤ 0 :=
    mul_nonpos_of_nonpos_of_nonneg heased ha
  refine ⟨heased, hfa, renderToast_nil_of_exiting he hfa, fun h9 => ?_⟩
  have hv : countsVisible t = true := by
    simp only [countsVisible, he, Bool.not_true, Bool.false_and, Bool.true_and, Bool.false_or,
      decide_eq_true_eq]
    exact h9
  exact ⟨hv, layoutSkips_of_countsVisible hv⟩

/-- Witness of C20: a toast half way through its exit, with `alpha = 1`. -/
theorem C20_witness :
    exitingToastQ.is_exiting = true ∧ 0 ≤ exitingToastQ.alpha ∧
      1 / (270158 / 100000) ≤ exitingToastQ.exit_progress ∧
      exitingToastQ.exit_progress < 9 / 10 ∧
      renderToast 13 exitingToastQ = [] ∧ countsVisible exitingToastQ = true ∧
      layoutSkips exitingToastQ = false := by
  have ha : (0 : ℚ) ≤ exitingToastQ.alpha := by
    norm_num [exitingToastQ, shownToast, ToastData.new]
  have hep : (1 / (270158 / 100000) : ℚ) ≤ exitingToastQ.exit_progress := by
    norm_num [exitingToastQ]
  have h9 : exitingToastQ.exit_progress < 9 / 10 := by
    norm_num [exitingToastQ]
  have h := C20_no_draw_calls_in_late_exit 13 exitingToastQ rfl ha hep
  exact ⟨rfl, ha, hep, h9, h.2.2.1, (h.2.2.2 h9).1, (h.2.2.2 h9).2⟩

end Renderer

end Custom.Toast
